import Mathlib

/-!
Verification of the win32 emulation of `boost::interprocess::interprocess_condition`
(`src/include/boost/interprocess/sync/win32/interprocess_condition.hpp`).

The condition variable is built from an atomic command word `m_command`
(values `SLEEP`, `NOTIFY_ONE`, `NOTIFY_ALL`), an atomic counter `m_num_waiters`,
and two mutexes `m_enter_mut` and `m_check_mut`.  Waiters spin on the command
word; notifiers publish a command while holding `m_enter_mut` and leave that
mutex locked until the notification has been consumed.

We embed the code as an interleaving small-step transition system.  Every
shared-memory access of the source (an interlocked increment/decrement/
compare-exchange, an atomic load, a mutex lock/unlock/try_lock) is one atomic
step; purely local assignments (the `timed_out` and `unlock_enter_mut` local
variables) are folded into the adjacent shared-memory step.  The clock is
nondeterministic: whenever the source compares `now >= abs_time`, the model
allows both outcomes.
-/

namespace IpcCond

/-- The three values ever stored in `m_command` (`SLEEP`, `NOTIFY_ONE`,
`NOTIFY_ALL`).  The constructor writes `SLEEP` and the only writes are the
compare-exchanges with these constants, so a three-valued type is faithful. -/
inductive Cmd
  | sleep
  | notifyOne
  | notifyAll
deriving DecidableEq, Repr

/-- Program counter of a thread executing `do_timed_wait(tout_enabled, abs_time, mut)`.
Each location is immediately before the named shared-memory action of the source. -/
inductive WPC
  /-- line 78: about to evaluate `tout_enabled && now >= abs_time`. -/
  | start
  /-- line 86: about to lock `m_enter_mut` (the scoped lock). -/
  | lockEnter
  /-- line 91: holding `m_enter_mut`, about to `BOOST_INTERLOCKED_INCREMENT(&m_num_waiters)`. -/
  | incW
  /-- line 94: about to `mut.unlock()`. -/
  | unlockExt
  /-- line 95: about to release `m_enter_mut` (scoped lock destructor). -/
  | unlockEnterReg
  /-- line 105: about to load `m_command` (`exchange_and_add(&m_command, 0)`). -/
  | spin
  /-- line 115: observed `m_command == SLEEP` and `now >= abs_time`; about to
  `m_enter_mut.try_lock()`. -/
  | tryTO
  /-- line 134: timeout confirmed (`try_lock` succeeded); about to
  `BOOST_INTERLOCKED_DECREMENT(&m_num_waiters)`. -/
  | toDec
  /-- line 142: observed `m_command != SLEEP`; about to lock `m_check_mut`. -/
  | lockCheck
  /-- line 144: holding `m_check_mut`; about to
  `BOOST_INTERLOCKED_COMPARE_EXCHANGE(&m_command, SLEEP, NOTIFY_ONE)`. -/
  | casOne
  /-- line 156: the compare-exchange returned `NOTIFY_ONE` (this thread consumed it);
  about to decrement `m_num_waiters`. -/
  | decOne
  /-- line 162: the compare-exchange returned `NOTIFY_ALL`; about to decrement
  `m_num_waiters`. -/
  | decAll
  /-- line 166: this thread's decrement reached `0`; about to
  `BOOST_INTERLOCKED_COMPARE_EXCHANGE(&m_command, SLEEP, NOTIFY_ALL)`. -/
  | casAllBack
  /-- about to release `m_check_mut` after breaking out of the loop. -/
  | unlockCheckExit
  /-- line 148: the compare-exchange returned `SLEEP` (someone else consumed a
  `NOTIFY_ONE`); about to release `m_check_mut` and spin again. -/
  | unlockCheckResleep
  /-- line 175: about to test `unlock_enter_mut` and possibly `m_enter_mut.unlock()`. -/
  | maybeUnlockEnter
  /-- line 180: about to `mut.lock()`. -/
  | relockExt
  /-- line 181: returned `!timed_out`. -/
  | done
  /-- line 79: returned `false` because the deadline had already passed on entry. -/
  | doneEarly
deriving DecidableEq, Repr

/-- Program counter of a thread executing `notify(command)`. -/
inductive NPC
  /-- line 46: about to `m_enter_mut.lock()`. -/
  | nlock
  /-- line 49: about to read `m_num_waiters` (`exchange_and_add(&m_num_waiters, 0)`). -/
  | nread
  /-- line 50: read `0` waiters; about to `m_enter_mut.unlock()` and return. -/
  | nzero
  /-- line 55: about to `BOOST_INTERLOCKED_COMPARE_EXCHANGE(&m_command, command, SLEEP)`. -/
  | ncas
  /-- returned. -/
  | ndone
deriving DecidableEq, Repr

/-- Local state of a waiter: program counter, the `timed_out` and
`unlock_enter_mut` local variables (lines 98), and whether this thread still
holds its caller-supplied external mutex `mut`. -/
structure WState where
  pc : WPC
  timedOut : Bool
  unlockFlag : Bool
  extHeld : Bool
deriving DecidableEq, Repr

/-- Local state of a notifier. -/
structure NState where
  pc : NPC
deriving DecidableEq, Repr

/-- A thread is either a waiter in `do_timed_wait` (with its `tout_enabled`
argument) or a notifier in `notify` (with `isAll` telling whether the argument
is `NOTIFY_ALL` or `NOTIFY_ONE`). -/
inductive TState
  | w (toutEnabled : Bool) (st : WState)
  | n (isAll : Bool) (st : NState)
deriving DecidableEq, Repr

/-- Global shared state: the condition variable fields of the source plus the
local state of each of the `n` threads.  `enterLocked` models `m_enter_mut`
as locked/unlocked (its ownership is deliberately handed off from notifiers to
waiters, so no owner is recorded); `checkOwner` models `m_check_mut`, which is
only ever used as a scoped lock by waiters. -/
structure State (n : Nat) where
  command : Cmd
  numWaiters : Int
  enterLocked : Bool
  checkOwner : Option (Fin n)
  threads : Fin n → TState
deriving DecidableEq

/-- Static role of each thread. -/
inductive Kind
  | waiter (toutEnabled : Bool)
  | notifier (isAll : Bool)
deriving DecidableEq, Repr

/-- Initial local state of a thread of the given kind: a waiter enters
`do_timed_wait` holding its external mutex with both local flags `false`
(line 98); a notifier is about to lock `m_enter_mut`. -/
def Kind.init : Kind → TState
  | .waiter te => .w te ⟨.start, false, false, true⟩
  | .notifier a => .n a ⟨.nlock⟩

/-- Initial global state: the constructor (lines 18-22) sets
`m_command = SLEEP` and `m_num_waiters = 0`; both auxiliary mutexes are free. -/
def initState {n : Nat} (k : Fin n → Kind) : State n :=
  { command := .sleep
    numWaiters := 0
    enterLocked := false
    checkOwner := none
    threads := fun i => (k i).init }

/-- One atomic step of thread `i`.  Each constructor corresponds to one
shared-memory action of the source, at the line recorded on its program
counter. -/
inductive Step : {n : Nat} → Fin n → State n → State n → Prop
  /-- line 78: `tout_enabled` is false, or the deadline has not yet passed:
  fall through to the registration block. -/
  | startGo {n} {i : Fin n} {s : State n} {te st}
      (hth : s.threads i = .w te st) (hpc : st.pc = .start) :
      Step i s { s with threads := Function.update s.threads i (.w te { st with pc := .lockEnter }) }
  /-- line 79: `tout_enabled && now >= abs_time`: return `false` immediately,
  never having touched any shared state. -/
  | startExpired {n} {i : Fin n} {s : State n} {st}
      (hth : s.threads i = .w true st) (hpc : st.pc = .start) :
      Step i s { s with threads := Function.update s.threads i (.w true { st with pc := .doneEarly }) }
  /-- line 86: acquire `m_enter_mut` (blocks while it is locked). -/
  | enterAcq {n} {i : Fin n} {s : State n} {te st}
      (hth : s.threads i = .w te st) (hpc : st.pc = .lockEnter) (hfree : s.enterLocked = false) :
      Step i s { s with
          enterLocked := true, threads := Function.update s.threads i (.w te { st with pc := .incW }) }
  /-- line 91: `BOOST_INTERLOCKED_INCREMENT(&m_num_waiters)`. -/
  | incStep {n} {i : Fin n} {s : State n} {te st}
      (hth : s.threads i = .w te st) (hpc : st.pc = .incW) :
      Step i s { s with
          numWaiters := s.numWaiters + 1
          threads := Function.update s.threads i (.w te { st with pc := .unlockExt }) }
  /-- line 94: `mut.unlock()`: hand back the caller's external mutex. -/
  | extRelease {n} {i : Fin n} {s : State n} {te st}
      (hth : s.threads i = .w te st) (hpc : st.pc = .unlockExt) :
      Step i s { s with threads := Function.update s.threads i (.w te { st with pc := .unlockEnterReg, extHeld := false }) }
  /-- line 95: the scoped lock on `m_enter_mut` is released. -/
  | enterRelReg {n} {i : Fin n} {s : State n} {te st}
      (hth : s.threads i = .w te st) (hpc : st.pc = .unlockEnterReg) :
      Step i s { s with
          enterLocked := false, threads := Function.update s.threads i (.w te { st with pc := .spin }) }
  /-- line 105-106: load `m_command`, observe `SLEEP`, `sched_yield()` and loop
  (deadline not observed as passed). -/
  | spinSleep {n} {i : Fin n} {s : State n} {te st}
      (hth : s.threads i = .w te st) (hpc : st.pc = .spin) (hcmd : s.command = .sleep) :
      Step i s s
  /-- line 112: load `m_command`, observe `SLEEP`; `tout_enabled` and
  `now >= abs_time`: move to the `try_lock` of line 115. -/
  | spinTimeoutChk {n} {i : Fin n} {s : State n} {st}
      (hth : s.threads i = .w true st) (hpc : st.pc = .spin) (hcmd : s.command = .sleep) :
      Step i s { s with threads := Function.update s.threads i (.w true { st with pc := .tryTO }) }
  /-- line 105: load `m_command`, observe a notification: leave the spin loop
  toward the `m_check_mut` block. -/
  | spinNotice {n} {i : Fin n} {s : State n} {te st}
      (hth : s.threads i = .w te st) (hpc : st.pc = .spin) (hcmd : s.command ≠ .sleep) :
      Step i s { s with threads := Function.update s.threads i (.w te { st with pc := .lockCheck }) }
  /-- line 115-121: `m_enter_mut.try_lock()` fails (a notification transition is
  in progress): `timed_out` stays `false`, continue spinning. -/
  | tryFail {n} {i : Fin n} {s : State n} {st}
      (hth : s.threads i = .w true st) (hpc : st.pc = .tryTO) (hlk : s.enterLocked = true) :
      Step i s { s with threads := Function.update s.threads i (.w true { st with pc := .spin }) }
  /-- line 115, 126: `m_enter_mut.try_lock()` succeeds: `timed_out := true`,
  break out to the timeout branch. -/
  | trySucc {n} {i : Fin n} {s : State n} {st}
      (hth : s.threads i = .w true st) (hpc : st.pc = .tryTO) (hlk : s.enterLocked = false) :
      Step i s { s with
          enterLocked := true, threads := Function.update s.threads i (.w true { st with pc := .toDec, timedOut := true }) }
  /-- lines 134-136: decrement `m_num_waiters`, set `unlock_enter_mut := true`,
  break out of the outer loop. -/
  | toDecStep {n} {i : Fin n} {s : State n} {st}
      (hth : s.threads i = .w true st) (hpc : st.pc = .toDec) :
      Step i s { s with
          numWaiters := s.numWaiters - 1, threads := Function.update s.threads i (.w true { st with pc := .maybeUnlockEnter, unlockFlag := true }) }
  /-- line 142: acquire `m_check_mut`. -/
  | checkAcq {n} {i : Fin n} {s : State n} {te st}
      (hth : s.threads i = .w te st) (hpc : st.pc = .lockCheck) (hfree : s.checkOwner = none) :
      Step i s { s with
          checkOwner := some i
          threads := Function.update s.threads i (.w te { st with pc := .casOne }) }
  /-- lines 144-148: the compare-exchange finds `SLEEP` (another thread already
  consumed the `NOTIFY_ONE`): `continue`, i.e. release `m_check_mut` and re-spin. -/
  | casOneSleep {n} {i : Fin n} {s : State n} {te st}
      (hth : s.threads i = .w te st) (hpc : st.pc = .casOne) (hcmd : s.command = .sleep) :
      Step i s { s with threads := Function.update s.threads i (.w te { st with pc := .unlockCheckResleep }) }
  /-- lines 144, 150-156: the compare-exchange finds `NOTIFY_ONE` and swaps it to
  `SLEEP`: this thread is the sole consumer; `unlock_enter_mut := true`. -/
  | casOneWin {n} {i : Fin n} {s : State n} {te st}
      (hth : s.threads i = .w te st) (hpc : st.pc = .casOne) (hcmd : s.command = .notifyOne) :
      Step i s { s with
          command := .sleep, threads := Function.update s.threads i (.w te { st with pc := .decOne, unlockFlag := true }) }
  /-- lines 144, 159: the compare-exchange finds `NOTIFY_ALL` (and leaves it
  unchanged): take the notify-all branch. -/
  | casOneAll {n} {i : Fin n} {s : State n} {te st}
      (hth : s.threads i = .w te st) (hpc : st.pc = .casOne) (hcmd : s.command = .notifyAll) :
      Step i s { s with threads := Function.update s.threads i (.w te { st with pc := .decAll }) }
  /-- line 156: `BOOST_INTERLOCKED_DECREMENT(&m_num_waiters)` after winning a
  `NOTIFY_ONE`, then break. -/
  | decOneStep {n} {i : Fin n} {s : State n} {te st}
      (hth : s.threads i = .w te st) (hpc : st.pc = .decOne) :
      Step i s { s with
          numWaiters := s.numWaiters - 1, threads := Function.update s.threads i (.w te { st with pc := .unlockCheckExit }) }
  /-- line 162: decrement `m_num_waiters` in the `NOTIFY_ALL` branch; the result
  is `0`, so `unlock_enter_mut := true` and this thread will reset the command. -/
  | decAllLast {n} {i : Fin n} {s : State n} {te st}
      (hth : s.threads i = .w te st) (hpc : st.pc = .decAll) (hone : s.numWaiters = 1) :
      Step i s { s with
          numWaiters := s.numWaiters - 1, threads := Function.update s.threads i (.w te { st with pc := .casAllBack, unlockFlag := true }) }
  /-- line 162: decrement `m_num_waiters` in the `NOTIFY_ALL` branch; the result
  is not `0`, so `unlock_enter_mut` stays `false` and this thread just exits. -/
  | decAllMore {n} {i : Fin n} {s : State n} {te st}
      (hth : s.threads i = .w te st) (hpc : st.pc = .decAll) (hone : s.numWaiters ≠ 1) :
      Step i s { s with
          numWaiters := s.numWaiters - 1, threads := Function.update s.threads i (.w te { st with pc := .unlockCheckExit }) }
  /-- line 166: `BOOST_INTERLOCKED_COMPARE_EXCHANGE(&m_command, SLEEP, NOTIFY_ALL)`
  by the last notify-all waiter. -/
  | casAllBackStep {n} {i : Fin n} {s : State n} {te st}
      (hth : s.threads i = .w te st) (hpc : st.pc = .casAllBack) :
      Step i s { s with
          command := if s.command = .notifyAll then .sleep else s.command, threads := Function.update s.threads i (.w te { st with pc := .unlockCheckExit }) }
  /-- the scoped lock on `m_check_mut` is released on `break` (end of the block
  at line 170). -/
  | checkRelExit {n} {i : Fin n} {s : State n} {te st}
      (hth : s.threads i = .w te st) (hpc : st.pc = .unlockCheckExit) :
      Step i s { s with
          checkOwner := none
          threads := Function.update s.threads i (.w te { st with pc := .maybeUnlockEnter }) }
  /-- the scoped lock on `m_check_mut` is released on `continue` (line 148). -/
  | checkRelSleep {n} {i : Fin n} {s : State n} {te st}
      (hth : s.threads i = .w te st) (hpc : st.pc = .unlockCheckResleep) :
      Step i s { s with
          checkOwner := none
          threads := Function.update s.threads i (.w te { st with pc := .spin }) }
  /-- lines 175-177: `if (unlock_enter_mut) m_enter_mut.unlock()`. -/
  | enterRelMaybe {n} {i : Fin n} {s : State n} {te st}
      (hth : s.threads i = .w te st) (hpc : st.pc = .maybeUnlockEnter) :
      Step i s { s with
          enterLocked := if st.unlockFlag then false else s.enterLocked
          threads := Function.update s.threads i (.w te { st with pc := .relockExt }) }
  /-- line 180: `mut.lock()`: reacquire the caller's external mutex, then return. -/
  | extAcq {n} {i : Fin n} {s : State n} {te st}
      (hth : s.threads i = .w te st) (hpc : st.pc = .relockExt) :
      Step i s { s with threads := Function.update s.threads i (.w te { st with pc := .done, extHeld := true }) }
  /-- line 46: notifier acquires `m_enter_mut`. -/
  | nEnterAcq {n} {i : Fin n} {s : State n} {a st}
      (hth : s.threads i = .n a st) (hpc : st.pc = .nlock) (hfree : s.enterLocked = false) :
      Step i s { s with
          enterLocked := true, threads := Function.update s.threads i (.n a { st with pc := .nread }) }
  /-- line 49: `exchange_and_add(&m_num_waiters, 0)` reads `0`: take the no-op
  return path. -/
  | nReadZero {n} {i : Fin n} {s : State n} {a st}
      (hth : s.threads i = .n a st) (hpc : st.pc = .nread) (hz : s.numWaiters = 0) :
      Step i s { s with threads := Function.update s.threads i (.n a { st with pc := .nzero }) }
  /-- line 49: `exchange_and_add(&m_num_waiters, 0)` reads a non-zero count. -/
  | nReadPos {n} {i : Fin n} {s : State n} {a st}
      (hth : s.threads i = .n a st) (hpc : st.pc = .nread) (hz : s.numWaiters ≠ 0) :
      Step i s { s with threads := Function.update s.threads i (.n a { st with pc := .ncas }) }
  /-- line 50: `m_enter_mut.unlock()` and return (zero waiters). -/
  | nEnterRel {n} {i : Fin n} {s : State n} {a st}
      (hth : s.threads i = .n a st) (hpc : st.pc = .nzero) :
      Step i s { s with
          enterLocked := false, threads := Function.update s.threads i (.n a { st with pc := .ndone }) }
  /-- line 55: `BOOST_INTERLOCKED_COMPARE_EXCHANGE(&m_command, command, SLEEP)`,
  then return leaving `m_enter_mut` locked. -/
  | nCas {n} {i : Fin n} {s : State n} {a st}
      (hth : s.threads i = .n a st) (hpc : st.pc = .ncas) :
      Step i s { s with
          command := if s.command = .sleep then (if a then .notifyAll else .notifyOne) else s.command, threads := Function.update s.threads i (.n a { st with pc := .ndone }) }

/-- An execution: a list of recorded transitions `(thread, pre-state, post-state)`
linking `s` to `u`. -/
inductive Steps : {n : Nat} → State n → List (Fin n × State n × State n) → State n → Prop
  | nil {n} {s : State n} : Steps s [] s
  | cons {n} {i : Fin n} {s t u : State n} {l} :
      Step i s t → Steps t l u → Steps s ((i, s, t) :: l) u

/-- `s` is reachable from the initial state of configuration `k`. -/
def Reach {n : Nat} (k : Fin n → Kind) (s : State n) : Prop :=
  ∃ l, Steps (initState k) l s

/-- `1` iff the thread is a waiter counted in `m_num_waiters`: its program
counter lies after the interlocked increment (line 91) and before its
interlocked decrement (line 134, 156 or 162). -/
def cnt : TState → Nat
  | .w _ st => match st.pc with
    | .unlockExt | .unlockEnterReg | .spin | .tryTO | .toDec | .lockCheck
    | .casOne | .decOne | .decAll | .unlockCheckResleep => 1
    | _ => 0
  | .n _ _ => 0

/-- `1` iff the thread currently owns the right to unlock `m_enter_mut`:
a waiter inside the registration block, a timed-out waiter after its
successful `try_lock`, a waiter that consumed a notification (its
`unlock_enter_mut` flag is set and it has not yet reached line 177), or a
notifier inside its critical section. -/
def tok : TState → Nat
  | .w _ st => match st.pc with
    | .incW | .unlockExt | .unlockEnterReg | .toDec | .decOne | .casAllBack => 1
    | .unlockCheckExit | .maybeUnlockEnter => if st.unlockFlag then 1 else 0
    | _ => 0
  | .n _ st => match st.pc with
    | .nread | .nzero | .ncas => 1
    | _ => 0

/-- `1` iff a published notification is still in flight, i.e. some waiter will
eventually set the `unlock_enter_mut` flag for it: a `NOTIFY_ONE` until its
consumer's compare-exchange, a `NOTIFY_ALL` until the decrement that reaches
zero. -/
def inflight {n : Nat} (s : State n) : Nat :=
  match s.command with
  | .sleep => 0
  | .notifyOne => 1
  | .notifyAll => if 0 < s.numWaiters then 1 else 0

/-- Number of waiters counted in `m_num_waiters` according to program counters. -/
def cntSum {n : Nat} (s : State n) : Nat := ∑ j, cnt (s.threads j)

/-- Number of outstanding rights to unlock `m_enter_mut` held by threads. -/
def tokSum {n : Nat} (s : State n) : Nat := ∑ j, tok (s.threads j)

/-- `m_check_mut` critical section: program counters at which a waiter holds
`m_check_mut`. -/
def inCheck : WPC → Prop
  | .casOne | .decOne | .decAll | .casAllBack | .unlockCheckExit | .unlockCheckResleep => True
  | _ => False

/-- Program counters at which a waiter holds the caller's external mutex:
before the `mut.unlock()` of line 94 or after the `mut.lock()` of line 180
(including the early return of line 79, where it was never released). -/
def extRegion : WPC → Prop
  | .start | .lockEnter | .incW | .unlockExt | .done | .doneEarly => True
  | _ => False

/-- Program counters of the active wait path at which the `unlock_enter_mut`
local variable is still `false` (it is set only at lines 135, 155 and 162). -/
def flagClear : WPC → Prop
  | .start | .lockEnter | .incW | .unlockExt | .unlockEnterReg | .spin | .tryTO
  | .lockCheck | .casOne | .decAll | .unlockCheckResleep => True
  | _ => False

/-- The value returned by a completed call, `none` while still running:
`do_timed_wait` returns `!timed_out` at line 181 and `false` at line 79. -/
def result : TState → Option Bool
  | .w _ st => match st.pc with
    | .done => some (!st.timedOut)
    | .doneEarly => some false
    | _ => none
  | .n _ _ => none

/-- The global inductive invariant of the protocol. -/
structure Inv {n : Nat} (s : State n) : Prop where
  /-- `m_num_waiters` equals the number of registered waiters. -/
  count_eq : s.numWaiters = (cntSum s : Int)
  /-- `m_enter_mut` is locked iff exactly one unlock-right exists (thread-held
  or tied to an in-flight notification); it is free iff none exists. -/
  tokens : tokSum s + inflight s = (if s.enterLocked then 1 else 0)
  /-- a `NOTIFY_ALL` still has recipients, or its last recipient is about to
  swap it back to `SLEEP`. -/
  allPos : s.command = .notifyAll →
    0 < s.numWaiters ∨ ∃ j te st, s.threads j = .w te st ∧ st.pc = .casAllBack
  /-- a notifier at the compare-exchange of line 55 still sees waiters. -/
  ncasPos : ∀ i a st, s.threads i = .n a st → st.pc = .ncas → 0 < s.numWaiters
  /-- a notifier on the zero-waiter return path saw, and still sees, no waiters. -/
  nzeroCount : ∀ i a st, s.threads i = .n a st → st.pc = .nzero → s.numWaiters = 0
  /-- a waiter in the notify-all branch sees `NOTIFY_ALL` until the last one
  swaps it back. -/
  decAllCmd : ∀ i te st, s.threads i = .w te st → st.pc = .decAll → s.command = .notifyAll
  /-- the last notify-all waiter finds `NOTIFY_ALL` at line 166, and its
  `unlock_enter_mut` flag is set. -/
  casBackCmd : ∀ i te st, s.threads i = .w te st → st.pc = .casAllBack →
    s.command = .notifyAll ∧ st.unlockFlag = true
  /-- the last notify-all waiter's decrement reached zero. -/
  casBackCount : ∀ i te st, s.threads i = .w te st → st.pc = .casAllBack → s.numWaiters = 0
  /-- `m_check_mut` mutual exclusion: a waiter is in the check critical section
  iff it is the recorded owner. -/
  check_iff : ∀ i, (∃ te st, s.threads i = .w te st ∧ inCheck st.pc) ↔ s.checkOwner = some i
  /-- when `m_enter_mut` is free, no notification is pending. -/
  sleepUnlocked : s.enterLocked = false → s.command = .sleep
  /-- a thread holding an unlock-right after consuming a notification or
  confirming a timeout sees `m_command = SLEEP`. -/
  flagSleep : ∀ i te st, s.threads i = .w te st →
    (st.pc = .toDec ∨ st.pc = .decOne ∨
      (st.unlockFlag = true ∧ (st.pc = .unlockCheckExit ∨ st.pc = .maybeUnlockEnter))) →
    s.command = .sleep
  /-- the external mutex is held exactly in `extRegion`. -/
  ext_iff : ∀ i te st, s.threads i = .w te st → (st.extHeld = true ↔ extRegion st.pc)
  /-- `timed_out` is set only on the timeout exit path. -/
  timedOutPc : ∀ i te st, s.threads i = .w te st → st.timedOut = true →
    st.pc = .toDec ∨ st.pc = .maybeUnlockEnter ∨ st.pc = .relockExt ∨ st.pc = .done
  /-- conversely, a waiter at the timeout decrement did set `timed_out`. -/
  toDecTimedOut : ∀ i te st, s.threads i = .w te st → st.pc = .toDec → st.timedOut = true

/-- Auxiliary invariant about the `unlock_enter_mut` local variable. -/
structure FlagInv {n : Nat} (s : State n) : Prop where
  /-- the winner of a `NOTIFY_ONE` set its flag at line 155. -/
  decOneFlag : ∀ i te st, s.threads i = .w te st → st.pc = .decOne → st.unlockFlag = true
  /-- the flag is still clear everywhere on the active wait path. -/
  flagFalse : ∀ i te st, s.threads i = .w te st → flagClear st.pc → st.unlockFlag = false

/-- Generic preservation of the `decOneFlag` field. -/
theorem presF_decOne {n : Nat} {s : State n} {i : Fin n} {t' : TState}
    {th2 : Fin n → TState}
    (hpre : ∀ j te st, s.threads j = .w te st → st.pc = .decOne → st.unlockFlag = true)
    (h2t : th2 = Function.update s.threads i t')
    (hnew : ∀ te st, t' = .w te st → st.pc = .decOne → st.unlockFlag = true) :
    ∀ j te st, th2 j = .w te st → st.pc = .decOne → st.unlockFlag = true := by
  intro j te st hj
  rw [h2t] at hj
  by_cases hji : j = i
  · subst hji; rw [Function.update_same] at hj; exact hnew te st hj
  · rw [Function.update_noteq hji] at hj; exact hpre j te st hj

/-- Generic preservation of the `flagFalse` field. -/
theorem presF_clear {n : Nat} {s : State n} {i : Fin n} {t' : TState}
    {th2 : Fin n → TState}
    (hpre : ∀ j te st, s.threads j = .w te st → flagClear st.pc → st.unlockFlag = false)
    (h2t : th2 = Function.update s.threads i t')
    (hnew : ∀ te st, t' = .w te st → flagClear st.pc → st.unlockFlag = false) :
    ∀ j te st, th2 j = .w te st → flagClear st.pc → st.unlockFlag = false := by
  intro j te st hj
  rw [h2t] at hj
  by_cases hji : j = i
  · subst hji; rw [Function.update_same] at hj; exact hnew te st hj
  · rw [Function.update_noteq hji] at hj; exact hpre j te st hj

/-- The initial state satisfies the flag invariant. -/
theorem flagInv_init {n : Nat} (k : Fin n → Kind) : FlagInv (initState k) := by
  constructor
  · intro j te st hj hpc
    have h0 : (k j).init = .w te st := hj
    cases hk : k j <;> rw [hk] at h0 <;> unfold Kind.init at h0
    · injection h0 with h1 h2
      subst h2
      cases hpc
    · exact absurd h0 (by simp)
  · intro j te st hj hpc
    have h0 : (k j).init = .w te st := hj
    cases hk : k j <;> rw [hk] at h0 <;> unfold Kind.init at h0
    · injection h0 with h1 h2
      subst h2
      rfl
    · exact absurd h0 (by simp)

/-- One step preserves the flag invariant. -/
theorem flagInv_step {n : Nat} {i : Fin n} {s s2 : State n}
    (hF : FlagInv s) (hstep : Step i s s2) : FlagInv s2 := by
  cases hstep with
  | startGo hth hpc =>
    rename_i te st
    refine ⟨presF_decOne hF.decOneFlag rfl ?_, presF_clear hF.flagFalse rfl ?_⟩
    · intro te2 st2 he hp
      injection he with h1 h2
      subst h2
      cases hp
    · intro te2 st2 he hp
      injection he with h1 h2
      subst h2
      exact hF.flagFalse i te st hth (by rw [hpc]; trivial)
  | startExpired hth hpc =>
    rename_i st
    refine ⟨presF_decOne hF.decOneFlag rfl ?_, presF_clear hF.flagFalse rfl ?_⟩
    · intro te2 st2 he hp
      injection he with h1 h2
      subst h2
      cases hp
    · intro te2 st2 he hp
      injection he with h1 h2
      subst h2
      cases hp
  | enterAcq hth hpc hfree =>
    rename_i te st
    refine ⟨presF_decOne hF.decOneFlag rfl ?_, presF_clear hF.flagFalse rfl ?_⟩
    · intro te2 st2 he hp
      injection he with h1 h2
      subst h2
      cases hp
    · intro te2 st2 he hp
      injection he with h1 h2
      subst h2
      exact hF.flagFalse i te st hth (by rw [hpc]; trivial)
  | incStep hth hpc =>
    rename_i te st
    refine ⟨presF_decOne hF.decOneFlag rfl ?_, presF_clear hF.flagFalse rfl ?_⟩
    · intro te2 st2 he hp
      injection he with h1 h2
      subst h2
      cases hp
    · intro te2 st2 he hp
      injection he with h1 h2
      subst h2
      exact hF.flagFalse i te st hth (by rw [hpc]; trivial)
  | extRelease hth hpc =>
    rename_i te st
    refine ⟨presF_decOne hF.decOneFlag rfl ?_, presF_clear hF.flagFalse rfl ?_⟩
    · intro te2 st2 he hp
      injection he with h1 h2
      subst h2
      cases hp
    · intro te2 st2 he hp
      injection he with h1 h2
      subst h2
      exact hF.flagFalse i te st hth (by rw [hpc]; trivial)
  | enterRelReg hth hpc =>
    rename_i te st
    refine ⟨presF_decOne hF.decOneFlag rfl ?_, presF_clear hF.flagFalse rfl ?_⟩
    · intro te2 st2 he hp
      injection he with h1 h2
      subst h2
      cases hp
    · intro te2 st2 he hp
      injection he with h1 h2
      subst h2
      exact hF.flagFalse i te st hth (by rw [hpc]; trivial)
  | spinSleep hth hpc hcmd => exact hF
  | spinTimeoutChk hth hpc hcmd =>
    rename_i st
    refine ⟨presF_decOne hF.decOneFlag rfl ?_, presF_clear hF.flagFalse rfl ?_⟩
    · intro te2 st2 he hp
      injection he with h1 h2
      subst h2
      cases hp
    · intro te2 st2 he hp
      injection he with h1 h2
      subst h2
      exact hF.flagFalse i true st hth (by rw [hpc]; trivial)
  | spinNotice hth hpc hcmd =>
    rename_i te st
    refine ⟨presF_decOne hF.decOneFlag rfl ?_, presF_clear hF.flagFalse rfl ?_⟩
    · intro te2 st2 he hp
      injection he with h1 h2
      subst h2
      cases hp
    · intro te2 st2 he hp
      injection he with h1 h2
      subst h2
      exact hF.flagFalse i te st hth (by rw [hpc]; trivial)
  | tryFail hth hpc hlk =>
    rename_i st
    refine ⟨presF_decOne hF.decOneFlag rfl ?_, presF_clear hF.flagFalse rfl ?_⟩
    · intro te2 st2 he hp
      injection he with h1 h2
      subst h2
      cases hp
    · intro te2 st2 he hp
      injection he with h1 h2
      subst h2
      exact hF.flagFalse i true st hth (by rw [hpc]; trivial)
  | trySucc hth hpc hlk =>
    rename_i st
    refine ⟨presF_decOne hF.decOneFlag rfl ?_, presF_clear hF.flagFalse rfl ?_⟩
    · intro te2 st2 he hp
      injection he with h1 h2
      subst h2
      cases hp
    · intro te2 st2 he hp
      injection he with h1 h2
      subst h2
      cases hp
  | toDecStep hth hpc =>
    rename_i st
    refine ⟨presF_decOne hF.decOneFlag rfl ?_, presF_clear hF.flagFalse rfl ?_⟩
    · intro te2 st2 he hp
      injection he with h1 h2
      subst h2
      cases hp
    · intro te2 st2 he hp
      injection he with h1 h2
      subst h2
      cases hp
  | checkAcq hth hpc hfree =>
    rename_i te st
    refine ⟨presF_decOne hF.decOneFlag rfl ?_, presF_clear hF.flagFalse rfl ?_⟩
    · intro te2 st2 he hp
      injection he with h1 h2
      subst h2
      cases hp
    · intro te2 st2 he hp
      injection he with h1 h2
      subst h2
      exact hF.flagFalse i te st hth (by rw [hpc]; trivial)
  | casOneSleep hth hpc hcmd =>
    rename_i te st
    refine ⟨presF_decOne hF.decOneFlag rfl ?_, presF_clear hF.flagFalse rfl ?_⟩
    · intro te2 st2 he hp
      injection he with h1 h2
      subst h2
      cases hp
    · intro te2 st2 he hp
      injection he with h1 h2
      subst h2
      exact hF.flagFalse i te st hth (by rw [hpc]; trivial)
  | casOneWin hth hpc hcmd =>
    rename_i te st
    refine ⟨presF_decOne hF.decOneFlag rfl ?_, presF_clear hF.flagFalse rfl ?_⟩
    · intro te2 st2 he hp
      injection he with h1 h2
      subst h2
      rfl
    · intro te2 st2 he hp
      injection he with h1 h2
      subst h2
      cases hp
  | casOneAll hth hpc hcmd =>
    rename_i te st
    refine ⟨presF_decOne hF.decOneFlag rfl ?_, presF_clear hF.flagFalse rfl ?_⟩
    · intro te2 st2 he hp
      injection he with h1 h2
      subst h2
      cases hp
    · intro te2 st2 he hp
      injection he with h1 h2
      subst h2
      exact hF.flagFalse i te st hth (by rw [hpc]; trivial)
  | decOneStep hth hpc =>
    rename_i te st
    refine ⟨presF_decOne hF.decOneFlag rfl ?_, presF_clear hF.flagFalse rfl ?_⟩
    · intro te2 st2 he hp
      injection he with h1 h2
      subst h2
      cases hp
    · intro te2 st2 he hp
      injection he with h1 h2
      subst h2
      cases hp
  | decAllLast hth hpc hone =>
    rename_i te st
    refine ⟨presF_decOne hF.decOneFlag rfl ?_, presF_clear hF.flagFalse rfl ?_⟩
    · intro te2 st2 he hp
      injection he with h1 h2
      subst h2
      cases hp
    · intro te2 st2 he hp
      injection he with h1 h2
      subst h2
      cases hp
  | decAllMore hth hpc hone =>
    rename_i te st
    refine ⟨presF_decOne hF.decOneFlag rfl ?_, presF_clear hF.flagFalse rfl ?_⟩
    · intro te2 st2 he hp
      injection he with h1 h2
      subst h2
      cases hp
    · intro te2 st2 he hp
      injection he with h1 h2
      subst h2
      cases hp
  | casAllBackStep hth hpc =>
    rename_i te st
    refine ⟨presF_decOne hF.decOneFlag rfl ?_, presF_clear hF.flagFalse rfl ?_⟩
    · intro te2 st2 he hp
      injection he with h1 h2
      subst h2
      cases hp
    · intro te2 st2 he hp
      injection he with h1 h2
      subst h2
      cases hp
  | checkRelExit hth hpc =>
    rename_i te st
    refine ⟨presF_decOne hF.decOneFlag rfl ?_, presF_clear hF.flagFalse rfl ?_⟩
    · intro te2 st2 he hp
      injection he with h1 h2
      subst h2
      cases hp
    · intro te2 st2 he hp
      injection he with h1 h2
      subst h2
      cases hp
  | checkRelSleep hth hpc =>
    rename_i te st
    refine ⟨presF_decOne hF.decOneFlag rfl ?_, presF_clear hF.flagFalse rfl ?_⟩
    · intro te2 st2 he hp
      injection he with h1 h2
      subst h2
      cases hp
    · intro te2 st2 he hp
      injection he with h1 h2
      subst h2
      exact hF.flagFalse i te st hth (by rw [hpc]; trivial)
  | enterRelMaybe hth hpc =>
    rename_i te st
    refine ⟨presF_decOne hF.decOneFlag rfl ?_, presF_clear hF.flagFalse rfl ?_⟩
    · intro te2 st2 he hp
      injection he with h1 h2
      subst h2
      cases hp
    · intro te2 st2 he hp
      injection he with h1 h2
      subst h2
      cases hp
  | extAcq hth hpc =>
    rename_i te st
    refine ⟨presF_decOne hF.decOneFlag rfl ?_, presF_clear hF.flagFalse rfl ?_⟩
    · intro te2 st2 he hp
      injection he with h1 h2
      subst h2
      cases hp
    · intro te2 st2 he hp
      injection he with h1 h2
      subst h2
      cases hp
  | nEnterAcq hth hpc hfree =>
    refine ⟨presF_decOne hF.decOneFlag rfl ?_, presF_clear hF.flagFalse rfl ?_⟩
    · intro te2 st2 he hp
      exact absurd he (by simp)
    · intro te2 st2 he hp
      exact absurd he (by simp)
  | nReadZero hth hpc hz =>
    refine ⟨presF_decOne hF.decOneFlag rfl ?_, presF_clear hF.flagFalse rfl ?_⟩
    · intro te2 st2 he hp
      exact absurd he (by simp)
    · intro te2 st2 he hp
      exact absurd he (by simp)
  | nReadPos hth hpc hz =>
    refine ⟨presF_decOne hF.decOneFlag rfl ?_, presF_clear hF.flagFalse rfl ?_⟩
    · intro te2 st2 he hp
      exact absurd he (by simp)
    · intro te2 st2 he hp
      exact absurd he (by simp)
  | nEnterRel hth hpc =>
    refine ⟨presF_decOne hF.decOneFlag rfl ?_, presF_clear hF.flagFalse rfl ?_⟩
    · intro te2 st2 he hp
      exact absurd he (by simp)
    · intro te2 st2 he hp
      exact absurd he (by simp)
  | nCas hth hpc =>
    refine ⟨presF_decOne hF.decOneFlag rfl ?_, presF_clear hF.flagFalse rfl ?_⟩
    · intro te2 st2 he hp
      exact absurd he (by simp)
    · intro te2 st2 he hp
      exact absurd he (by simp)

/-- Replacing thread `i` changes a threadwise sum by the difference at `i`. -/
theorem sum_comp_update {n : Nat} (g : TState → Nat) (th : Fin n → TState)
    (i : Fin n) (t : TState) :
    (∑ j, g (Function.update th i t j)) + g (th i) = (∑ j, g (th j)) + g t := by
  have hfun : (fun j => g (Function.update th i t j))
      = Function.update (fun j => g (th j)) i (g t) := by
    funext j
    by_cases hj : j = i
    · subst hj; simp
    · simp [Function.update_apply, hj]
  rw [hfun, Finset.sum_update_of_mem (Finset.mem_univ i)]
  rw [← Finset.sum_erase_add Finset.univ _ (Finset.mem_univ i), Finset.erase_eq]
  omega

/-- A single summand bounds a threadwise sum from below. -/
theorem le_sum_of_mem {n : Nat} (g : TState → Nat) (th : Fin n → TState) (i : Fin n) :
    g (th i) ≤ ∑ j, g (th j) :=
  Finset.single_le_sum (fun j _ => Nat.zero_le (g (th j))) (Finset.mem_univ i)

/-- Two distinct summands bound a threadwise sum from below. -/
theorem two_le_sum {n : Nat} (g : TState → Nat) (th : Fin n → TState) {i j : Fin n}
    (hij : i ≠ j) (hi : 1 ≤ g (th i)) (hj : 1 ≤ g (th j)) : 2 ≤ ∑ l, g (th l) := by
  have hpair : ∑ l ∈ ({i, j} : Finset (Fin n)), g (th l) = g (th i) + g (th j) :=
    Finset.sum_pair hij
  have hle : ∑ l ∈ ({i, j} : Finset (Fin n)), g (th l) ≤ ∑ l, g (th l) :=
    Finset.sum_le_sum_of_subset (Finset.subset_univ _)
  omega

/-- The total number of unlock-rights never exceeds one. -/
theorem tokSum_le_one {n : Nat} {s : State n} (hInv : Inv s) : tokSum s + inflight s ≤ 1 := by
  have ht := hInv.tokens
  cases h : s.enterLocked <;> rw [h] at ht <;> simp at ht <;> omega

/-- A thread holding an unlock-right implies `m_enter_mut` is locked. -/
theorem locked_of_tok {n : Nat} {s : State n} (hInv : Inv s) {i : Fin n}
    (h1 : 1 ≤ tok (s.threads i)) : s.enterLocked = true := by
  have hle : tok (s.threads i) ≤ tokSum s := le_sum_of_mem tok s.threads i
  have ht := hInv.tokens
  cases h : s.enterLocked
  · rw [h] at ht
    simp at ht
    omega
  · rfl

/-- If thread `i` holds an unlock-right, nobody else does and no notification
is in flight. -/
theorem others_of_tok {n : Nat} {s : State n} (hInv : Inv s) {i : Fin n}
    (hi : tok (s.threads i) = 1) :
    (∀ j, j ≠ i → tok (s.threads j) = 0) ∧ inflight s = 0 := by
  have hlock : s.enterLocked = true := locked_of_tok hInv hi.ge
  have ht := hInv.tokens
  rw [hlock] at ht; simp at ht
  have hle : tok (s.threads i) ≤ tokSum s := le_sum_of_mem tok s.threads i
  unfold tokSum at ht hle
  constructor
  · intro j hj
    by_contra hne
    have h2 : 2 ≤ ∑ l, tok (s.threads l) :=
      two_le_sum tok s.threads (Ne.symm hj) (by omega) (by omega)
    omega
  · omega

/-- If no notification is in flight and nobody is at the notify-all reset,
`m_command` is `SLEEP`. -/
theorem cmd_sleep_of_inflight_zero {n : Nat} {s : State n} (hInv : Inv s)
    (h0 : inflight s = 0)
    (hnoCB : ∀ j te st, s.threads j = .w te st → st.pc ≠ .casAllBack) :
    s.command = .sleep := by
  unfold inflight at h0
  cases hcmd : s.command
  · rfl
  · rw [hcmd] at h0; cases h0
  · rw [hcmd] at h0
    rcases hInv.allPos hcmd with hpos | ⟨j, te, st, hj, hpc⟩
    · rw [if_pos hpos] at h0; cases h0
    · exact absurd hpc (hnoCB j te st hj)

/-- If thread `i` holds the unique unlock-right and is not itself at the
notify-all reset, `m_command` is `SLEEP`. -/
theorem cmd_sleep_of_tok_one {n : Nat} {s : State n} (hInv : Inv s) {i : Fin n}
    (hi : tok (s.threads i) = 1)
    (hiCB : ∀ te st, s.threads i = .w te st → st.pc ≠ .casAllBack) :
    s.command = .sleep := by
  obtain ⟨hothers, hifl⟩ := others_of_tok hInv hi
  apply cmd_sleep_of_inflight_zero hInv hifl
  intro j te st hj hpc
  by_cases hji : j = i
  · subst hji; exact hiCB te st hj hpc
  · have h1 : tok (s.threads j) = 1 := by
      rw [hj]
      simp [tok, hpc]
    rw [hothers j hji] at h1; cases h1

/-- Threadwise count sums after an update at one index. -/
theorem cntSum_update {n : Nat} {s s2 : State n} {i : Fin n} {t' : TState}
    (h2t : s2.threads = Function.update s.threads i t') :
    cntSum s2 + cnt (s.threads i) = cntSum s + cnt t' := by
  unfold cntSum
  rw [h2t]
  exact sum_comp_update cnt s.threads i t'

/-- Threadwise token sums after an update at one index. -/
theorem tokSum_update {n : Nat} {s s2 : State n} {i : Fin n} {t' : TState}
    (h2t : s2.threads = Function.update s.threads i t') :
    tokSum s2 + tok (s.threads i) = tokSum s + tok t' := by
  unfold tokSum
  rw [h2t]
  exact sum_comp_update tok s.threads i t'

/-- Generic preservation of the `ncasPos` field. -/
theorem pres_ncasPos {n : Nat} {s : State n} {i : Fin n} {t' : TState}
    {th2 : Fin n → TState} {w2 : Int}
    (hpre : ∀ j a st, s.threads j = .n a st → st.pc = .ncas → 0 < s.numWaiters)
    (h2t : th2 = Function.update s.threads i t')
    (hold : 0 < s.numWaiters → 0 < w2)
    (hnew : ∀ a st, t' = .n a st → st.pc = .ncas → 0 < w2) :
    ∀ j a st, th2 j = .n a st → st.pc = .ncas → 0 < w2 := by
  intro j a st hj hpc
  rw [h2t] at hj
  by_cases hji : j = i
  · subst hji; rw [Function.update_same] at hj; exact hnew a st hj hpc
  · rw [Function.update_noteq hji] at hj; exact hold (hpre j a st hj hpc)

/-- Generic preservation of the `nzeroCount` field. -/
theorem pres_nzero {n : Nat} {s : State n} {i : Fin n} {t' : TState}
    {th2 : Fin n → TState} {w2 : Int}
    (hpre : ∀ j a st, s.threads j = .n a st → st.pc = .nzero → s.numWaiters = 0)
    (h2t : th2 = Function.update s.threads i t')
    (hold : s.numWaiters = 0 → w2 = 0)
    (hnew : ∀ a st, t' = .n a st → st.pc = .nzero → w2 = 0) :
    ∀ j a st, th2 j = .n a st → st.pc = .nzero → w2 = 0 := by
  intro j a st hj hpc
  rw [h2t] at hj
  by_cases hji : j = i
  · subst hji; rw [Function.update_same] at hj; exact hnew a st hj hpc
  · rw [Function.update_noteq hji] at hj; exact hold (hpre j a st hj hpc)

/-- Generic preservation of the `decAllCmd` field. -/
theorem pres_decAllCmd {n : Nat} {s : State n} {i : Fin n} {t' : TState}
    {th2 : Fin n → TState} {c2 : Cmd}
    (h2t : th2 = Function.update s.threads i t')
    (hold : ∀ j te st, s.threads j = .w te st → st.pc = .decAll → j ≠ i → c2 = .notifyAll)
    (hnew : ∀ te st, t' = .w te st → st.pc = .decAll → c2 = .notifyAll) :
    ∀ j te st, th2 j = .w te st → st.pc = .decAll → c2 = .notifyAll := by
  intro j te st hj hpc
  rw [h2t] at hj
  by_cases hji : j = i
  · subst hji; rw [Function.update_same] at hj; exact hnew te st hj hpc
  · rw [Function.update_noteq hji] at hj; exact hold j te st hj hpc hji

/-- Generic preservation of the `casBackCmd` field. -/
theorem pres_casBackCmd {n : Nat} {s : State n} {i : Fin n} {t' : TState}
    {th2 : Fin n → TState} {c2 : Cmd}
    (hpre : ∀ j te st, s.threads j = .w te st → st.pc = .casAllBack →
      s.command = .notifyAll ∧ st.unlockFlag = true)
    (h2t : th2 = Function.update s.threads i t')
    (hold : ∀ j te st, s.threads j = .w te st → st.pc = .casAllBack → j ≠ i → c2 = .notifyAll)
    (hnew : ∀ te st, t' = .w te st → st.pc = .casAllBack → c2 = .notifyAll ∧ st.unlockFlag = true) :
    ∀ j te st, th2 j = .w te st → st.pc = .casAllBack → c2 = .notifyAll ∧ st.unlockFlag = true := by
  intro j te st hj hpc
  rw [h2t] at hj
  by_cases hji : j = i
  · subst hji; rw [Function.update_same] at hj; exact hnew te st hj hpc
  · rw [Function.update_noteq hji] at hj
    exact ⟨hold j te st hj hpc hji, (hpre j te st hj hpc).2⟩

/-- Generic preservation of the `casBackCount` field. -/
theorem pres_casBackCount {n : Nat} {s : State n} {i : Fin n} {t' : TState}
    {th2 : Fin n → TState} {w2 : Int}
    (h2t : th2 = Function.update s.threads i t')
    (hold : ∀ j te st, s.threads j = .w te st → st.pc = .casAllBack → j ≠ i → w2 = 0)
    (hnew : ∀ te st, t' = .w te st → st.pc = .casAllBack → w2 = 0) :
    ∀ j te st, th2 j = .w te st → st.pc = .casAllBack → w2 = 0 := by
  intro j te st hj hpc
  rw [h2t] at hj
  by_cases hji : j = i
  · subst hji; rw [Function.update_same] at hj; exact hnew te st hj hpc
  · rw [Function.update_noteq hji] at hj; exact hold j te st hj hpc hji

/-- Generic preservation of the `flagSleep` field. -/
theorem pres_flagSleep {n : Nat} {s : State n} {i : Fin n} {t' : TState}
    {th2 : Fin n → TState} {c2 : Cmd}
    (hpre : ∀ j te st, s.threads j = .w te st →
      (st.pc = .toDec ∨ st.pc = .decOne ∨
        (st.unlockFlag = true ∧ (st.pc = .unlockCheckExit ∨ st.pc = .maybeUnlockEnter))) →
      s.command = .sleep)
    (h2t : th2 = Function.update s.threads i t')
    (hold : s.command = .sleep → c2 = .sleep)
    (hnew : ∀ te st, t' = .w te st →
      (st.pc = .toDec ∨ st.pc = .decOne ∨
        (st.unlockFlag = true ∧ (st.pc = .unlockCheckExit ∨ st.pc = .maybeUnlockEnter))) →
      c2 = .sleep) :
    ∀ j te st, th2 j = .w te st →
      (st.pc = .toDec ∨ st.pc = .decOne ∨
        (st.unlockFlag = true ∧ (st.pc = .unlockCheckExit ∨ st.pc = .maybeUnlockEnter))) →
      c2 = .sleep := by
  intro j te st hj hpc
  rw [h2t] at hj
  by_cases hji : j = i
  · subst hji; rw [Function.update_same] at hj; exact hnew te st hj hpc
  · rw [Function.update_noteq hji] at hj; exact hold (hpre j te st hj hpc)

/-- Generic preservation of the `ext_iff` field. -/
theorem pres_ext {n : Nat} {s : State n} {i : Fin n} {t' : TState}
    {th2 : Fin n → TState}
    (hpre : ∀ j te st, s.threads j = .w te st → (st.extHeld = true ↔ extRegion st.pc))
    (h2t : th2 = Function.update s.threads i t')
    (hnew : ∀ te st, t' = .w te st → (st.extHeld = true ↔ extRegion st.pc)) :
    ∀ j te st, th2 j = .w te st → (st.extHeld = true ↔ extRegion st.pc) := by
  intro j te st hj
  rw [h2t] at hj
  by_cases hji : j = i
  · subst hji; rw [Function.update_same] at hj; exact hnew te st hj
  · rw [Function.update_noteq hji] at hj; exact hpre j te st hj

/-- Generic preservation of the `timedOutPc` field. -/
theorem pres_timedOutPc {n : Nat} {s : State n} {i : Fin n} {t' : TState}
    {th2 : Fin n → TState}
    (hpre : ∀ j te st, s.threads j = .w te st → st.timedOut = true →
      st.pc = .toDec ∨ st.pc = .maybeUnlockEnter ∨ st.pc = .relockExt ∨ st.pc = .done)
    (h2t : th2 = Function.update s.threads i t')
    (hnew : ∀ te st, t' = .w te st → st.timedOut = true →
      st.pc = .toDec ∨ st.pc = .maybeUnlockEnter ∨ st.pc = .relockExt ∨ st.pc = .done) :
    ∀ j te st, th2 j = .w te st → st.timedOut = true →
      st.pc = .toDec ∨ st.pc = .maybeUnlockEnter ∨ st.pc = .relockExt ∨ st.pc = .done := by
  intro j te st hj
  rw [h2t] at hj
  by_cases hji : j = i
  · subst hji; rw [Function.update_same] at hj; exact hnew te st hj
  · rw [Function.update_noteq hji] at hj; exact hpre j te st hj

/-- Generic preservation of the `toDecTimedOut` field. -/
theorem pres_toDecTO {n : Nat} {s : State n} {i : Fin n} {t' : TState}
    {th2 : Fin n → TState}
    (hpre : ∀ j te st, s.threads j = .w te st → st.pc = .toDec → st.timedOut = true)
    (h2t : th2 = Function.update s.threads i t')
    (hnew : ∀ te st, t' = .w te st → st.pc = .toDec → st.timedOut = true) :
    ∀ j te st, th2 j = .w te st → st.pc = .toDec → st.timedOut = true := by
  intro j te st hj
  rw [h2t] at hj
  by_cases hji : j = i
  · subst hji; rw [Function.update_same] at hj; exact hnew te st hj
  · rw [Function.update_noteq hji] at hj; exact hpre j te st hj

/-- Generic preservation of the `check_iff` field when the owner is unchanged. -/
theorem pres_check_iff {n : Nat} {s : State n} {i : Fin n} {t' : TState}
    {th2 : Fin n → TState} {o2 : Option (Fin n)}
    (hpre : ∀ j, (∃ te st, s.threads j = .w te st ∧ inCheck st.pc) ↔ s.checkOwner = some j)
    (h2t : th2 = Function.update s.threads i t')
    (ho : o2 = s.checkOwner)
    (hsame : (∃ te st, t' = .w te st ∧ inCheck st.pc) ↔
      (∃ te st, s.threads i = .w te st ∧ inCheck st.pc)) :
    ∀ j, (∃ te st, th2 j = .w te st ∧ inCheck st.pc) ↔ o2 = some j := by
  intro j
  rw [h2t, ho]
  by_cases hji : j = i
  · subst hji
    rw [Function.update_same]
    exact hsame.trans (hpre j)
  · rw [Function.update_noteq hji]
    exact hpre j

/-- Generic preservation of the `allPos` field. -/
theorem pres_allPos {n : Nat} {s : State n} {i : Fin n} {t' : TState}
    {th2 : Fin n → TState} {c2 : Cmd} {w2 : Int}
    (hpre : s.command = .notifyAll →
      0 < s.numWaiters ∨ ∃ j te st, s.threads j = .w te st ∧ st.pc = .casAllBack)
    (h2t : th2 = Function.update s.threads i t')
    (hcmd2 : c2 = .notifyAll → s.command = .notifyAll)
    (hpos : 0 < s.numWaiters →
      0 < w2 ∨ ∃ te st, t' = .w te st ∧ st.pc = .casAllBack)
    (hwit : ∀ te st, s.threads i = .w te st → st.pc = .casAllBack →
      0 < w2 ∨ ∃ te2 st2, t' = .w te2 st2 ∧ st2.pc = .casAllBack) :
    c2 = .notifyAll → 0 < w2 ∨ ∃ j te st, th2 j = .w te st ∧ st.pc = .casAllBack := by
  intro hc
  rw [h2t]
  rcases hpre (hcmd2 hc) with hp | ⟨j, te, st, hj, hpc⟩
  · rcases hpos hp with h | ⟨te, st, hw, hpc⟩
    · exact Or.inl h
    · exact Or.inr ⟨i, te, st, by rw [Function.update_same]; exact hw, hpc⟩
  · by_cases hji : j = i
    · subst hji
      rcases hwit te st hj hpc with h | ⟨te2, st2, hw, hpc2⟩
      · exact Or.inl h
      · exact Or.inr ⟨j, te2, st2, by rw [Function.update_same]; exact hw, hpc2⟩
    · exact Or.inr ⟨j, te, st, by rw [Function.update_noteq hji]; exact hj, hpc⟩

/-- `inflight` depends only on `command` and `numWaiters`. -/
theorem inflight_congr {n : Nat} {s s2 : State n} (hc : s2.command = s.command)
    (hw : s2.numWaiters = s.numWaiters) : inflight s2 = inflight s := by
  unfold inflight
  rw [hc, hw]

/-- No notification is in flight while `m_command` is `SLEEP`. -/
theorem inflight_sleep {n : Nat} {s : State n} (h : s.command = .sleep) :
    inflight s = 0 := by
  unfold inflight
  rw [h]

/-- A `NOTIFY_ONE` in flight counts one. -/
theorem inflight_one {n : Nat} {s : State n} (h : s.command = .notifyOne) :
    inflight s = 1 := by
  unfold inflight
  rw [h]

/-- A `NOTIFY_ALL` with remaining waiters counts one. -/
theorem inflight_all_pos {n : Nat} {s : State n} (h : s.command = .notifyAll)
    (hp : 0 < s.numWaiters) : inflight s = 1 := by
  unfold inflight
  rw [h, if_pos hp]

/-- A `NOTIFY_ALL` whose last waiter already decremented counts zero. -/
theorem inflight_all_zero {n : Nat} {s : State n} (h : s.command = .notifyAll)
    (hp : ¬ 0 < s.numWaiters) : inflight s = 0 := by
  unfold inflight
  rw [h, if_neg hp]

/-- Two distinct threads cannot both hold an unlock-right. -/
theorem tok_clash {n : Nat} {s : State n} (hInv : Inv s) {i j : Fin n} (hji : j ≠ i)
    (hi : tok (s.threads i) = 1) (hj : tok (s.threads j) = 1) : False := by
  have := (others_of_tok hInv hi).1 j hji
  omega

/-- A waiter or notifier whose unlock-right would coexist with an in-flight
notification: a holder forces `inflight = 0`. -/
theorem inflight_zero_of_tok {n : Nat} {s : State n} (hInv : Inv s) {i : Fin n}
    (hi : tok (s.threads i) = 1) : inflight s = 0 :=
  (others_of_tok hInv hi).2

/-- A waiter outside `extRegion` has released its external mutex. -/
theorem extHeld_false_of_pc {n : Nat} {s : State n} (hInv : Inv s) {i : Fin n}
    {te : Bool} {st : WState} (hth : s.threads i = .w te st)
    (hnr : ¬ extRegion st.pc) : st.extHeld = false := by
  cases hb : st.extHeld
  · rfl
  · exact absurd ((hInv.ext_iff i te st hth).mp hb) hnr

/-- A waiter inside `extRegion` still holds its external mutex. -/
theorem extHeld_true_of_pc {n : Nat} {s : State n} (hInv : Inv s) {i : Fin n}
    {te : Bool} {st : WState} (hth : s.threads i = .w te st)
    (hr : extRegion st.pc) : st.extHeld = true :=
  (hInv.ext_iff i te st hth).mpr hr

/-- A waiter away from the timeout exit path has `timed_out = false`. -/
theorem timedOut_false_of_pc {n : Nat} {s : State n} (hInv : Inv s) {i : Fin n}
    {te : Bool} {st : WState} (hth : s.threads i = .w te st)
    (h1 : st.pc ≠ .toDec) (h2 : st.pc ≠ .maybeUnlockEnter)
    (h3 : st.pc ≠ .relockExt) (h4 : st.pc ≠ .done) : st.timedOut = false := by
  cases hto : st.timedOut
  · rfl
  · rcases hInv.timedOutPc i te st hth hto with h | h | h | h
    exacts [absurd h h1, absurd h h2, absurd h h3, absurd h h4]

/-- A thread value known not to be in the check critical section refutes the
corresponding existential. -/
theorem not_exists_check {t' : TState}
    (h : ∀ te st, t' = TState.w te st → ¬ inCheck st.pc) :
    ¬ ∃ te st, t' = TState.w te st ∧ inCheck st.pc := by
  rintro ⟨te, st, he, hc⟩
  exact h te st he hc

/-- Preservation of the invariant by a step of waiter `i` that only moves its
own local state (no shared variable is written). -/
theorem inv_local {n : Nat} {s s2 : State n} {i : Fin n} {te : Bool} {st : WState}
    (hInv : Inv s) (hth : s.threads i = .w te st) (st' : WState)
    (h2c : s2.command = s.command) (h2w : s2.numWaiters = s.numWaiters)
    (h2e : s2.enterLocked = s.enterLocked) (h2o : s2.checkOwner = s.checkOwner)
    (h2t : s2.threads = Function.update s.threads i (.w te st'))
    (hcnt : cnt (.w te st') = cnt (.w te st))
    (htok : tok (.w te st') = tok (.w te st))
    (hchk : inCheck st'.pc ↔ inCheck st.pc)
    (hnotCB : st.pc ≠ .casAllBack)
    (hdecAll : st'.pc = .decAll → s.command = .notifyAll)
    (hcasBack : st'.pc = .casAllBack → s.command = .notifyAll ∧ st'.unlockFlag = true)
    (hcasBackCnt : st'.pc = .casAllBack → s.numWaiters = 0)
    (hflag : st'.pc = .toDec ∨ st'.pc = .decOne ∨
        (st'.unlockFlag = true ∧ (st'.pc = .unlockCheckExit ∨ st'.pc = .maybeUnlockEnter)) →
        s.command = .sleep)
    (hext : st'.extHeld = true ↔ extRegion st'.pc)
    (hTO : st'.timedOut = true →
        st'.pc = .toDec ∨ st'.pc = .maybeUnlockEnter ∨ st'.pc = .relockExt ∨ st'.pc = .done)
    (htd : st'.pc = .toDec → st'.timedOut = true) :
    Inv s2 := by
  have hcntSum := sum_comp_update cnt s.threads i (.w te st')
  have htokSum := sum_comp_update tok s.threads i (.w te st')
  rw [hth] at hcntSum htokSum
  have hcnt2 : cntSum s2 = cntSum s := by
    unfold cntSum
    rw [h2t]
    omega
  have htok2 : tokSum s2 = tokSum s := by
    unfold tokSum
    rw [h2t]
    omega
  have hifl : inflight s2 = inflight s := by
    unfold inflight
    rw [h2c, h2w]
  refine ⟨?_, ?_, ?_, ?_, ?_, ?_, ?_, ?_, ?_, ?_, ?_, ?_, ?_, ?_⟩
  · rw [h2w, hcnt2]
    exact hInv.count_eq
  · rw [htok2, hifl, h2e]
    exact hInv.tokens
  · intro hcmd
    rw [h2c] at hcmd
    rw [h2w, h2t]
    rcases hInv.allPos hcmd with h | ⟨j, te2, st2, hj, hjpc⟩
    · exact Or.inl h
    · by_cases hji : j = i
      · subst hji
        rw [hth] at hj
        injection hj with h1 h2
        subst h1; subst h2
        exact absurd hjpc hnotCB
      · exact Or.inr ⟨j, te2, st2, by rw [Function.update_noteq hji]; exact hj, hjpc⟩
  · intro j a2 st2 hj
    rw [h2t] at hj
    rw [h2w]
    by_cases hji : j = i
    · subst hji; rw [Function.update_same] at hj; exact absurd hj (by simp)
    · rw [Function.update_noteq hji] at hj
      exact hInv.ncasPos j a2 st2 hj
  · intro j a2 st2 hj
    rw [h2t] at hj
    rw [h2w]
    by_cases hji : j = i
    · subst hji; rw [Function.update_same] at hj; exact absurd hj (by simp)
    · rw [Function.update_noteq hji] at hj
      exact hInv.nzeroCount j a2 st2 hj
  · intro j te2 st2 hj
    rw [h2t] at hj
    rw [h2c]
    by_cases hji : j = i
    · subst hji; rw [Function.update_same] at hj
      injection hj with h1 h2; subst h1; subst h2
      exact hdecAll
    · rw [Function.update_noteq hji] at hj
      exact hInv.decAllCmd j te2 st2 hj
  · intro j te2 st2 hj
    rw [h2t] at hj
    rw [h2c]
    by_cases hji : j = i
    · subst hji; rw [Function.update_same] at hj
      injection hj with h1 h2; subst h1; subst h2
      exact hcasBack
    · rw [Function.update_noteq hji] at hj
      exact hInv.casBackCmd j te2 st2 hj
  · intro j te2 st2 hj
    rw [h2t] at hj
    rw [h2w]
    by_cases hji : j = i
    · subst hji; rw [Function.update_same] at hj
      injection hj with h1 h2; subst h1; subst h2
      exact hcasBackCnt
    · rw [Function.update_noteq hji] at hj
      exact hInv.casBackCount j te2 st2 hj
  · intro j
    rw [h2t, h2o]
    by_cases hji : j = i
    · subst hji
      constructor
      · rintro ⟨te2, st2, hj, hck⟩
        rw [Function.update_same] at hj
        injection hj with h1 h2; subst h1; subst h2
        exact (hInv.check_iff j).mp ⟨te, st, hth, hchk.mp hck⟩
      · intro how
        obtain ⟨te2, st2, hj, hck⟩ := (hInv.check_iff j).mpr how
        rw [hth] at hj
        injection hj with h1 h2; subst h1; subst h2
        exact ⟨te, st', Function.update_same .., hchk.mpr hck⟩
    · constructor
      · rintro ⟨te2, st2, hj, hck⟩
        rw [Function.update_noteq hji] at hj
        exact (hInv.check_iff j).mp ⟨te2, st2, hj, hck⟩
      · intro how
        obtain ⟨te2, st2, hj, hck⟩ := (hInv.check_iff j).mpr how
        exact ⟨te2, st2, by rw [Function.update_noteq hji]; exact hj, hck⟩
  · intro hfree
    rw [h2e] at hfree
    rw [h2c]
    exact hInv.sleepUnlocked hfree
  · intro j te2 st2 hj hpc2
    rw [h2t] at hj
    rw [h2c]
    by_cases hji : j = i
    · subst hji; rw [Function.update_same] at hj
      injection hj with h1 h2; subst h1; subst h2
      exact hflag hpc2
    · rw [Function.update_noteq hji] at hj
      exact hInv.flagSleep j te2 st2 hj hpc2
  · intro j te2 st2 hj
    rw [h2t] at hj
    by_cases hji : j = i
    · subst hji; rw [Function.update_same] at hj
      injection hj with h1 h2; subst h1; subst h2
      exact hext
    · rw [Function.update_noteq hji] at hj
      exact hInv.ext_iff j te2 st2 hj
  · intro j te2 st2 hj
    rw [h2t] at hj
    by_cases hji : j = i
    · subst hji; rw [Function.update_same] at hj
      injection hj with h1 h2; subst h1; subst h2
      exact hTO
    · rw [Function.update_noteq hji] at hj
      exact hInv.timedOutPc j te2 st2 hj
  · intro j te2 st2 hj
    rw [h2t] at hj
    by_cases hji : j = i
    · subst hji; rw [Function.update_same] at hj
      injection hj with h1 h2; subst h1; subst h2
      exact htd
    · rw [Function.update_noteq hji] at hj
      exact hInv.toDecTimedOut j te2 st2 hj

/-- Preservation of the invariant by a step of notifier `i` that only moves its
own local state. -/
theorem inv_nlocal {n : Nat} {s s2 : State n} {i : Fin n} {a : Bool} {st : NState}
    (hInv : Inv s) (hth : s.threads i = .n a st) (st' : NState)
    (h2c : s2.command = s.command) (h2w : s2.numWaiters = s.numWaiters)
    (h2e : s2.enterLocked = s.enterLocked) (h2o : s2.checkOwner = s.checkOwner)
    (h2t : s2.threads = Function.update s.threads i (.n a st'))
    (htok : tok (.n a st') = tok (.n a st))
    (hncas : st'.pc = .ncas → 0 < s.numWaiters)
    (hnzero : st'.pc = .nzero → s.numWaiters = 0) :
    Inv s2 := by
  have hcntSum := sum_comp_update cnt s.threads i (.n a st')
  have htokSum := sum_comp_update tok s.threads i (.n a st')
  rw [hth] at hcntSum htokSum
  have hcnt0 : cnt (TState.n a st') = cnt (TState.n a st) := rfl
  have hcnt2 : cntSum s2 = cntSum s := by
    unfold cntSum
    rw [h2t]
    omega
  have htok2 : tokSum s2 = tokSum s := by
    unfold tokSum
    rw [h2t]
    omega
  have hifl : inflight s2 = inflight s := by
    unfold inflight
    rw [h2c, h2w]
  refine ⟨?_, ?_, ?_, ?_, ?_, ?_, ?_, ?_, ?_, ?_, ?_, ?_, ?_, ?_⟩
  · rw [h2w, hcnt2]
    exact hInv.count_eq
  · rw [htok2, hifl, h2e]
    exact hInv.tokens
  · intro hcmd
    rw [h2c] at hcmd
    rw [h2w, h2t]
    rcases hInv.allPos hcmd with h | ⟨j, te2, st2, hj, hjpc⟩
    · exact Or.inl h
    · have hji : j ≠ i := by
        intro hji; subst hji; rw [hth] at hj; exact absurd hj (by simp)
      exact Or.inr ⟨j, te2, st2, by rw [Function.update_noteq hji]; exact hj, hjpc⟩
  · intro j a2 st2 hj
    rw [h2t] at hj
    rw [h2w]
    by_cases hji : j = i
    · subst hji; rw [Function.update_same] at hj
      injection hj with h1 h2; subst h1; subst h2
      exact hncas
    · rw [Function.update_noteq hji] at hj
      exact hInv.ncasPos j a2 st2 hj
  · intro j a2 st2 hj
    rw [h2t] at hj
    rw [h2w]
    by_cases hji : j = i
    · subst hji; rw [Function.update_same] at hj
      injection hj with h1 h2; subst h1; subst h2
      exact hnzero
    · rw [Function.update_noteq hji] at hj
      exact hInv.nzeroCount j a2 st2 hj
  · intro j te2 st2 hj
    rw [h2t] at hj
    rw [h2c]
    by_cases hji : j = i
    · subst hji; rw [Function.update_same] at hj; exact absurd hj (by simp)
    · rw [Function.update_noteq hji] at hj
      exact hInv.decAllCmd j te2 st2 hj
  · intro j te2 st2 hj
    rw [h2t] at hj
    rw [h2c]
    by_cases hji : j = i
    · subst hji; rw [Function.update_same] at hj; exact absurd hj (by simp)
    · rw [Function.update_noteq hji] at hj
      exact hInv.casBackCmd j te2 st2 hj
  · intro j te2 st2 hj
    rw [h2t] at hj
    rw [h2w]
    by_cases hji : j = i
    · subst hji; rw [Function.update_same] at hj; exact absurd hj (by simp)
    · rw [Function.update_noteq hji] at hj
      exact hInv.casBackCount j te2 st2 hj
  · intro j
    rw [h2t, h2o]
    by_cases hji : j = i
    · subst hji
      constructor
      · rintro ⟨te2, st2, hj, hck⟩
        rw [Function.update_same] at hj
        exact absurd hj (by simp)
      · intro how
        obtain ⟨te2, st2, hj, hck⟩ := (hInv.check_iff j).mpr how
        rw [hth] at hj
        exact absurd hj (by simp)
    · constructor
      · rintro ⟨te2, st2, hj, hck⟩
        rw [Function.update_noteq hji] at hj
        exact (hInv.check_iff j).mp ⟨te2, st2, hj, hck⟩
      · intro how
        obtain ⟨te2, st2, hj, hck⟩ := (hInv.check_iff j).mpr how
        exact ⟨te2, st2, by rw [Function.update_noteq hji]; exact hj, hck⟩
  · intro hfree
    rw [h2e] at hfree
    rw [h2c]
    exact hInv.sleepUnlocked hfree
  · intro j te2 st2 hj hpc2
    rw [h2t] at hj
    rw [h2c]
    by_cases hji : j = i
    · subst hji; rw [Function.update_same] at hj; exact absurd hj (by simp)
    · rw [Function.update_noteq hji] at hj
      exact hInv.flagSleep j te2 st2 hj hpc2
  · intro j te2 st2 hj
    rw [h2t] at hj
    by_cases hji : j = i
    · subst hji; rw [Function.update_same] at hj; exact absurd hj (by simp)
    · rw [Function.update_noteq hji] at hj
      exact hInv.ext_iff j te2 st2 hj
  · intro j te2 st2 hj
    rw [h2t] at hj
    by_cases hji : j = i
    · subst hji; rw [Function.update_same] at hj; exact absurd hj (by simp)
    · rw [Function.update_noteq hji] at hj
      exact hInv.timedOutPc j te2 st2 hj
  · intro j te2 st2 hj
    rw [h2t] at hj
    by_cases hji : j = i
    · subst hji; rw [Function.update_same] at hj; exact absurd hj (by simp)
    · rw [Function.update_noteq hji] at hj
      exact hInv.toDecTimedOut j te2 st2 hj

/-- Invariant preservation: a waiter acquires `m_enter_mut` (line 86). -/
theorem inv_enterAcq {n : Nat} {s s2 : State n} {i : Fin n} {te : Bool} {st : WState}
    (hInv : Inv s) (hth : s.threads i = .w te st) (hpc : st.pc = .lockEnter)
    (hfree : s.enterLocked = false)
    (h2c : s2.command = s.command) (h2w : s2.numWaiters = s.numWaiters)
    (h2e : s2.enterLocked = true) (h2o : s2.checkOwner = s.checkOwner)
    (h2t : s2.threads = Function.update s.threads i (.w te { st with pc := .incW })) :
    Inv s2 := by
  have hsleep : s.command = .sleep := hInv.sleepUnlocked hfree
  have hs2sleep : s2.command = .sleep := by rw [h2c]; exact hsleep
  have ht := hInv.tokens
  rw [hfree] at ht
  simp at ht
  obtain ⟨htok0, hifl0⟩ := ht
  have htokOld : tok (s.threads i) = 0 := by rw [hth]; simp [tok, hpc]
  have hcntOld : cnt (s.threads i) = 0 := by rw [hth]; simp [cnt, hpc]
  have htokNew : tok (TState.w te { st with pc := .incW }) = 1 := by simp [tok]
  have hcntNew : cnt (TState.w te { st with pc := .incW }) = 0 := by simp [cnt]
  have hcs := cntSum_update h2t
  have hts := tokSum_update h2t
  have hTOf : st.timedOut = false :=
    timedOut_false_of_pc hInv hth (by rw [hpc]; simp) (by rw [hpc]; simp)
      (by rw [hpc]; simp) (by rw [hpc]; simp)
  have hext : st.extHeld = true := extHeld_true_of_pc hInv hth (by rw [hpc]; trivial)
  have hnotok : ∀ j, tok (s.threads j) = 0 := by
    intro j
    have hle : tok (s.threads j) ≤ tokSum s := le_sum_of_mem tok s.threads j
    omega
  refine ⟨?_, ?_, ?_, ?_, ?_, ?_, ?_, ?_, ?_, ?_, ?_, ?_, ?_, ?_⟩
  · rw [h2w]
    have := hInv.count_eq
    omega
  · rw [h2e, inflight_sleep hs2sleep]
    simp
    omega
  · intro hcmd
    rw [hs2sleep] at hcmd
    simp at hcmd
  · intro j a st2 hj hpc2
    rw [h2t] at hj
    by_cases hji : j = i
    · subst hji; rw [Function.update_same] at hj; exact absurd hj (by simp)
    · rw [Function.update_noteq hji] at hj
      exfalso
      have h1 : tok (s.threads j) = 1 := by rw [hj]; simp [tok, hpc2]
      rw [hnotok j] at h1
      cases h1
  · intro j a st2 hj hpc2
    rw [h2t] at hj
    by_cases hji : j = i
    · subst hji; rw [Function.update_same] at hj; exact absurd hj (by simp)
    · rw [Function.update_noteq hji] at hj
      exfalso
      have h1 : tok (s.threads j) = 1 := by rw [hj]; simp [tok, hpc2]
      rw [hnotok j] at h1
      cases h1
  · refine pres_decAllCmd h2t (fun j te2 st2 hj hpc2 hji => ?_) (fun te2 st2 he hpc2 => ?_)
    · exact absurd (hInv.decAllCmd j te2 st2 hj hpc2) (by rw [hsleep]; simp)
    · injection he with h1 h2
      subst h2
      simp at hpc2
  · refine pres_casBackCmd hInv.casBackCmd h2t (fun j te2 st2 hj hpc2 hji => ?_)
      (fun te2 st2 he hpc2 => ?_)
    · exact absurd (hInv.casBackCmd j te2 st2 hj hpc2).1 (by rw [hsleep]; simp)
    · injection he with h1 h2
      subst h2
      simp at hpc2
  · refine pres_casBackCount h2t (fun j te2 st2 hj hpc2 hji => ?_) (fun te2 st2 he hpc2 => ?_)
    · exact absurd (hInv.casBackCmd j te2 st2 hj hpc2).1 (by rw [hsleep]; simp)
    · injection he with h1 h2
      subst h2
      simp at hpc2
  · refine pres_check_iff hInv.check_iff h2t h2o (iff_of_false ?_ ?_)
    · exact not_exists_check (by intro te2 st2 he; injection he with h1 h2; subst h2; simp [inCheck])
    · rintro ⟨te2, st2, he, hc⟩
      rw [hth] at he
      injection he with h1 h2
      subst h2
      rw [hpc] at hc
      simp [inCheck] at hc
  · intro h
    rw [h2e] at h
    simp at h
  · refine pres_flagSleep hInv.flagSleep h2t (fun _ => hs2sleep) (fun _ _ _ _ => hs2sleep)
  · refine pres_ext hInv.ext_iff h2t ?_
    intro te2 st2 he
    injection he with h1 h2
    subst h2
    simp [extRegion, hext]
  · refine pres_timedOutPc hInv.timedOutPc h2t ?_
    intro te2 st2 he hto
    injection he with h1 h2
    subst h2
    simp [hTOf] at hto
  · refine pres_toDecTO hInv.toDecTimedOut h2t ?_
    intro te2 st2 he hpc2
    injection he with h1 h2
    subst h2
    simp at hpc2

/-- Invariant preservation: the interlocked increment of `m_num_waiters`
(line 91), performed while holding `m_enter_mut`. -/
theorem inv_incStep {n : Nat} {s s2 : State n} {i : Fin n} {te : Bool} {st : WState}
    (hInv : Inv s) (hth : s.threads i = .w te st) (hpc : st.pc = .incW)
    (h2c : s2.command = s.command) (h2w : s2.numWaiters = s.numWaiters + 1)
    (h2e : s2.enterLocked = s.enterLocked) (h2o : s2.checkOwner = s.checkOwner)
    (h2t : s2.threads = Function.update s.threads i (.w te { st with pc := .unlockExt })) :
    Inv s2 := by
  have htokOld : tok (s.threads i) = 1 := by rw [hth]; simp [tok, hpc]
  have hlock : s.enterLocked = true := locked_of_tok hInv htokOld.ge
  have hsleep : s.command = .sleep := by
    refine cmd_sleep_of_tok_one hInv htokOld ?_
    intro te2 st2 he hpc2
    rw [hth] at he
    injection he with h1 h2
    subst h2
    rw [hpc] at hpc2
    cases hpc2
  have hs2sleep : s2.command = .sleep := by rw [h2c]; exact hsleep
  have hifl0 : inflight s = 0 := inflight_sleep hsleep
  have hcntOld : cnt (s.threads i) = 0 := by rw [hth]; simp [cnt, hpc]
  have htokNew : tok (TState.w te { st with pc := .unlockExt }) = 1 := by simp [tok]
  have hcntNew : cnt (TState.w te { st with pc := .unlockExt }) = 1 := by simp [cnt]
  have hcs := cntSum_update h2t
  have hts := tokSum_update h2t
  have ht := hInv.tokens
  rw [hlock] at ht
  simp at ht
  have hTOf : st.timedOut = false :=
    timedOut_false_of_pc hInv hth (by rw [hpc]; simp) (by rw [hpc]; simp)
      (by rw [hpc]; simp) (by rw [hpc]; simp)
  have hext : st.extHeld = true := extHeld_true_of_pc hInv hth (by rw [hpc]; trivial)
  refine ⟨?_, ?_, ?_, ?_, ?_, ?_, ?_, ?_, ?_, ?_, ?_, ?_, ?_, ?_⟩
  · rw [h2w]
    have := hInv.count_eq
    omega
  · rw [h2e, hlock, inflight_sleep hs2sleep]
    simp
    omega
  · intro hcmd
    rw [hs2sleep] at hcmd
    simp at hcmd
  · intro j a st2 hj hpc2
    rw [h2t] at hj
    by_cases hji : j = i
    · subst hji; rw [Function.update_same] at hj; exact absurd hj (by simp)
    · rw [Function.update_noteq hji] at hj
      exfalso
      exact tok_clash hInv hji htokOld (by rw [hj]; simp [tok, hpc2])
  · intro j a st2 hj hpc2
    rw [h2t] at hj
    by_cases hji : j = i
    · subst hji; rw [Function.update_same] at hj; exact absurd hj (by simp)
    · rw [Function.update_noteq hji] at hj
      exfalso
      exact tok_clash hInv hji htokOld (by rw [hj]; simp [tok, hpc2])
  · refine pres_decAllCmd h2t (fun j te2 st2 hj hpc2 hji => ?_) (fun te2 st2 he hpc2 => ?_)
    · exact absurd (hInv.decAllCmd j te2 st2 hj hpc2) (by rw [hsleep]; simp)
    · injection he with h1 h2
      subst h2
      simp at hpc2
  · refine pres_casBackCmd hInv.casBackCmd h2t (fun j te2 st2 hj hpc2 hji => ?_)
      (fun te2 st2 he hpc2 => ?_)
    · exact absurd (hInv.casBackCmd j te2 st2 hj hpc2).1 (by rw [hsleep]; simp)
    · injection he with h1 h2
      subst h2
      simp at hpc2
  · refine pres_casBackCount h2t (fun j te2 st2 hj hpc2 hji => ?_) (fun te2 st2 he hpc2 => ?_)
    · exact absurd (hInv.casBackCmd j te2 st2 hj hpc2).1 (by rw [hsleep]; simp)
    · injection he with h1 h2
      subst h2
      simp at hpc2
  · refine pres_check_iff hInv.check_iff h2t h2o (iff_of_false ?_ ?_)
    · exact not_exists_check (by intro te2 st2 he; injection he with h1 h2; subst h2; simp [inCheck])
    · rintro ⟨te2, st2, he, hc⟩
      rw [hth] at he
      injection he with h1 h2
      subst h2
      rw [hpc] at hc
      simp [inCheck] at hc
  · intro h
    rw [h2e, hlock] at h
    cases h
  · refine pres_flagSleep hInv.flagSleep h2t (fun _ => hs2sleep) (fun _ _ _ _ => hs2sleep)
  · refine pres_ext hInv.ext_iff h2t ?_
    intro te2 st2 he
    injection he with h1 h2
    subst h2
    simp [extRegion, hext]
  · refine pres_timedOutPc hInv.timedOutPc h2t ?_
    intro te2 st2 he hto
    injection he with h1 h2
    subst h2
    simp [hTOf] at hto
  · refine pres_toDecTO hInv.toDecTimedOut h2t ?_
    intro te2 st2 he hpc2
    injection he with h1 h2
    subst h2
    simp at hpc2

/-- Invariant preservation: the scoped-lock release of `m_enter_mut` at the end
of the registration block (line 95). -/
theorem inv_enterRelReg {n : Nat} {s s2 : State n} {i : Fin n} {te : Bool} {st : WState}
    (hInv : Inv s) (hth : s.threads i = .w te st) (hpc : st.pc = .unlockEnterReg)
    (h2c : s2.command = s.command) (h2w : s2.numWaiters = s.numWaiters)
    (h2e : s2.enterLocked = false) (h2o : s2.checkOwner = s.checkOwner)
    (h2t : s2.threads = Function.update s.threads i (.w te { st with pc := .spin })) :
    Inv s2 := by
  have htokOld : tok (s.threads i) = 1 := by rw [hth]; simp [tok, hpc]
  have hlock : s.enterLocked = true := locked_of_tok hInv htokOld.ge
  have hsleep : s.command = .sleep := by
    refine cmd_sleep_of_tok_one hInv htokOld ?_
    intro te2 st2 he hpc2
    rw [hth] at he
    injection he with h1 h2
    subst h2
    rw [hpc] at hpc2
    cases hpc2
  have hs2sleep : s2.command = .sleep := by rw [h2c]; exact hsleep
  have hifl0 : inflight s = 0 := inflight_sleep hsleep
  have hcntOld : cnt (s.threads i) = 1 := by rw [hth]; simp [cnt, hpc]
  have htokNew : tok (TState.w te { st with pc := .spin }) = 0 := by simp [tok]
  have hcntNew : cnt (TState.w te { st with pc := .spin }) = 1 := by simp [cnt]
  have hcs := cntSum_update h2t
  have hts := tokSum_update h2t
  have ht := hInv.tokens
  rw [hlock] at ht
  simp at ht
  have hTOf : st.timedOut = false :=
    timedOut_false_of_pc hInv hth (by rw [hpc]; simp) (by rw [hpc]; simp)
      (by rw [hpc]; simp) (by rw [hpc]; simp)
  have hextf : st.extHeld = false :=
    extHeld_false_of_pc hInv hth (by rw [hpc]; simp [extRegion])
  refine ⟨?_, ?_, ?_, ?_, ?_, ?_, ?_, ?_, ?_, ?_, ?_, ?_, ?_, ?_⟩
  · rw [h2w]
    have := hInv.count_eq
    omega
  · rw [h2e, inflight_sleep hs2sleep]
    simp
    omega
  · intro hcmd
    rw [hs2sleep] at hcmd
    simp at hcmd
  · intro j a st2 hj hpc2
    rw [h2t] at hj
    by_cases hji : j = i
    · subst hji; rw [Function.update_same] at hj; exact absurd hj (by simp)
    · rw [Function.update_noteq hji] at hj
      rw [h2w]
      exact hInv.ncasPos j a st2 hj hpc2
  · intro j a st2 hj hpc2
    rw [h2t] at hj
    by_cases hji : j = i
    · subst hji; rw [Function.update_same] at hj; exact absurd hj (by simp)
    · rw [Function.update_noteq hji] at hj
      rw [h2w]
      exact hInv.nzeroCount j a st2 hj hpc2
  · refine pres_decAllCmd h2t (fun j te2 st2 hj hpc2 hji => ?_) (fun te2 st2 he hpc2 => ?_)
    · exact absurd (hInv.decAllCmd j te2 st2 hj hpc2) (by rw [hsleep]; simp)
    · injection he with h1 h2
      subst h2
      simp at hpc2
  · refine pres_casBackCmd hInv.casBackCmd h2t (fun j te2 st2 hj hpc2 hji => ?_)
      (fun te2 st2 he hpc2 => ?_)
    · exact absurd (hInv.casBackCmd j te2 st2 hj hpc2).1 (by rw [hsleep]; simp)
    · injection he with h1 h2
      subst h2
      simp at hpc2
  · refine pres_casBackCount h2t (fun j te2 st2 hj hpc2 hji => ?_) (fun te2 st2 he hpc2 => ?_)
    · exact absurd (hInv.casBackCmd j te2 st2 hj hpc2).1 (by rw [hsleep]; simp)
    · injection he with h1 h2
      subst h2
      simp at hpc2
  · refine pres_check_iff hInv.check_iff h2t h2o (iff_of_false ?_ ?_)
    · exact not_exists_check (by intro te2 st2 he; injection he with h1 h2; subst h2; simp [inCheck])
    · rintro ⟨te2, st2, he, hc⟩
      rw [hth] at he
      injection he with h1 h2
      subst h2
      rw [hpc] at hc
      simp [inCheck] at hc
  · intro h
    exact hs2sleep
  · refine pres_flagSleep hInv.flagSleep h2t (fun _ => hs2sleep) (fun _ _ _ _ => hs2sleep)
  · refine pres_ext hInv.ext_iff h2t ?_
    intro te2 st2 he
    injection he with h1 h2
    subst h2
    simp [extRegion, hextf]
  · refine pres_timedOutPc hInv.timedOutPc h2t ?_
    intro te2 st2 he hto
    injection he with h1 h2
    subst h2
    simp [hTOf] at hto
  · refine pres_toDecTO hInv.toDecTimedOut h2t ?_
    intro te2 st2 he hpc2
    injection he with h1 h2
    subst h2
    simp at hpc2

/-- Invariant preservation: the successful `try_lock` of `m_enter_mut` on the
timeout path (line 115). -/
theorem inv_trySucc {n : Nat} {s s2 : State n} {i : Fin n} {st : WState}
    (hInv : Inv s) (hth : s.threads i = .w true st) (hpc : st.pc = .tryTO)
    (hfree : s.enterLocked = false)
    (h2c : s2.command = s.command) (h2w : s2.numWaiters = s.numWaiters)
    (h2e : s2.enterLocked = true) (h2o : s2.checkOwner = s.checkOwner)
    (h2t : s2.threads = Function.update s.threads i
      (.w true { st with pc := .toDec, timedOut := true })) :
    Inv s2 := by
  have hsleep : s.command = .sleep := hInv.sleepUnlocked hfree
  have hs2sleep : s2.command = .sleep := by rw [h2c]; exact hsleep
  have ht := hInv.tokens
  rw [hfree] at ht
  simp at ht
  obtain ⟨htok0, hifl0⟩ := ht
  have htokOld : tok (s.threads i) = 0 := by rw [hth]; simp [tok, hpc]
  have hcntOld : cnt (s.threads i) = 1 := by rw [hth]; simp [cnt, hpc]
  have htokNew : tok (TState.w true { st with pc := .toDec, timedOut := true }) = 1 := by
    simp [tok]
  have hcntNew : cnt (TState.w true { st with pc := .toDec, timedOut := true }) = 1 := by
    simp [cnt]
  have hcs := cntSum_update h2t
  have hts := tokSum_update h2t
  have hextf : st.extHeld = false :=
    extHeld_false_of_pc hInv hth (by rw [hpc]; simp [extRegion])
  have hnotok : ∀ j, tok (s.threads j) = 0 := by
    intro j
    have hle : tok (s.threads j) ≤ tokSum s := le_sum_of_mem tok s.threads j
    omega
  refine ⟨?_, ?_, ?_, ?_, ?_, ?_, ?_, ?_, ?_, ?_, ?_, ?_, ?_, ?_⟩
  · rw [h2w]
    have := hInv.count_eq
    omega
  · rw [h2e, inflight_sleep hs2sleep]
    simp
    omega
  · intro hcmd
    rw [hs2sleep] at hcmd
    simp at hcmd
  · intro j a st2 hj hpc2
    rw [h2t] at hj
    by_cases hji : j = i
    · subst hji; rw [Function.update_same] at hj; exact absurd hj (by simp)
    · rw [Function.update_noteq hji] at hj
      exfalso
      have h1 : tok (s.threads j) = 1 := by rw [hj]; simp [tok, hpc2]
      rw [hnotok j] at h1
      cases h1
  · intro j a st2 hj hpc2
    rw [h2t] at hj
    by_cases hji : j = i
    · subst hji; rw [Function.update_same] at hj; exact absurd hj (by simp)
    · rw [Function.update_noteq hji] at hj
      exfalso
      have h1 : tok (s.threads j) = 1 := by rw [hj]; simp [tok, hpc2]
      rw [hnotok j] at h1
      cases h1
  · refine pres_decAllCmd h2t (fun j te2 st2 hj hpc2 hji => ?_) (fun te2 st2 he hpc2 => ?_)
    · exact absurd (hInv.decAllCmd j te2 st2 hj hpc2) (by rw [hsleep]; simp)
    · injection he with h1 h2
      subst h2
      simp at hpc2
  · refine pres_casBackCmd hInv.casBackCmd h2t (fun j te2 st2 hj hpc2 hji => ?_)
      (fun te2 st2 he hpc2 => ?_)
    · exact absurd (hInv.casBackCmd j te2 st2 hj hpc2).1 (by rw [hsleep]; simp)
    · injection he with h1 h2
      subst h2
      simp at hpc2
  · refine pres_casBackCount h2t (fun j te2 st2 hj hpc2 hji => ?_) (fun te2 st2 he hpc2 => ?_)
    · exact absurd (hInv.casBackCmd j te2 st2 hj hpc2).1 (by rw [hsleep]; simp)
    · injection he with h1 h2
      subst h2
      simp at hpc2
  · refine pres_check_iff hInv.check_iff h2t h2o (iff_of_false ?_ ?_)
    · exact not_exists_check (by intro te2 st2 he; injection he with h1 h2; subst h2; simp [inCheck])
    · rintro ⟨te2, st2, he, hc⟩
      rw [hth] at he
      injection he with h1 h2
      subst h2
      rw [hpc] at hc
      simp [inCheck] at hc
  · intro h
    rw [h2e] at h
    simp at h
  · refine pres_flagSleep hInv.flagSleep h2t (fun _ => hs2sleep) (fun _ _ _ _ => hs2sleep)
  · refine pres_ext hInv.ext_iff h2t ?_
    intro te2 st2 he
    injection he with h1 h2
    subst h2
    simp [extRegion, hextf]
  · refine pres_timedOutPc hInv.timedOutPc h2t ?_
    intro te2 st2 he hto
    injection he with h1 h2
    subst h2
    exact Or.inl rfl
  · refine pres_toDecTO hInv.toDecTimedOut h2t ?_
    intro te2 st2 he hpc2
    injection he with h1 h2
    subst h2
    rfl

/-- Invariant preservation: the timeout-path decrement of `m_num_waiters`
(line 134), with `unlock_enter_mut := true` (line 135). -/
theorem inv_toDecStep {n : Nat} {s s2 : State n} {i : Fin n} {st : WState}
    (hInv : Inv s) (hth : s.threads i = .w true st) (hpc : st.pc = .toDec)
    (h2c : s2.command = s.command) (h2w : s2.numWaiters = s.numWaiters - 1)
    (h2e : s2.enterLocked = s.enterLocked) (h2o : s2.checkOwner = s.checkOwner)
    (h2t : s2.threads = Function.update s.threads i
      (.w true { st with pc := .maybeUnlockEnter, unlockFlag := true })) :
    Inv s2 := by
  have htokOld : tok (s.threads i) = 1 := by rw [hth]; simp [tok, hpc]
  have hlock : s.enterLocked = true := locked_of_tok hInv htokOld.ge
  have hsleep : s.command = .sleep := by
    refine cmd_sleep_of_tok_one hInv htokOld ?_
    intro te2 st2 he hpc2
    rw [hth] at he
    injection he with h1 h2
    subst h2
    rw [hpc] at hpc2
    cases hpc2
  have hs2sleep : s2.command = .sleep := by rw [h2c]; exact hsleep
  have hifl0 : inflight s = 0 := inflight_sleep hsleep
  have hcntOld : cnt (s.threads i) = 1 := by rw [hth]; simp [cnt, hpc]
  have htokNew : tok (TState.w true { st with pc := .maybeUnlockEnter, unlockFlag := true }) = 1 := by
    simp [tok]
  have hcntNew : cnt (TState.w true { st with pc := .maybeUnlockEnter, unlockFlag := true }) = 0 := by
    simp [cnt]
  have hcs := cntSum_update h2t
  have hts := tokSum_update h2t
  have ht := hInv.tokens
  rw [hlock] at ht
  simp at ht
  have hcle : cnt (s.threads i) ≤ cntSum s := le_sum_of_mem cnt s.threads i
  have hextf : st.extHeld = false :=
    extHeld_false_of_pc hInv hth (by rw [hpc]; simp [extRegion])
  refine ⟨?_, ?_, ?_, ?_, ?_, ?_, ?_, ?_, ?_, ?_, ?_, ?_, ?_, ?_⟩
  · rw [h2w]
    have := hInv.count_eq
    unfold cntSum at *
    omega
  · rw [h2e, hlock, inflight_sleep hs2sleep]
    simp
    omega
  · intro hcmd
    rw [hs2sleep] at hcmd
    simp at hcmd
  · intro j a st2 hj hpc2
    rw [h2t] at hj
    by_cases hji : j = i
    · subst hji; rw [Function.update_same] at hj; exact absurd hj (by simp)
    · rw [Function.update_noteq hji] at hj
      exfalso
      exact tok_clash hInv hji htokOld (by rw [hj]; simp [tok, hpc2])
  · intro j a st2 hj hpc2
    rw [h2t] at hj
    by_cases hji : j = i
    · subst hji; rw [Function.update_same] at hj; exact absurd hj (by simp)
    · rw [Function.update_noteq hji] at hj
      exfalso
      exact tok_clash hInv hji htokOld (by rw [hj]; simp [tok, hpc2])
  · refine pres_decAllCmd h2t (fun j te2 st2 hj hpc2 hji => ?_) (fun te2 st2 he hpc2 => ?_)
    · exact absurd (hInv.decAllCmd j te2 st2 hj hpc2) (by rw [hsleep]; simp)
    · injection he with h1 h2
      subst h2
      simp at hpc2
  · refine pres_casBackCmd hInv.casBackCmd h2t (fun j te2 st2 hj hpc2 hji => ?_)
      (fun te2 st2 he hpc2 => ?_)
    · exact absurd (hInv.casBackCmd j te2 st2 hj hpc2).1 (by rw [hsleep]; simp)
    · injection he with h1 h2
      subst h2
      simp at hpc2
  · refine pres_casBackCount h2t (fun j te2 st2 hj hpc2 hji => ?_) (fun te2 st2 he hpc2 => ?_)
    · exact absurd (hInv.casBackCmd j te2 st2 hj hpc2).1 (by rw [hsleep]; simp)
    · injection he with h1 h2
      subst h2
      simp at hpc2
  · refine pres_check_iff hInv.check_iff h2t h2o (iff_of_false ?_ ?_)
    · exact not_exists_check (by intro te2 st2 he; injection he with h1 h2; subst h2; simp [inCheck])
    · rintro ⟨te2, st2, he, hc⟩
      rw [hth] at he
      injection he with h1 h2
      subst h2
      rw [hpc] at hc
      simp [inCheck] at hc
  · intro h
    rw [h2e, hlock] at h
    cases h
  · refine pres_flagSleep hInv.flagSleep h2t (fun _ => hs2sleep) (fun _ _ _ _ => hs2sleep)
  · refine pres_ext hInv.ext_iff h2t ?_
    intro te2 st2 he
    injection he with h1 h2
    subst h2
    simp [extRegion, hextf]
  · refine pres_timedOutPc hInv.timedOutPc h2t ?_
    intro te2 st2 he hto
    injection he with h1 h2
    subst h2
    exact Or.inr (Or.inl rfl)
  · refine pres_toDecTO hInv.toDecTimedOut h2t ?_
    intro te2 st2 he hpc2
    injection he with h1 h2
    subst h2
    simp at hpc2

/-- Invariant preservation: a waiter acquires `m_check_mut` (line 142). -/
theorem inv_checkAcq {n : Nat} {s s2 : State n} {i : Fin n} {te : Bool} {st : WState}
    (hInv : Inv s) (hth : s.threads i = .w te st) (hpc : st.pc = .lockCheck)
    (hfreeC : s.checkOwner = none)
    (h2c : s2.command = s.command) (h2w : s2.numWaiters = s.numWaiters)
    (h2e : s2.enterLocked = s.enterLocked) (h2o : s2.checkOwner = some i)
    (h2t : s2.threads = Function.update s.threads i (.w te { st with pc := .casOne })) :
    Inv s2 := by
  have htokOld : tok (s.threads i) = 0 := by rw [hth]; simp [tok, hpc]
  have hcntOld : cnt (s.threads i) = 1 := by rw [hth]; simp [cnt, hpc]
  have htokNew : tok (TState.w te { st with pc := .casOne }) = 0 := by simp [tok]
  have hcntNew : cnt (TState.w te { st with pc := .casOne }) = 1 := by simp [cnt]
  have hcs := cntSum_update h2t
  have hts := tokSum_update h2t
  have ht := hInv.tokens
  have hTOf : st.timedOut = false :=
    timedOut_false_of_pc hInv hth (by rw [hpc]; simp) (by rw [hpc]; simp)
      (by rw [hpc]; simp) (by rw [hpc]; simp)
  have hextf : st.extHeld = false :=
    extHeld_false_of_pc hInv hth (by rw [hpc]; simp [extRegion])
  refine ⟨?_, ?_, ?_, ?_, ?_, ?_, ?_, ?_, ?_, ?_, ?_, ?_, ?_, ?_⟩
  · rw [h2w]
    have := hInv.count_eq
    omega
  · rw [inflight_congr h2c h2w, h2e]
    omega
  · refine pres_allPos hInv.allPos h2t (fun h => by rw [h2c] at h; exact h)
      (fun h => Or.inl (by rw [h2w]; exact h)) ?_
    intro te2 st2 he hpc2
    rw [hth] at he
    injection he with h1 h2
    subst h2
    rw [hpc] at hpc2
    cases hpc2
  · refine pres_ncasPos hInv.ncasPos h2t (fun h => by rw [h2w]; exact h)
      (fun a st2 he => by exact absurd he (by simp))
  · refine pres_nzero hInv.nzeroCount h2t (fun h => by rw [h2w]; exact h)
      (fun a st2 he => by exact absurd he (by simp))
  · refine pres_decAllCmd h2t (fun j te2 st2 hj hpc2 hji => ?_) (fun te2 st2 he hpc2 => ?_)
    · rw [h2c]
      exact hInv.decAllCmd j te2 st2 hj hpc2
    · injection he with h1 h2
      subst h2
      simp at hpc2
  · refine pres_casBackCmd hInv.casBackCmd h2t (fun j te2 st2 hj hpc2 hji => ?_)
      (fun te2 st2 he hpc2 => ?_)
    · rw [h2c]
      exact (hInv.casBackCmd j te2 st2 hj hpc2).1
    · injection he with h1 h2
      subst h2
      simp at hpc2
  · refine pres_casBackCount h2t (fun j te2 st2 hj hpc2 hji => ?_) (fun te2 st2 he hpc2 => ?_)
    · rw [h2w]
      exact hInv.casBackCount j te2 st2 hj hpc2
    · injection he with h1 h2
      subst h2
      simp at hpc2
  · intro j
    rw [h2t, h2o]
    by_cases hji : j = i
    · subst hji
      rw [Function.update_same]
      constructor
      · intro _; rfl
      · intro _
        exact ⟨te, { st with pc := .casOne }, rfl, by simp [inCheck]⟩
    · rw [Function.update_noteq hji]
      constructor
      · rintro ⟨te2, st2, hj2, hc⟩
        have h3 := (hInv.check_iff j).mp ⟨te2, st2, hj2, hc⟩
        rw [hfreeC] at h3
        exact Option.noConfusion h3
      · intro h
        injection h with h
        exact absurd h.symm hji
  · intro h
    rw [h2e] at h
    rw [h2c]
    exact hInv.sleepUnlocked h
  · refine pres_flagSleep hInv.flagSleep h2t (fun h => by rw [h2c]; exact h) ?_
    intro te2 st2 he hcond
    injection he with h1 h2
    subst h2
    rcases hcond with h | h | ⟨hf, h | h⟩ <;> simp at h
  · refine pres_ext hInv.ext_iff h2t ?_
    intro te2 st2 he
    injection he with h1 h2
    subst h2
    simp [extRegion, hextf]
  · refine pres_timedOutPc hInv.timedOutPc h2t ?_
    intro te2 st2 he hto
    injection he with h1 h2
    subst h2
    simp [hTOf] at hto
  · refine pres_toDecTO hInv.toDecTimedOut h2t ?_
    intro te2 st2 he hpc2
    injection he with h1 h2
    subst h2
    simp at hpc2

/-- Invariant preservation: the release of `m_check_mut` after breaking out of
the wait loop. -/
theorem inv_checkRelExit {n : Nat} {s s2 : State n} {i : Fin n} {te : Bool} {st : WState}
    (hInv : Inv s) (hth : s.threads i = .w te st) (hpc : st.pc = .unlockCheckExit)
    (h2c : s2.command = s.command) (h2w : s2.numWaiters = s.numWaiters)
    (h2e : s2.enterLocked = s.enterLocked) (h2o : s2.checkOwner = none)
    (h2t : s2.threads = Function.update s.threads i
      (.w te { st with pc := .maybeUnlockEnter })) :
    Inv s2 := by
  have htokEq : tok (TState.w te { st with pc := .maybeUnlockEnter }) = tok (s.threads i) := by
    rw [hth]
    simp [tok, hpc]
  have hcntOld : cnt (s.threads i) = 0 := by rw [hth]; simp [cnt, hpc]
  have hcntNew : cnt (TState.w te { st with pc := .maybeUnlockEnter }) = 0 := by simp [cnt]
  have hcs := cntSum_update h2t
  have hts := tokSum_update h2t
  have ht := hInv.tokens
  have hTOf : st.timedOut = false :=
    timedOut_false_of_pc hInv hth (by rw [hpc]; simp) (by rw [hpc]; simp)
      (by rw [hpc]; simp) (by rw [hpc]; simp)
  have hextf : st.extHeld = false :=
    extHeld_false_of_pc hInv hth (by rw [hpc]; simp [extRegion])
  refine ⟨?_, ?_, ?_, ?_, ?_, ?_, ?_, ?_, ?_, ?_, ?_, ?_, ?_, ?_⟩
  · rw [h2w]
    have := hInv.count_eq
    omega
  · rw [inflight_congr h2c h2w, h2e]
    omega
  · refine pres_allPos hInv.allPos h2t (fun h => by rw [h2c] at h; exact h)
      (fun h => Or.inl (by rw [h2w]; exact h)) ?_
    intro te2 st2 he hpc2
    rw [hth] at he
    injection he with h1 h2
    subst h2
    rw [hpc] at hpc2
    cases hpc2
  · refine pres_ncasPos hInv.ncasPos h2t (fun h => by rw [h2w]; exact h)
      (fun a st2 he => by exact absurd he (by simp))
  · refine pres_nzero hInv.nzeroCount h2t (fun h => by rw [h2w]; exact h)
      (fun a st2 he => by exact absurd he (by simp))
  · refine pres_decAllCmd h2t (fun j te2 st2 hj hpc2 hji => ?_) (fun te2 st2 he hpc2 => ?_)
    · rw [h2c]
      exact hInv.decAllCmd j te2 st2 hj hpc2
    · injection he with h1 h2
      subst h2
      simp at hpc2
  · refine pres_casBackCmd hInv.casBackCmd h2t (fun j te2 st2 hj hpc2 hji => ?_)
      (fun te2 st2 he hpc2 => ?_)
    · rw [h2c]
      exact (hInv.casBackCmd j te2 st2 hj hpc2).1
    · injection he with h1 h2
      subst h2
      simp at hpc2
  · refine pres_casBackCount h2t (fun j te2 st2 hj hpc2 hji => ?_) (fun te2 st2 he hpc2 => ?_)
    · rw [h2w]
      exact hInv.casBackCount j te2 st2 hj hpc2
    · injection he with h1 h2
      subst h2
      simp at hpc2
  · intro j
    rw [h2t, h2o]
    by_cases hji : j = i
    · subst hji
      rw [Function.update_same]
      constructor
      · rintro ⟨te2, st2, he, hc⟩
        injection he with h1 h2
        subst h2
        simp [inCheck] at hc
      · intro h
        exact Option.noConfusion h
    · rw [Function.update_noteq hji]
      constructor
      · rintro ⟨te2, st2, hj2, hc⟩
        exfalso
        have howner : s.checkOwner = some i :=
          (hInv.check_iff i).mp ⟨te, st, hth, by rw [hpc]; trivial⟩
        have h3 := (hInv.check_iff j).mp ⟨te2, st2, hj2, hc⟩
        rw [howner] at h3
        injection h3 with h3
        exact hji h3.symm
      · intro h
        exact Option.noConfusion h
  · intro h
    rw [h2e] at h
    rw [h2c]
    exact hInv.sleepUnlocked h
  · refine pres_flagSleep hInv.flagSleep h2t (fun h => by rw [h2c]; exact h) ?_
    intro te2 st2 he hcond
    injection he with h1 h2
    subst h2
    rcases hcond with h | h | ⟨hf, h⟩
    · simp at h
    · simp at h
    · have hf2 : st.unlockFlag = true := hf
      rw [h2c]
      exact hInv.flagSleep i te st hth (Or.inr (Or.inr ⟨hf2, Or.inl hpc⟩))
  · refine pres_ext hInv.ext_iff h2t ?_
    intro te2 st2 he
    injection he with h1 h2
    subst h2
    simp [extRegion, hextf]
  · refine pres_timedOutPc hInv.timedOutPc h2t ?_
    intro te2 st2 he hto
    injection he with h1 h2
    subst h2
    simp [hTOf] at hto
  · refine pres_toDecTO hInv.toDecTimedOut h2t ?_
    intro te2 st2 he hpc2
    injection he with h1 h2
    subst h2
    simp at hpc2

/-- Invariant preservation: the release of `m_check_mut` on the re-spin path
(line 148). -/
theorem inv_checkRelSleep {n : Nat} {s s2 : State n} {i : Fin n} {te : Bool} {st : WState}
    (hInv : Inv s) (hth : s.threads i = .w te st) (hpc : st.pc = .unlockCheckResleep)
    (h2c : s2.command = s.command) (h2w : s2.numWaiters = s.numWaiters)
    (h2e : s2.enterLocked = s.enterLocked) (h2o : s2.checkOwner = none)
    (h2t : s2.threads = Function.update s.threads i (.w te { st with pc := .spin })) :
    Inv s2 := by
  have htokEq : tok (TState.w te { st with pc := .spin }) = tok (s.threads i) := by
    rw [hth]
    simp [tok, hpc]
  have hcntOld : cnt (s.threads i) = 1 := by rw [hth]; simp [cnt, hpc]
  have hcntNew : cnt (TState.w te { st with pc := .spin }) = 1 := by simp [cnt]
  have hcs := cntSum_update h2t
  have hts := tokSum_update h2t
  have ht := hInv.tokens
  have hTOf : st.timedOut = false :=
    timedOut_false_of_pc hInv hth (by rw [hpc]; simp) (by rw [hpc]; simp)
      (by rw [hpc]; simp) (by rw [hpc]; simp)
  have hextf : st.extHeld = false :=
    extHeld_false_of_pc hInv hth (by rw [hpc]; simp [extRegion])
  refine ⟨?_, ?_, ?_, ?_, ?_, ?_, ?_, ?_, ?_, ?_, ?_, ?_, ?_, ?_⟩
  · rw [h2w]
    have := hInv.count_eq
    omega
  · rw [inflight_congr h2c h2w, h2e]
    omega
  · refine pres_allPos hInv.allPos h2t (fun h => by rw [h2c] at h; exact h)
      (fun h => Or.inl (by rw [h2w]; exact h)) ?_
    intro te2 st2 he hpc2
    rw [hth] at he
    injection he with h1 h2
    subst h2
    rw [hpc] at hpc2
    cases hpc2
  · refine pres_ncasPos hInv.ncasPos h2t (fun h => by rw [h2w]; exact h)
      (fun a st2 he => by exact absurd he (by simp))
  · refine pres_nzero hInv.nzeroCount h2t (fun h => by rw [h2w]; exact h)
      (fun a st2 he => by exact absurd he (by simp))
  · refine pres_decAllCmd h2t (fun j te2 st2 hj hpc2 hji => ?_) (fun te2 st2 he hpc2 => ?_)
    · rw [h2c]
      exact hInv.decAllCmd j te2 st2 hj hpc2
    · injection he with h1 h2
      subst h2
      simp at hpc2
  · refine pres_casBackCmd hInv.casBackCmd h2t (fun j te2 st2 hj hpc2 hji => ?_)
      (fun te2 st2 he hpc2 => ?_)
    · rw [h2c]
      exact (hInv.casBackCmd j te2 st2 hj hpc2).1
    · injection he with h1 h2
      subst h2
      simp at hpc2
  · refine pres_casBackCount h2t (fun j te2 st2 hj hpc2 hji => ?_) (fun te2 st2 he hpc2 => ?_)
    · rw [h2w]
      exact hInv.casBackCount j te2 st2 hj hpc2
    · injection he with h1 h2
      subst h2
      simp at hpc2
  · intro j
    rw [h2t, h2o]
    by_cases hji : j = i
    · subst hji
      rw [Function.update_same]
      constructor
      · rintro ⟨te2, st2, he, hc⟩
        injection he with h1 h2
        subst h2
        simp [inCheck] at hc
      · intro h
        exact Option.noConfusion h
    · rw [Function.update_noteq hji]
      constructor
      · rintro ⟨te2, st2, hj2, hc⟩
        exfalso
        have howner : s.checkOwner = some i :=
          (hInv.check_iff i).mp ⟨te, st, hth, by rw [hpc]; trivial⟩
        have h3 := (hInv.check_iff j).mp ⟨te2, st2, hj2, hc⟩
        rw [howner] at h3
        injection h3 with h3
        exact hji h3.symm
      · intro h
        exact Option.noConfusion h
  · intro h
    rw [h2e] at h
    rw [h2c]
    exact hInv.sleepUnlocked h
  · refine pres_flagSleep hInv.flagSleep h2t (fun h => by rw [h2c]; exact h) ?_
    intro te2 st2 he hcond
    injection he with h1 h2
    subst h2
    rcases hcond with h | h | ⟨hf, h | h⟩ <;> simp at h
  · refine pres_ext hInv.ext_iff h2t ?_
    intro te2 st2 he
    injection he with h1 h2
    subst h2
    simp [extRegion, hextf]
  · refine pres_timedOutPc hInv.timedOutPc h2t ?_
    intro te2 st2 he hto
    injection he with h1 h2
    subst h2
    simp [hTOf] at hto
  · refine pres_toDecTO hInv.toDecTimedOut h2t ?_
    intro te2 st2 he hpc2
    injection he with h1 h2
    subst h2
    simp at hpc2

/-- Invariant preservation: a waiter wins the `NOTIFY_ONE` compare-exchange
(lines 144, 150-155): `m_command` goes back to `SLEEP` and the winner takes the
obligation to release `m_enter_mut`. -/
theorem inv_casOneWin {n : Nat} {s s2 : State n} {i : Fin n} {te : Bool} {st : WState}
    (hInv : Inv s) (hth : s.threads i = .w te st) (hpc : st.pc = .casOne)
    (hcmd : s.command = .notifyOne)
    (h2c : s2.command = .sleep) (h2w : s2.numWaiters = s.numWaiters)
    (h2e : s2.enterLocked = s.enterLocked) (h2o : s2.checkOwner = s.checkOwner)
    (h2t : s2.threads = Function.update s.threads i
      (.w te { st with pc := .decOne, unlockFlag := true })) :
    Inv s2 := by
  have hifl1 : inflight s = 1 := inflight_one hcmd
  have ht := hInv.tokens
  have hlock : s.enterLocked = true := by
    cases hb : s.enterLocked
    · rw [hb] at ht
      simp at ht
      omega
    · rfl
  rw [hlock] at ht
  simp at ht
  have htok0 : tokSum s = 0 := by omega
  have htokOld : tok (s.threads i) = 0 := by rw [hth]; simp [tok, hpc]
  have hcntOld : cnt (s.threads i) = 1 := by rw [hth]; simp [cnt, hpc]
  have htokNew : tok (TState.w te { st with pc := .decOne, unlockFlag := true }) = 1 := by
    simp [tok]
  have hcntNew : cnt (TState.w te { st with pc := .decOne, unlockFlag := true }) = 1 := by
    simp [cnt]
  have hcs := cntSum_update h2t
  have hts := tokSum_update h2t
  have hTOf : st.timedOut = false :=
    timedOut_false_of_pc hInv hth (by rw [hpc]; simp) (by rw [hpc]; simp)
      (by rw [hpc]; simp) (by rw [hpc]; simp)
  have hextf : st.extHeld = false :=
    extHeld_false_of_pc hInv hth (by rw [hpc]; simp [extRegion])
  have hnotok : ∀ j, tok (s.threads j) = 0 := by
    intro j
    have hle : tok (s.threads j) ≤ tokSum s := le_sum_of_mem tok s.threads j
    omega
  refine ⟨?_, ?_, ?_, ?_, ?_, ?_, ?_, ?_, ?_, ?_, ?_, ?_, ?_, ?_⟩
  · rw [h2w]
    have := hInv.count_eq
    omega
  · rw [h2e, hlock, inflight_sleep h2c]
    simp
    omega
  · intro hcmd2
    rw [h2c] at hcmd2
    simp at hcmd2
  · intro j a st2 hj hpc2
    rw [h2t] at hj
    by_cases hji : j = i
    · subst hji; rw [Function.update_same] at hj; exact absurd hj (by simp)
    · rw [Function.update_noteq hji] at hj
      exfalso
      have h1 : tok (s.threads j) = 1 := by rw [hj]; simp [tok, hpc2]
      rw [hnotok j] at h1
      cases h1
  · intro j a st2 hj hpc2
    rw [h2t] at hj
    by_cases hji : j = i
    · subst hji; rw [Function.update_same] at hj; exact absurd hj (by simp)
    · rw [Function.update_noteq hji] at hj
      exfalso
      have h1 : tok (s.threads j) = 1 := by rw [hj]; simp [tok, hpc2]
      rw [hnotok j] at h1
      cases h1
  · refine pres_decAllCmd h2t (fun j te2 st2 hj hpc2 hji => ?_) (fun te2 st2 he hpc2 => ?_)
    · exact absurd (hInv.decAllCmd j te2 st2 hj hpc2) (by rw [hcmd]; simp)
    · injection he with h1 h2
      subst h2
      simp at hpc2
  · refine pres_casBackCmd hInv.casBackCmd h2t (fun j te2 st2 hj hpc2 hji => ?_)
      (fun te2 st2 he hpc2 => ?_)
    · exact absurd (hInv.casBackCmd j te2 st2 hj hpc2).1 (by rw [hcmd]; simp)
    · injection he with h1 h2
      subst h2
      simp at hpc2
  · refine pres_casBackCount h2t (fun j te2 st2 hj hpc2 hji => ?_) (fun te2 st2 he hpc2 => ?_)
    · exact absurd (hInv.casBackCmd j te2 st2 hj hpc2).1 (by rw [hcmd]; simp)
    · injection he with h1 h2
      subst h2
      simp at hpc2
  · refine pres_check_iff hInv.check_iff h2t h2o (iff_of_true ?_ ?_)
    · exact ⟨te, { st with pc := .decOne, unlockFlag := true }, rfl, by simp [inCheck]⟩
    · exact ⟨te, st, hth, by rw [hpc]; trivial⟩
  · intro h
    rw [h2e, hlock] at h
    cases h
  · refine pres_flagSleep hInv.flagSleep h2t (fun _ => h2c) (fun _ _ _ _ => h2c)
  · refine pres_ext hInv.ext_iff h2t ?_
    intro te2 st2 he
    injection he with h1 h2
    subst h2
    simp [extRegion, hextf]
  · refine pres_timedOutPc hInv.timedOutPc h2t ?_
    intro te2 st2 he hto
    injection he with h1 h2
    subst h2
    simp [hTOf] at hto
  · refine pres_toDecTO hInv.toDecTimedOut h2t ?_
    intro te2 st2 he hpc2
    injection he with h1 h2
    subst h2
    simp at hpc2

/-- Invariant preservation: the winner's decrement of `m_num_waiters`
(line 156). -/
theorem inv_decOneStep {n : Nat} {s s2 : State n} {i : Fin n} {te : Bool} {st : WState}
    (hInv : Inv s) (hth : s.threads i = .w te st) (hpc : st.pc = .decOne)
    (hf : st.unlockFlag = true)
    (h2c : s2.command = s.command) (h2w : s2.numWaiters = s.numWaiters - 1)
    (h2e : s2.enterLocked = s.enterLocked) (h2o : s2.checkOwner = s.checkOwner)
    (h2t : s2.threads = Function.update s.threads i
      (.w te { st with pc := .unlockCheckExit })) :
    Inv s2 := by
  have htokOld : tok (s.threads i) = 1 := by rw [hth]; simp [tok, hpc]
  have hlock : s.enterLocked = true := locked_of_tok hInv htokOld.ge
  have hsleep : s.command = .sleep := hInv.flagSleep i te st hth (Or.inr (Or.inl hpc))
  have hs2sleep : s2.command = .sleep := by rw [h2c]; exact hsleep
  have hifl0 : inflight s = 0 := inflight_sleep hsleep
  have hcntOld : cnt (s.threads i) = 1 := by rw [hth]; simp [cnt, hpc]
  have htokNew : tok (TState.w te { st with pc := .unlockCheckExit }) = 1 := by
    simp [tok, hf]
  have hcntNew : cnt (TState.w te { st with pc := .unlockCheckExit }) = 0 := by simp [cnt]
  have hcs := cntSum_update h2t
  have hts := tokSum_update h2t
  have ht := hInv.tokens
  rw [hlock] at ht
  simp at ht
  have hcle : cnt (s.threads i) ≤ cntSum s := le_sum_of_mem cnt s.threads i
  have hTOf : st.timedOut = false :=
    timedOut_false_of_pc hInv hth (by rw [hpc]; simp) (by rw [hpc]; simp)
      (by rw [hpc]; simp) (by rw [hpc]; simp)
  have hextf : st.extHeld = false :=
    extHeld_false_of_pc hInv hth (by rw [hpc]; simp [extRegion])
  refine ⟨?_, ?_, ?_, ?_, ?_, ?_, ?_, ?_, ?_, ?_, ?_, ?_, ?_, ?_⟩
  · rw [h2w]
    have := hInv.count_eq
    omega
  · rw [h2e, hlock, inflight_sleep hs2sleep]
    simp
    omega
  · intro hcmd
    rw [hs2sleep] at hcmd
    simp at hcmd
  · intro j a st2 hj hpc2
    rw [h2t] at hj
    by_cases hji : j = i
    · subst hji; rw [Function.update_same] at hj; exact absurd hj (by simp)
    · rw [Function.update_noteq hji] at hj
      exfalso
      exact tok_clash hInv hji htokOld (by rw [hj]; simp [tok, hpc2])
  · intro j a st2 hj hpc2
    rw [h2t] at hj
    by_cases hji : j = i
    · subst hji; rw [Function.update_same] at hj; exact absurd hj (by simp)
    · rw [Function.update_noteq hji] at hj
      exfalso
      exact tok_clash hInv hji htokOld (by rw [hj]; simp [tok, hpc2])
  · refine pres_decAllCmd h2t (fun j te2 st2 hj hpc2 hji => ?_) (fun te2 st2 he hpc2 => ?_)
    · exact absurd (hInv.decAllCmd j te2 st2 hj hpc2) (by rw [hsleep]; simp)
    · injection he with h1 h2
      subst h2
      simp at hpc2
  · refine pres_casBackCmd hInv.casBackCmd h2t (fun j te2 st2 hj hpc2 hji => ?_)
      (fun te2 st2 he hpc2 => ?_)
    · exact absurd (hInv.casBackCmd j te2 st2 hj hpc2).1 (by rw [hsleep]; simp)
    · injection he with h1 h2
      subst h2
      simp at hpc2
  · refine pres_casBackCount h2t (fun j te2 st2 hj hpc2 hji => ?_) (fun te2 st2 he hpc2 => ?_)
    · exact absurd (hInv.casBackCmd j te2 st2 hj hpc2).1 (by rw [hsleep]; simp)
    · injection he with h1 h2
      subst h2
      simp at hpc2
  · refine pres_check_iff hInv.check_iff h2t h2o (iff_of_true ?_ ?_)
    · exact ⟨te, { st with pc := .unlockCheckExit }, rfl, by simp [inCheck]⟩
    · exact ⟨te, st, hth, by rw [hpc]; trivial⟩
  · intro h
    rw [h2e, hlock] at h
    cases h
  · refine pres_flagSleep hInv.flagSleep h2t (fun _ => hs2sleep) (fun _ _ _ _ => hs2sleep)
  · refine pres_ext hInv.ext_iff h2t ?_
    intro te2 st2 he
    injection he with h1 h2
    subst h2
    simp [extRegion, hextf]
  · refine pres_timedOutPc hInv.timedOutPc h2t ?_
    intro te2 st2 he hto
    injection he with h1 h2
    subst h2
    simp [hTOf] at hto
  · refine pres_toDecTO hInv.toDecTimedOut h2t ?_
    intro te2 st2 he hpc2
    injection he with h1 h2
    subst h2
    simp at hpc2

/-- Invariant preservation: the notify-all decrement that reaches zero
(lines 162-165). -/
theorem inv_decAllLast {n : Nat} {s s2 : State n} {i : Fin n} {te : Bool} {st : WState}
    (hInv : Inv s) (hth : s.threads i = .w te st) (hpc : st.pc = .decAll)
    (hone : s.numWaiters = 1)
    (h2c : s2.command = s.command) (h2w : s2.numWaiters = s.numWaiters - 1)
    (h2e : s2.enterLocked = s.enterLocked) (h2o : s2.checkOwner = s.checkOwner)
    (h2t : s2.threads = Function.update s.threads i
      (.w te { st with pc := .casAllBack, unlockFlag := true })) :
    Inv s2 := by
  have hcmdAll : s.command = .notifyAll := hInv.decAllCmd i te st hth hpc
  have hifl1 : inflight s = 1 := inflight_all_pos hcmdAll (by omega)
  have ht := hInv.tokens
  have hlock : s.enterLocked = true := by
    cases hb : s.enterLocked
    · rw [hb] at ht
      simp at ht
      omega
    · rfl
  rw [hlock] at ht
  simp at ht
  have htok0 : tokSum s = 0 := by omega
  have htokOld : tok (s.threads i) = 0 := by rw [hth]; simp [tok, hpc]
  have hcntOld : cnt (s.threads i) = 1 := by rw [hth]; simp [cnt, hpc]
  have htokNew : tok (TState.w te { st with pc := .casAllBack, unlockFlag := true }) = 1 := by
    simp [tok]
  have hcntNew : cnt (TState.w te { st with pc := .casAllBack, unlockFlag := true }) = 0 := by
    simp [cnt]
  have hcs := cntSum_update h2t
  have hts := tokSum_update h2t
  have hs2all : s2.command = .notifyAll := by rw [h2c]; exact hcmdAll
  have hw0 : s2.numWaiters = 0 := by rw [h2w, hone]; simp
  have howner : s.checkOwner = some i :=
    (hInv.check_iff i).mp ⟨te, st, hth, by rw [hpc]; trivial⟩
  have hTOf : st.timedOut = false :=
    timedOut_false_of_pc hInv hth (by rw [hpc]; simp) (by rw [hpc]; simp)
      (by rw [hpc]; simp) (by rw [hpc]; simp)
  have hextf : st.extHeld = false :=
    extHeld_false_of_pc hInv hth (by rw [hpc]; simp [extRegion])
  have hnotok : ∀ j, tok (s.threads j) = 0 := by
    intro j
    have hle : tok (s.threads j) ≤ tokSum s := le_sum_of_mem tok s.threads j
    omega
  refine ⟨?_, ?_, ?_, ?_, ?_, ?_, ?_, ?_, ?_, ?_, ?_, ?_, ?_, ?_⟩
  · rw [h2w]
    have := hInv.count_eq
    omega
  · rw [h2e, hlock, inflight_all_zero hs2all (by omega)]
    simp
    omega
  · intro hcmd2
    refine Or.inr ⟨i, te, { st with pc := .casAllBack, unlockFlag := true }, ?_, rfl⟩
    rw [h2t, Function.update_same]
  · intro j a st2 hj hpc2
    rw [h2t] at hj
    by_cases hji : j = i
    · subst hji; rw [Function.update_same] at hj; exact absurd hj (by simp)
    · rw [Function.update_noteq hji] at hj
      exfalso
      have h1 : tok (s.threads j) = 1 := by rw [hj]; simp [tok, hpc2]
      rw [hnotok j] at h1
      cases h1
  · intro j a st2 hj hpc2
    rw [h2t] at hj
    by_cases hji : j = i
    · subst hji; rw [Function.update_same] at hj; exact absurd hj (by simp)
    · rw [Function.update_noteq hji] at hj
      exfalso
      have h1 : tok (s.threads j) = 1 := by rw [hj]; simp [tok, hpc2]
      rw [hnotok j] at h1
      cases h1
  · refine pres_decAllCmd h2t (fun j te2 st2 hj hpc2 hji => ?_) (fun te2 st2 he hpc2 => ?_)
    · exfalso
      have h3 := (hInv.check_iff j).mp ⟨te2, st2, hj, by rw [hpc2]; trivial⟩
      rw [howner] at h3
      injection h3 with h3
      exact hji h3.symm
    · exact hs2all
  · refine pres_casBackCmd hInv.casBackCmd h2t (fun j te2 st2 hj hpc2 hji => ?_)
      (fun te2 st2 he hpc2 => ?_)
    · exfalso
      have h3 := (hInv.check_iff j).mp ⟨te2, st2, hj, by rw [hpc2]; trivial⟩
      rw [howner] at h3
      injection h3 with h3
      exact hji h3.symm
    · injection he with h1 h2
      subst h2
      exact ⟨hs2all, rfl⟩
  · refine pres_casBackCount h2t (fun j te2 st2 hj hpc2 hji => ?_) (fun te2 st2 he hpc2 => ?_)
    · exfalso
      have h3 := (hInv.check_iff j).mp ⟨te2, st2, hj, by rw [hpc2]; trivial⟩
      rw [howner] at h3
      injection h3 with h3
      exact hji h3.symm
    · exact hw0
  · refine pres_check_iff hInv.check_iff h2t h2o (iff_of_true ?_ ?_)
    · exact ⟨te, { st with pc := .casAllBack, unlockFlag := true }, rfl, by simp [inCheck]⟩
    · exact ⟨te, st, hth, by rw [hpc]; trivial⟩
  · intro h
    rw [h2e, hlock] at h
    cases h
  · refine pres_flagSleep hInv.flagSleep h2t (fun h => by rw [h2c]; exact h) ?_
    intro te2 st2 he hcond
    injection he with h1 h2
    subst h2
    rcases hcond with h | h | ⟨hfl, h | h⟩ <;> simp at h
  · refine pres_ext hInv.ext_iff h2t ?_
    intro te2 st2 he
    injection he with h1 h2
    subst h2
    simp [extRegion, hextf]
  · refine pres_timedOutPc hInv.timedOutPc h2t ?_
    intro te2 st2 he hto
    injection he with h1 h2
    subst h2
    simp [hTOf] at hto
  · refine pres_toDecTO hInv.toDecTimedOut h2t ?_
    intro te2 st2 he hpc2
    injection he with h1 h2
    subst h2
    simp at hpc2

/-- Invariant preservation: a notify-all decrement that does not reach zero
(line 162, result nonzero). -/
theorem inv_decAllMore {n : Nat} {s s2 : State n} {i : Fin n} {te : Bool} {st : WState}
    (hInv : Inv s) (hth : s.threads i = .w te st) (hpc : st.pc = .decAll)
    (hone : s.numWaiters ≠ 1) (hf : st.unlockFlag = false)
    (h2c : s2.command = s.command) (h2w : s2.numWaiters = s.numWaiters - 1)
    (h2e : s2.enterLocked = s.enterLocked) (h2o : s2.checkOwner = s.checkOwner)
    (h2t : s2.threads = Function.update s.threads i
      (.w te { st with pc := .unlockCheckExit })) :
    Inv s2 := by
  have hcmdAll : s.command = .notifyAll := hInv.decAllCmd i te st hth hpc
  have hcntOld : cnt (s.threads i) = 1 := by rw [hth]; simp [cnt, hpc]
  have hcle : cnt (s.threads i) ≤ cntSum s := le_sum_of_mem cnt s.threads i
  have hcq := hInv.count_eq
  have hpos : 0 < s.numWaiters := by omega
  have hifl1 : inflight s = 1 := inflight_all_pos hcmdAll hpos
  have ht := hInv.tokens
  have hlock : s.enterLocked = true := by
    cases hb : s.enterLocked
    · rw [hb] at ht
      simp at ht
      omega
    · rfl
  rw [hlock] at ht
  simp at ht
  have htok0 : tokSum s = 0 := by omega
  have htokOld : tok (s.threads i) = 0 := by rw [hth]; simp [tok, hpc]
  have htokNew : tok (TState.w te { st with pc := .unlockCheckExit }) = 0 := by
    simp [tok, hf]
  have hcntNew : cnt (TState.w te { st with pc := .unlockCheckExit }) = 0 := by simp [cnt]
  have hcs := cntSum_update h2t
  have hts := tokSum_update h2t
  have hs2all : s2.command = .notifyAll := by rw [h2c]; exact hcmdAll
  have hw2pos : 0 < s2.numWaiters := by
    rw [h2w]
    omega
  have howner : s.checkOwner = some i :=
    (hInv.check_iff i).mp ⟨te, st, hth, by rw [hpc]; trivial⟩
  have hTOf : st.timedOut = false :=
    timedOut_false_of_pc hInv hth (by rw [hpc]; simp) (by rw [hpc]; simp)
      (by rw [hpc]; simp) (by rw [hpc]; simp)
  have hextf : st.extHeld = false :=
    extHeld_false_of_pc hInv hth (by rw [hpc]; simp [extRegion])
  have hnotok : ∀ j, tok (s.threads j) = 0 := by
    intro j
    have hle : tok (s.threads j) ≤ tokSum s := le_sum_of_mem tok s.threads j
    omega
  refine ⟨?_, ?_, ?_, ?_, ?_, ?_, ?_, ?_, ?_, ?_, ?_, ?_, ?_, ?_⟩
  · rw [h2w]
    unfold cntSum at *
    omega
  · rw [h2e, hlock, inflight_all_pos hs2all hw2pos]
    simp
    omega
  · intro hcmd2
    exact Or.inl hw2pos
  · intro j a st2 hj hpc2
    rw [h2t] at hj
    by_cases hji : j = i
    · subst hji; rw [Function.update_same] at hj; exact absurd hj (by simp)
    · rw [Function.update_noteq hji] at hj
      exfalso
      have h1 : tok (s.threads j) = 1 := by rw [hj]; simp [tok, hpc2]
      rw [hnotok j] at h1
      cases h1
  · intro j a st2 hj hpc2
    rw [h2t] at hj
    by_cases hji : j = i
    · subst hji; rw [Function.update_same] at hj; exact absurd hj (by simp)
    · rw [Function.update_noteq hji] at hj
      exfalso
      have h1 : tok (s.threads j) = 1 := by rw [hj]; simp [tok, hpc2]
      rw [hnotok j] at h1
      cases h1
  · refine pres_decAllCmd h2t (fun j te2 st2 hj hpc2 hji => ?_) (fun te2 st2 he hpc2 => ?_)
    · exfalso
      have h3 := (hInv.check_iff j).mp ⟨te2, st2, hj, by rw [hpc2]; trivial⟩
      rw [howner] at h3
      injection h3 with h3
      exact hji h3.symm
    · exact hs2all
  · refine pres_casBackCmd hInv.casBackCmd h2t (fun j te2 st2 hj hpc2 hji => ?_)
      (fun te2 st2 he hpc2 => ?_)
    · exfalso
      have h3 := (hInv.check_iff j).mp ⟨te2, st2, hj, by rw [hpc2]; trivial⟩
      rw [howner] at h3
      injection h3 with h3
      exact hji h3.symm
    · injection he with h1 h2
      subst h2
      simp at hpc2
  · refine pres_casBackCount h2t (fun j te2 st2 hj hpc2 hji => ?_) (fun te2 st2 he hpc2 => ?_)
    · exfalso
      have h3 := (hInv.check_iff j).mp ⟨te2, st2, hj, by rw [hpc2]; trivial⟩
      rw [howner] at h3
      injection h3 with h3
      exact hji h3.symm
    · injection he with h1 h2
      subst h2
      simp at hpc2
  · refine pres_check_iff hInv.check_iff h2t h2o (iff_of_true ?_ ?_)
    · exact ⟨te, { st with pc := .unlockCheckExit }, rfl, by simp [inCheck]⟩
    · exact ⟨te, st, hth, by rw [hpc]; trivial⟩
  · intro h
    rw [h2e, hlock] at h
    cases h
  · refine pres_flagSleep hInv.flagSleep h2t (fun h => by rw [h2c]; exact h) ?_
    intro te2 st2 he hcond
    injection he with h1 h2
    subst h2
    rcases hcond with h | h | ⟨hfl, h | h⟩
    · simp at h
    · simp at h
    · have hfl2 : st.unlockFlag = true := hfl
      rw [hf] at hfl2
      cases hfl2
    · simp at h
  · refine pres_ext hInv.ext_iff h2t ?_
    intro te2 st2 he
    injection he with h1 h2
    subst h2
    simp [extRegion, hextf]
  · refine pres_timedOutPc hInv.timedOutPc h2t ?_
    intro te2 st2 he hto
    injection he with h1 h2
    subst h2
    simp [hTOf] at hto
  · refine pres_toDecTO hInv.toDecTimedOut h2t ?_
    intro te2 st2 he hpc2
    injection he with h1 h2
    subst h2
    simp at hpc2

/-- Invariant preservation: the last notify-all waiter swaps `m_command` from
`NOTIFY_ALL` back to `SLEEP` (line 166). -/
theorem inv_casAllBackStep {n : Nat} {s s2 : State n} {i : Fin n} {te : Bool} {st : WState}
    (hInv : Inv s) (hth : s.threads i = .w te st) (hpc : st.pc = .casAllBack)
    (h2c : s2.command = (if s.command = .notifyAll then Cmd.sleep else s.command))
    (h2w : s2.numWaiters = s.numWaiters)
    (h2e : s2.enterLocked = s.enterLocked) (h2o : s2.checkOwner = s.checkOwner)
    (h2t : s2.threads = Function.update s.threads i
      (.w te { st with pc := .unlockCheckExit })) :
    Inv s2 := by
  obtain ⟨hcmdAll, hflag⟩ := hInv.casBackCmd i te st hth hpc
  have hw0 : s.numWaiters = 0 := hInv.casBackCount i te st hth hpc
  have hs2sleep : s2.command = .sleep := by rw [h2c, if_pos hcmdAll]
  have htokOld : tok (s.threads i) = 1 := by rw [hth]; simp [tok, hpc]
  have hlock : s.enterLocked = true := locked_of_tok hInv htokOld.ge
  have hifl0 : inflight s = 0 := inflight_all_zero hcmdAll (by omega)
  have hcntOld : cnt (s.threads i) = 0 := by rw [hth]; simp [cnt, hpc]
  have htokNew : tok (TState.w te { st with pc := .unlockCheckExit }) = 1 := by
    simp [tok, hflag]
  have hcntNew : cnt (TState.w te { st with pc := .unlockCheckExit }) = 0 := by simp [cnt]
  have hcs := cntSum_update h2t
  have hts := tokSum_update h2t
  have ht := hInv.tokens
  rw [hlock] at ht
  simp at ht
  have howner : s.checkOwner = some i :=
    (hInv.check_iff i).mp ⟨te, st, hth, by rw [hpc]; trivial⟩
  have hTOf : st.timedOut = false :=
    timedOut_false_of_pc hInv hth (by rw [hpc]; simp) (by rw [hpc]; simp)
      (by rw [hpc]; simp) (by rw [hpc]; simp)
  have hextf : st.extHeld = false :=
    extHeld_false_of_pc hInv hth (by rw [hpc]; simp [extRegion])
  refine ⟨?_, ?_, ?_, ?_, ?_, ?_, ?_, ?_, ?_, ?_, ?_, ?_, ?_, ?_⟩
  · rw [h2w]
    have := hInv.count_eq
    omega
  · rw [h2e, hlock, inflight_sleep hs2sleep]
    simp
    omega
  · intro hcmd2
    rw [hs2sleep] at hcmd2
    simp at hcmd2
  · intro j a st2 hj hpc2
    rw [h2t] at hj
    by_cases hji : j = i
    · subst hji; rw [Function.update_same] at hj; exact absurd hj (by simp)
    · rw [Function.update_noteq hji] at hj
      exfalso
      exact tok_clash hInv hji htokOld (by rw [hj]; simp [tok, hpc2])
  · intro j a st2 hj hpc2
    rw [h2t] at hj
    by_cases hji : j = i
    · subst hji; rw [Function.update_same] at hj; exact absurd hj (by simp)
    · rw [Function.update_noteq hji] at hj
      exfalso
      exact tok_clash hInv hji htokOld (by rw [hj]; simp [tok, hpc2])
  · refine pres_decAllCmd h2t (fun j te2 st2 hj hpc2 hji => ?_) (fun te2 st2 he hpc2 => ?_)
    · exfalso
      have h3 := (hInv.check_iff j).mp ⟨te2, st2, hj, by rw [hpc2]; trivial⟩
      rw [howner] at h3
      injection h3 with h3
      exact hji h3.symm
    · injection he with h1 h2
      subst h2
      simp at hpc2
  · refine pres_casBackCmd hInv.casBackCmd h2t (fun j te2 st2 hj hpc2 hji => ?_)
      (fun te2 st2 he hpc2 => ?_)
    · exfalso
      have h3 := (hInv.check_iff j).mp ⟨te2, st2, hj, by rw [hpc2]; trivial⟩
      rw [howner] at h3
      injection h3 with h3
      exact hji h3.symm
    · injection he with h1 h2
      subst h2
      simp at hpc2
  · refine pres_casBackCount h2t (fun j te2 st2 hj hpc2 hji => ?_) (fun te2 st2 he hpc2 => ?_)
    · exfalso
      have h3 := (hInv.check_iff j).mp ⟨te2, st2, hj, by rw [hpc2]; trivial⟩
      rw [howner] at h3
      injection h3 with h3
      exact hji h3.symm
    · injection he with h1 h2
      subst h2
      simp at hpc2
  · refine pres_check_iff hInv.check_iff h2t h2o (iff_of_true ?_ ?_)
    · exact ⟨te, { st with pc := .unlockCheckExit }, rfl, by simp [inCheck]⟩
    · exact ⟨te, st, hth, by rw [hpc]; trivial⟩
  · intro h
    rw [h2e, hlock] at h
    cases h
  · refine pres_flagSleep hInv.flagSleep h2t (fun _ => hs2sleep) (fun _ _ _ _ => hs2sleep)
  · refine pres_ext hInv.ext_iff h2t ?_
    intro te2 st2 he
    injection he with h1 h2
    subst h2
    simp [extRegion, hextf]
  · refine pres_timedOutPc hInv.timedOutPc h2t ?_
    intro te2 st2 he hto
    injection he with h1 h2
    subst h2
    simp [hTOf] at hto
  · refine pres_toDecTO hInv.toDecTimedOut h2t ?_
    intro te2 st2 he hpc2
    injection he with h1 h2
    subst h2
    simp at hpc2

/-- Invariant preservation: the final `m_enter_mut.unlock()` (line 176) by a
thread whose `unlock_enter_mut` flag is set. -/
theorem inv_enterRelMaybeT {n : Nat} {s s2 : State n} {i : Fin n} {te : Bool} {st : WState}
    (hInv : Inv s) (hth : s.threads i = .w te st) (hpc : st.pc = .maybeUnlockEnter)
    (hf : st.unlockFlag = true)
    (h2c : s2.command = s.command) (h2w : s2.numWaiters = s.numWaiters)
    (h2e : s2.enterLocked = false) (h2o : s2.checkOwner = s.checkOwner)
    (h2t : s2.threads = Function.update s.threads i (.w te { st with pc := .relockExt })) :
    Inv s2 := by
  have htokOld : tok (s.threads i) = 1 := by rw [hth]; simp [tok, hpc, hf]
  have hlock : s.enterLocked = true := locked_of_tok hInv htokOld.ge
  have hsleep : s.command = .sleep :=
    hInv.flagSleep i te st hth (Or.inr (Or.inr ⟨hf, Or.inr hpc⟩))
  have hs2sleep : s2.command = .sleep := by rw [h2c]; exact hsleep
  have hifl0 : inflight s = 0 := inflight_sleep hsleep
  have hcntOld : cnt (s.threads i) = 0 := by rw [hth]; simp [cnt, hpc]
  have htokNew : tok (TState.w te { st with pc := .relockExt }) = 0 := by simp [tok]
  have hcntNew : cnt (TState.w te { st with pc := .relockExt }) = 0 := by simp [cnt]
  have hcs := cntSum_update h2t
  have hts := tokSum_update h2t
  have ht := hInv.tokens
  rw [hlock] at ht
  simp at ht
  have hextf : st.extHeld = false :=
    extHeld_false_of_pc hInv hth (by rw [hpc]; simp [extRegion])
  refine ⟨?_, ?_, ?_, ?_, ?_, ?_, ?_, ?_, ?_, ?_, ?_, ?_, ?_, ?_⟩
  · rw [h2w]
    have := hInv.count_eq
    omega
  · rw [h2e, inflight_sleep hs2sleep]
    simp
    omega
  · intro hcmd2
    rw [hs2sleep] at hcmd2
    simp at hcmd2
  · intro j a st2 hj hpc2
    rw [h2t] at hj
    by_cases hji : j = i
    · subst hji; rw [Function.update_same] at hj; exact absurd hj (by simp)
    · rw [Function.update_noteq hji] at hj
      exfalso
      exact tok_clash hInv hji htokOld (by rw [hj]; simp [tok, hpc2])
  · intro j a st2 hj hpc2
    rw [h2t] at hj
    by_cases hji : j = i
    · subst hji; rw [Function.update_same] at hj; exact absurd hj (by simp)
    · rw [Function.update_noteq hji] at hj
      exfalso
      exact tok_clash hInv hji htokOld (by rw [hj]; simp [tok, hpc2])
  · refine pres_decAllCmd h2t (fun j te2 st2 hj hpc2 hji => ?_) (fun te2 st2 he hpc2 => ?_)
    · exact absurd (hInv.decAllCmd j te2 st2 hj hpc2) (by rw [hsleep]; simp)
    · injection he with h1 h2
      subst h2
      simp at hpc2
  · refine pres_casBackCmd hInv.casBackCmd h2t (fun j te2 st2 hj hpc2 hji => ?_)
      (fun te2 st2 he hpc2 => ?_)
    · exact absurd (hInv.casBackCmd j te2 st2 hj hpc2).1 (by rw [hsleep]; simp)
    · injection he with h1 h2
      subst h2
      simp at hpc2
  · refine pres_casBackCount h2t (fun j te2 st2 hj hpc2 hji => ?_) (fun te2 st2 he hpc2 => ?_)
    · exact absurd (hInv.casBackCmd j te2 st2 hj hpc2).1 (by rw [hsleep]; simp)
    · injection he with h1 h2
      subst h2
      simp at hpc2
  · refine pres_check_iff hInv.check_iff h2t h2o (iff_of_false ?_ ?_)
    · exact not_exists_check (by intro te2 st2 he; injection he with h1 h2; subst h2; simp [inCheck])
    · rintro ⟨te2, st2, he, hc⟩
      rw [hth] at he
      injection he with h1 h2
      subst h2
      rw [hpc] at hc
      simp [inCheck] at hc
  · intro h
    exact hs2sleep
  · refine pres_flagSleep hInv.flagSleep h2t (fun _ => hs2sleep) (fun _ _ _ _ => hs2sleep)
  · refine pres_ext hInv.ext_iff h2t ?_
    intro te2 st2 he
    injection he with h1 h2
    subst h2
    simp [extRegion, hextf]
  · refine pres_timedOutPc hInv.timedOutPc h2t ?_
    intro te2 st2 he hto
    injection he with h1 h2
    subst h2
    exact Or.inr (Or.inr (Or.inl rfl))
  · refine pres_toDecTO hInv.toDecTimedOut h2t ?_
    intro te2 st2 he hpc2
    injection he with h1 h2
    subst h2
    simp at hpc2

/-- Invariant preservation: a notifier acquires `m_enter_mut` (line 46). -/
theorem inv_nEnterAcq {n : Nat} {s s2 : State n} {i : Fin n} {a : Bool} {st : NState}
    (hInv : Inv s) (hth : s.threads i = .n a st) (hpc : st.pc = .nlock)
    (hfree : s.enterLocked = false)
    (h2c : s2.command = s.command) (h2w : s2.numWaiters = s.numWaiters)
    (h2e : s2.enterLocked = true) (h2o : s2.checkOwner = s.checkOwner)
    (h2t : s2.threads = Function.update s.threads i (.n a { st with pc := .nread })) :
    Inv s2 := by
  have hsleep : s.command = .sleep := hInv.sleepUnlocked hfree
  have hs2sleep : s2.command = .sleep := by rw [h2c]; exact hsleep
  have ht := hInv.tokens
  rw [hfree] at ht
  simp at ht
  obtain ⟨htok0, hifl0⟩ := ht
  have htokOld : tok (s.threads i) = 0 := by rw [hth]; simp [tok, hpc]
  have hcntOld : cnt (s.threads i) = 0 := by rw [hth]; simp [cnt]
  have htokNew : tok (TState.n a { st with pc := .nread }) = 1 := by simp [tok]
  have hcntNew : cnt (TState.n a { st with pc := .nread }) = 0 := by simp [cnt]
  have hcs := cntSum_update h2t
  have hts := tokSum_update h2t
  have hnotok : ∀ j, tok (s.threads j) = 0 := by
    intro j
    have hle : tok (s.threads j) ≤ tokSum s := le_sum_of_mem tok s.threads j
    omega
  refine ⟨?_, ?_, ?_, ?_, ?_, ?_, ?_, ?_, ?_, ?_, ?_, ?_, ?_, ?_⟩
  · rw [h2w]
    have := hInv.count_eq
    omega
  · rw [h2e, inflight_sleep hs2sleep]
    simp
    omega
  · intro hcmd2
    rw [hs2sleep] at hcmd2
    simp at hcmd2
  · intro j a2 st2 hj hpc2
    rw [h2t] at hj
    by_cases hji : j = i
    · subst hji
      rw [Function.update_same] at hj
      injection hj with h1 h2
      subst h2
      simp at hpc2
    · rw [Function.update_noteq hji] at hj
      exfalso
      have h1 : tok (s.threads j) = 1 := by rw [hj]; simp [tok, hpc2]
      rw [hnotok j] at h1
      cases h1
  · intro j a2 st2 hj hpc2
    rw [h2t] at hj
    by_cases hji : j = i
    · subst hji
      rw [Function.update_same] at hj
      injection hj with h1 h2
      subst h2
      simp at hpc2
    · rw [Function.update_noteq hji] at hj
      exfalso
      have h1 : tok (s.threads j) = 1 := by rw [hj]; simp [tok, hpc2]
      rw [hnotok j] at h1
      cases h1
  · refine pres_decAllCmd h2t (fun j te2 st2 hj hpc2 hji => ?_) (fun te2 st2 he hpc2 => ?_)
    · exact absurd (hInv.decAllCmd j te2 st2 hj hpc2) (by rw [hsleep]; simp)
    · exact absurd he (by simp)
  · refine pres_casBackCmd hInv.casBackCmd h2t (fun j te2 st2 hj hpc2 hji => ?_)
      (fun te2 st2 he hpc2 => ?_)
    · exact absurd (hInv.casBackCmd j te2 st2 hj hpc2).1 (by rw [hsleep]; simp)
    · exact absurd he (by simp)
  · refine pres_casBackCount h2t (fun j te2 st2 hj hpc2 hji => ?_) (fun te2 st2 he hpc2 => ?_)
    · exact absurd (hInv.casBackCmd j te2 st2 hj hpc2).1 (by rw [hsleep]; simp)
    · exact absurd he (by simp)
  · refine pres_check_iff hInv.check_iff h2t h2o (iff_of_false ?_ ?_)
    · exact not_exists_check (by intro te2 st2 he; exact absurd he (by simp))
    · rintro ⟨te2, st2, he, hc⟩
      rw [hth] at he
      exact absurd he (by simp)
  · intro h
    rw [h2e] at h
    simp at h
  · refine pres_flagSleep hInv.flagSleep h2t (fun _ => hs2sleep) (fun _ _ _ _ => hs2sleep)
  · refine pres_ext hInv.ext_iff h2t ?_
    intro te2 st2 he
    exact absurd he (by simp)
  · refine pres_timedOutPc hInv.timedOutPc h2t ?_
    intro te2 st2 he
    exact absurd he (by simp)
  · refine pres_toDecTO hInv.toDecTimedOut h2t ?_
    intro te2 st2 he
    exact absurd he (by simp)

/-- Invariant preservation: the zero-waiter `m_enter_mut.unlock()` and return
(line 50). -/
theorem inv_nEnterRel {n : Nat} {s s2 : State n} {i : Fin n} {a : Bool} {st : NState}
    (hInv : Inv s) (hth : s.threads i = .n a st) (hpc : st.pc = .nzero)
    (h2c : s2.command = s.command) (h2w : s2.numWaiters = s.numWaiters)
    (h2e : s2.enterLocked = false) (h2o : s2.checkOwner = s.checkOwner)
    (h2t : s2.threads = Function.update s.threads i (.n a { st with pc := .ndone })) :
    Inv s2 := by
  have htokOld : tok (s.threads i) = 1 := by rw [hth]; simp [tok, hpc]
  have hlock : s.enterLocked = true := locked_of_tok hInv htokOld.ge
  have hsleep : s.command = .sleep := by
    refine cmd_sleep_of_tok_one hInv htokOld ?_
    intro te2 st2 he
    rw [hth] at he
    exact absurd he (by simp)
  have hs2sleep : s2.command = .sleep := by rw [h2c]; exact hsleep
  have hifl0 : inflight s = 0 := inflight_sleep hsleep
  have hcntOld : cnt (s.threads i) = 0 := by rw [hth]; simp [cnt]
  have htokNew : tok (TState.n a { st with pc := .ndone }) = 0 := by simp [tok]
  have hcntNew : cnt (TState.n a { st with pc := .ndone }) = 0 := by simp [cnt]
  have hcs := cntSum_update h2t
  have hts := tokSum_update h2t
  have ht := hInv.tokens
  rw [hlock] at ht
  simp at ht
  refine ⟨?_, ?_, ?_, ?_, ?_, ?_, ?_, ?_, ?_, ?_, ?_, ?_, ?_, ?_⟩
  · rw [h2w]
    have := hInv.count_eq
    omega
  · rw [h2e, inflight_sleep hs2sleep]
    simp
    omega
  · intro hcmd2
    rw [hs2sleep] at hcmd2
    simp at hcmd2
  · intro j a2 st2 hj hpc2
    rw [h2t] at hj
    by_cases hji : j = i
    · subst hji
      rw [Function.update_same] at hj
      injection hj with h1 h2
      subst h2
      simp at hpc2
    · rw [Function.update_noteq hji] at hj
      exfalso
      exact tok_clash hInv hji htokOld (by rw [hj]; simp [tok, hpc2])
  · intro j a2 st2 hj hpc2
    rw [h2t] at hj
    by_cases hji : j = i
    · subst hji
      rw [Function.update_same] at hj
      injection hj with h1 h2
      subst h2
      simp at hpc2
    · rw [Function.update_noteq hji] at hj
      exfalso
      exact tok_clash hInv hji htokOld (by rw [hj]; simp [tok, hpc2])
  · refine pres_decAllCmd h2t (fun j te2 st2 hj hpc2 hji => ?_) (fun te2 st2 he hpc2 => ?_)
    · exact absurd (hInv.decAllCmd j te2 st2 hj hpc2) (by rw [hsleep]; simp)
    · exact absurd he (by simp)
  · refine pres_casBackCmd hInv.casBackCmd h2t (fun j te2 st2 hj hpc2 hji => ?_)
      (fun te2 st2 he hpc2 => ?_)
    · exact absurd (hInv.casBackCmd j te2 st2 hj hpc2).1 (by rw [hsleep]; simp)
    · exact absurd he (by simp)
  · refine pres_casBackCount h2t (fun j te2 st2 hj hpc2 hji => ?_) (fun te2 st2 he hpc2 => ?_)
    · exact absurd (hInv.casBackCmd j te2 st2 hj hpc2).1 (by rw [hsleep]; simp)
    · exact absurd he (by simp)
  · refine pres_check_iff hInv.check_iff h2t h2o (iff_of_false ?_ ?_)
    · exact not_exists_check (by intro te2 st2 he; exact absurd he (by simp))
    · rintro ⟨te2, st2, he, hc⟩
      rw [hth] at he
      exact absurd he (by simp)
  · intro h
    exact hs2sleep
  · refine pres_flagSleep hInv.flagSleep h2t (fun _ => hs2sleep) (fun _ _ _ _ => hs2sleep)
  · refine pres_ext hInv.ext_iff h2t ?_
    intro te2 st2 he
    exact absurd he (by simp)
  · refine pres_timedOutPc hInv.timedOutPc h2t ?_
    intro te2 st2 he
    exact absurd he (by simp)
  · refine pres_toDecTO hInv.toDecTimedOut h2t ?_
    intro te2 st2 he
    exact absurd he (by simp)

/-- Invariant preservation: the notifier's compare-exchange publishing the
command (line 55); under the invariant it always finds `SLEEP`. -/
theorem inv_nCas {n : Nat} {s s2 : State n} {i : Fin n} {a : Bool} {st : NState}
    (hInv : Inv s) (hth : s.threads i = .n a st) (hpc : st.pc = .ncas)
    (h2c : s2.command = (if s.command = .sleep
      then (if a then Cmd.notifyAll else Cmd.notifyOne) else s.command))
    (h2w : s2.numWaiters = s.numWaiters)
    (h2e : s2.enterLocked = s.enterLocked) (h2o : s2.checkOwner = s.checkOwner)
    (h2t : s2.threads = Function.update s.threads i (.n a { st with pc := .ndone })) :
    Inv s2 := by
  have htokOld : tok (s.threads i) = 1 := by rw [hth]; simp [tok, hpc]
  have hlock : s.enterLocked = true := locked_of_tok hInv htokOld.ge
  have hpos : 0 < s.numWaiters := hInv.ncasPos i a st hth hpc
  have hsleep : s.command = .sleep := by
    refine cmd_sleep_of_tok_one hInv htokOld ?_
    intro te2 st2 he
    rw [hth] at he
    exact absurd he (by simp)
  have htgt : s2.command = (if a then Cmd.notifyAll else Cmd.notifyOne) := by
    rw [h2c, if_pos hsleep]
  have hifl0 : inflight s = 0 := inflight_sleep hsleep
  have hifl2 : inflight s2 = 1 := by
    cases ha : a
    · rw [ha] at htgt
      simp at htgt
      exact inflight_one htgt
    · rw [ha] at htgt
      simp at htgt
      exact inflight_all_pos htgt (by rw [h2w]; exact hpos)
  have hcntOld : cnt (s.threads i) = 0 := by rw [hth]; simp [cnt]
  have htokNew : tok (TState.n a { st with pc := .ndone }) = 0 := by simp [tok]
  have hcntNew : cnt (TState.n a { st with pc := .ndone }) = 0 := by simp [cnt]
  have hcs := cntSum_update h2t
  have hts := tokSum_update h2t
  have ht := hInv.tokens
  rw [hlock] at ht
  simp at ht
  refine ⟨?_, ?_, ?_, ?_, ?_, ?_, ?_, ?_, ?_, ?_, ?_, ?_, ?_, ?_⟩
  · rw [h2w]
    have := hInv.count_eq
    omega
  · rw [h2e, hlock, hifl2]
    simp
    omega
  · intro hcmd2
    exact Or.inl (by rw [h2w]; exact hpos)
  · intro j a2 st2 hj hpc2
    rw [h2t] at hj
    by_cases hji : j = i
    · subst hji
      rw [Function.update_same] at hj
      injection hj with h1 h2
      subst h2
      simp at hpc2
    · rw [Function.update_noteq hji] at hj
      exfalso
      exact tok_clash hInv hji htokOld (by rw [hj]; simp [tok, hpc2])
  · intro j a2 st2 hj hpc2
    rw [h2t] at hj
    by_cases hji : j = i
    · subst hji
      rw [Function.update_same] at hj
      injection hj with h1 h2
      subst h2
      simp at hpc2
    · rw [Function.update_noteq hji] at hj
      exfalso
      exact tok_clash hInv hji htokOld (by rw [hj]; simp [tok, hpc2])
  · refine pres_decAllCmd h2t (fun j te2 st2 hj hpc2 hji => ?_) (fun te2 st2 he hpc2 => ?_)
    · exact absurd (hInv.decAllCmd j te2 st2 hj hpc2) (by rw [hsleep]; simp)
    · exact absurd he (by simp)
  · refine pres_casBackCmd hInv.casBackCmd h2t (fun j te2 st2 hj hpc2 hji => ?_)
      (fun te2 st2 he hpc2 => ?_)
    · exact absurd (hInv.casBackCmd j te2 st2 hj hpc2).1 (by rw [hsleep]; simp)
    · exact absurd he (by simp)
  · refine pres_casBackCount h2t (fun j te2 st2 hj hpc2 hji => ?_) (fun te2 st2 he hpc2 => ?_)
    · exact absurd (hInv.casBackCmd j te2 st2 hj hpc2).1 (by rw [hsleep]; simp)
    · exact absurd he (by simp)
  · refine pres_check_iff hInv.check_iff h2t h2o (iff_of_false ?_ ?_)
    · exact not_exists_check (by intro te2 st2 he; exact absurd he (by simp))
    · rintro ⟨te2, st2, he, hc⟩
      rw [hth] at he
      exact absurd he (by simp)
  · intro h
    rw [h2e, hlock] at h
    cases h
  · intro j te2 st2 hj hcond
    rw [h2t] at hj
    by_cases hji : j = i
    · subst hji
      rw [Function.update_same] at hj
      exact absurd hj (by simp)
    · rw [Function.update_noteq hji] at hj
      exfalso
      have htokj : tok (s.threads j) = 1 := by
        rw [hj]
        rcases hcond with h | h | ⟨hfl, h | h⟩
        · simp [tok, h]
        · simp [tok, h]
        · simp [tok, h, hfl]
        · simp [tok, h, hfl]
      exact tok_clash hInv hji htokOld htokj
  · refine pres_ext hInv.ext_iff h2t ?_
    intro te2 st2 he
    exact absurd he (by simp)
  · refine pres_timedOutPc hInv.timedOutPc h2t ?_
    intro te2 st2 he
    exact absurd he (by simp)
  · refine pres_toDecTO hInv.toDecTimedOut h2t ?_
    intro te2 st2 he
    exact absurd he (by simp)

/-- The initial state satisfies the invariant. -/
theorem inv_init {n : Nat} (k : Fin n → Kind) : Inv (initState k) := by
  have hcnt : ∀ j, cnt ((initState k).threads j) = 0 := by
    intro j
    show cnt ((k j).init) = 0
    cases k j <;> rfl
  have htok : ∀ j, tok ((initState k).threads j) = 0 := by
    intro j
    show tok ((k j).init) = 0
    cases k j <;> rfl
  have hw : ∀ j te st, (initState k).threads j = .w te st → st.pc = .start ∧
      st.timedOut = false ∧ st.unlockFlag = false ∧ st.extHeld = true := by
    intro j te st hj
    have : (k j).init = .w te st := hj
    cases hk : k j <;> rw [hk] at this <;> unfold Kind.init at this
    · injection this with h1 h2
      subst h2; exact ⟨rfl, rfl, rfl, rfl⟩
    · exact absurd this (by simp)
  have hn : ∀ j a st, (initState k).threads j = .n a st → st.pc = .nlock := by
    intro j a st hj
    have : (k j).init = .n a st := hj
    cases hk : k j <;> rw [hk] at this <;> unfold Kind.init at this
    · exact absurd this (by simp)
    · injection this with h1 h2
      subst h2; exact rfl
  refine ⟨?_, ?_, ?_, ?_, ?_, ?_, ?_, ?_, ?_, ?_, ?_, ?_, ?_, ?_⟩
  · show (0 : Int) = ((cntSum (initState k) : Nat) : Int)
    have : cntSum (initState k) = 0 := Finset.sum_eq_zero (fun j _ => hcnt j)
    omega
  · show tokSum (initState k) + inflight (initState k) = (if False then 1 else 0)
    have h1 : tokSum (initState k) = 0 := Finset.sum_eq_zero (fun j _ => htok j)
    have h2 : inflight (initState k) = 0 := rfl
    simp [h1, h2]
  · intro hcmd; cases hcmd
  · intro j a st hj hpc
    rw [hn j a st hj] at hpc; cases hpc
  · intro j a st hj hpc
    rfl
  · intro j te st hj hpc
    rw [(hw j te st hj).1] at hpc; cases hpc
  · intro j te st hj hpc
    rw [(hw j te st hj).1] at hpc; cases hpc
  · intro j te st hj hpc
    rw [(hw j te st hj).1] at hpc; cases hpc
  · intro j
    constructor
    · rintro ⟨te, st, hj, hck⟩
      rw [(hw j te st hj).1] at hck
      cases hck
    · intro how; cases how
  · intro _; rfl
  · intro j te st hj hpc
    obtain ⟨h1, h2, h3, h4⟩ := hw j te st hj
    rcases hpc with h | h | ⟨hf, h⟩
    · rw [h1] at h; cases h
    · rw [h1] at h; cases h
    · rw [h3] at hf; cases hf
  · intro j te st hj
    obtain ⟨h1, h2, h3, h4⟩ := hw j te st hj
    rw [h1, h4]
    simp [extRegion]
  · intro j te st hj hto
    obtain ⟨h1, h2, h3, h4⟩ := hw j te st hj
    rw [h2] at hto; cases hto
  · intro j te st hj hpc
    rw [(hw j te st hj).1] at hpc; cases hpc

/-- One step preserves the main invariant (given the flag invariant). -/
theorem inv_step {n : Nat} {i : Fin n} {s s2 : State n}
    (hInv : Inv s) (hF : FlagInv s) (hstep : Step i s s2) : Inv s2 := by
  cases hstep with
  | startGo hth hpc =>
    rename_i te st
    have hTOf : st.timedOut = false :=
      timedOut_false_of_pc hInv hth (by rw [hpc]; simp) (by rw [hpc]; simp)
        (by rw [hpc]; simp) (by rw [hpc]; simp)
    have hext : st.extHeld = true := extHeld_true_of_pc hInv hth (by rw [hpc]; trivial)
    refine inv_local hInv hth _ rfl rfl rfl rfl rfl (by simp [cnt, hpc]) (by simp [tok, hpc])
      (by simp [inCheck, hpc]) (by rw [hpc]; simp) (by intro h; simp at h)
      (by intro h; simp at h) (by intro h; simp at h)
      (by intro h; rcases h with h | h | ⟨hf, h | h⟩ <;> simp at h)
      (by simp [extRegion, hext]) (by intro h; simp [hTOf] at h) (by intro h; simp at h)
  | startExpired hth hpc =>
    rename_i st
    have hTOf : st.timedOut = false :=
      timedOut_false_of_pc hInv hth (by rw [hpc]; simp) (by rw [hpc]; simp)
        (by rw [hpc]; simp) (by rw [hpc]; simp)
    have hext : st.extHeld = true := extHeld_true_of_pc hInv hth (by rw [hpc]; trivial)
    refine inv_local hInv hth _ rfl rfl rfl rfl rfl (by simp [cnt, hpc]) (by simp [tok, hpc])
      (by simp [inCheck, hpc]) (by rw [hpc]; simp) (by intro h; simp at h)
      (by intro h; simp at h) (by intro h; simp at h)
      (by intro h; rcases h with h | h | ⟨hf, h | h⟩ <;> simp at h)
      (by simp [extRegion, hext]) (by intro h; simp [hTOf] at h) (by intro h; simp at h)
  | enterAcq hth hpc hfree =>
    exact inv_enterAcq hInv hth hpc hfree rfl rfl rfl rfl rfl
  | incStep hth hpc =>
    exact inv_incStep hInv hth hpc rfl rfl rfl rfl rfl
  | extRelease hth hpc =>
    rename_i te st
    have hTOf : st.timedOut = false :=
      timedOut_false_of_pc hInv hth (by rw [hpc]; simp) (by rw [hpc]; simp)
        (by rw [hpc]; simp) (by rw [hpc]; simp)
    refine inv_local hInv hth _ rfl rfl rfl rfl rfl (by simp [cnt, hpc]) (by simp [tok, hpc])
      (by simp [inCheck, hpc]) (by rw [hpc]; simp) (by intro h; simp at h)
      (by intro h; simp at h) (by intro h; simp at h)
      (by intro h; rcases h with h | h | ⟨hf, h | h⟩ <;> simp at h)
      (by simp [extRegion]) (by intro h; simp [hTOf] at h) (by intro h; simp at h)
  | enterRelReg hth hpc =>
    exact inv_enterRelReg hInv hth hpc rfl rfl rfl rfl rfl
  | spinSleep hth hpc hcmd => exact hInv
  | spinTimeoutChk hth hpc hcmd =>
    rename_i st
    have hTOf : st.timedOut = false :=
      timedOut_false_of_pc hInv hth (by rw [hpc]; simp) (by rw [hpc]; simp)
        (by rw [hpc]; simp) (by rw [hpc]; simp)
    have hextf : st.extHeld = false :=
      extHeld_false_of_pc hInv hth (by rw [hpc]; simp [extRegion])
    refine inv_local hInv hth _ rfl rfl rfl rfl rfl (by simp [cnt, hpc]) (by simp [tok, hpc])
      (by simp [inCheck, hpc]) (by rw [hpc]; simp) (by intro h; simp at h)
      (by intro h; simp at h) (by intro h; simp at h)
      (by intro h; rcases h with h | h | ⟨hf, h | h⟩ <;> simp at h)
      (by simp [extRegion, hextf]) (by intro h; simp [hTOf] at h) (by intro h; simp at h)
  | spinNotice hth hpc hcmd =>
    rename_i te st
    have hTOf : st.timedOut = false :=
      timedOut_false_of_pc hInv hth (by rw [hpc]; simp) (by rw [hpc]; simp)
        (by rw [hpc]; simp) (by rw [hpc]; simp)
    have hextf : st.extHeld = false :=
      extHeld_false_of_pc hInv hth (by rw [hpc]; simp [extRegion])
    refine inv_local hInv hth _ rfl rfl rfl rfl rfl (by simp [cnt, hpc]) (by simp [tok, hpc])
      (by simp [inCheck, hpc]) (by rw [hpc]; simp) (by intro h; simp at h)
      (by intro h; simp at h) (by intro h; simp at h)
      (by intro h; rcases h with h | h | ⟨hf, h | h⟩ <;> simp at h)
      (by simp [extRegion, hextf]) (by intro h; simp [hTOf] at h) (by intro h; simp at h)
  | tryFail hth hpc hlk =>
    rename_i st
    have hTOf : st.timedOut = false :=
      timedOut_false_of_pc hInv hth (by rw [hpc]; simp) (by rw [hpc]; simp)
        (by rw [hpc]; simp) (by rw [hpc]; simp)
    have hextf : st.extHeld = false :=
      extHeld_false_of_pc hInv hth (by rw [hpc]; simp [extRegion])
    refine inv_local hInv hth _ rfl rfl rfl rfl rfl (by simp [cnt, hpc]) (by simp [tok, hpc])
      (by simp [inCheck, hpc]) (by rw [hpc]; simp) (by intro h; simp at h)
      (by intro h; simp at h) (by intro h; simp at h)
      (by intro h; rcases h with h | h | ⟨hf, h | h⟩ <;> simp at h)
      (by simp [extRegion, hextf]) (by intro h; simp [hTOf] at h) (by intro h; simp at h)
  | trySucc hth hpc hlk =>
    exact inv_trySucc hInv hth hpc hlk rfl rfl rfl rfl rfl
  | toDecStep hth hpc =>
    exact inv_toDecStep hInv hth hpc rfl rfl rfl rfl rfl
  | checkAcq hth hpc hfree =>
    exact inv_checkAcq hInv hth hpc hfree rfl rfl rfl rfl rfl
  | casOneSleep hth hpc hcmd =>
    rename_i te st
    have hTOf : st.timedOut = false :=
      timedOut_false_of_pc hInv hth (by rw [hpc]; simp) (by rw [hpc]; simp)
        (by rw [hpc]; simp) (by rw [hpc]; simp)
    have hextf : st.extHeld = false :=
      extHeld_false_of_pc hInv hth (by rw [hpc]; simp [extRegion])
    refine inv_local hInv hth _ rfl rfl rfl rfl rfl (by simp [cnt, hpc]) (by simp [tok, hpc])
      (by simp [inCheck, hpc]) (by rw [hpc]; simp) (by intro h; simp at h)
      (by intro h; simp at h) (by intro h; simp at h)
      (by intro h; rcases h with h | h | ⟨hf, h | h⟩ <;> simp at h)
      (by simp [extRegion, hextf]) (by intro h; simp [hTOf] at h) (by intro h; simp at h)
  | casOneWin hth hpc hcmd =>
    exact inv_casOneWin hInv hth hpc hcmd rfl rfl rfl rfl rfl
  | casOneAll hth hpc hcmd =>
    rename_i te st
    have hTOf : st.timedOut = false :=
      timedOut_false_of_pc hInv hth (by rw [hpc]; simp) (by rw [hpc]; simp)
        (by rw [hpc]; simp) (by rw [hpc]; simp)
    have hextf : st.extHeld = false :=
      extHeld_false_of_pc hInv hth (by rw [hpc]; simp [extRegion])
    refine inv_local hInv hth _ rfl rfl rfl rfl rfl (by simp [cnt, hpc]) (by simp [tok, hpc])
      (by simp [inCheck, hpc]) (by rw [hpc]; simp) (by intro h; exact hcmd)
      (by intro h; simp at h) (by intro h; simp at h)
      (by intro h; rcases h with h | h | ⟨hf, h | h⟩ <;> simp at h)
      (by simp [extRegion, hextf]) (by intro h; simp [hTOf] at h) (by intro h; simp at h)
  | decOneStep hth hpc =>
    rename_i te st
    exact inv_decOneStep hInv hth hpc (hF.decOneFlag i te st hth hpc) rfl rfl rfl rfl rfl
  | decAllLast hth hpc hone =>
    exact inv_decAllLast hInv hth hpc hone rfl rfl rfl rfl rfl
  | decAllMore hth hpc hone =>
    rename_i te st
    exact inv_decAllMore hInv hth hpc hone
      (hF.flagFalse i te st hth (by rw [hpc]; trivial)) rfl rfl rfl rfl rfl
  | casAllBackStep hth hpc =>
    exact inv_casAllBackStep hInv hth hpc rfl rfl rfl rfl rfl
  | checkRelExit hth hpc =>
    exact inv_checkRelExit hInv hth hpc rfl rfl rfl rfl rfl
  | checkRelSleep hth hpc =>
    exact inv_checkRelSleep hInv hth hpc rfl rfl rfl rfl rfl
  | enterRelMaybe hth hpc =>
    rename_i te st
    cases hf : st.unlockFlag
    · refine inv_local hInv hth
        { pc := .relockExt, timedOut := st.timedOut, unlockFlag := false, extHeld := st.extHeld }
        rfl rfl (by simp) rfl rfl
        (by simp [cnt, hpc]) (by simp [tok, hpc, hf])
        (by simp [inCheck, hpc]) (by rw [hpc]; simp) (by intro h; simp at h)
        (by intro h; simp at h) (by intro h; simp at h)
        (by intro h; rcases h with h | h | ⟨hf2, h | h⟩ <;> simp at h)
        (by simp [extRegion, extHeld_false_of_pc hInv hth (by rw [hpc]; simp [extRegion])])
        (by intro h; exact Or.inr (Or.inr (Or.inl rfl))) (by intro h; simp at h)
    · exact inv_enterRelMaybeT hInv hth hpc hf rfl rfl (by simp) rfl (by rw [hf])
  | extAcq hth hpc =>
    rename_i te st
    refine inv_local hInv hth _ rfl rfl rfl rfl rfl (by simp [cnt, hpc]) (by simp [tok, hpc])
      (by simp [inCheck, hpc]) (by rw [hpc]; simp) (by intro h; simp at h)
      (by intro h; simp at h) (by intro h; simp at h)
      (by intro h; rcases h with h | h | ⟨hf, h | h⟩ <;> simp at h)
      (by simp [extRegion]) (by intro h; exact Or.inr (Or.inr (Or.inr rfl)))
      (by intro h; simp at h)
  | nEnterAcq hth hpc hfree =>
    exact inv_nEnterAcq hInv hth hpc hfree rfl rfl rfl rfl rfl
  | nReadZero hth hpc hz =>
    refine inv_nlocal hInv hth _ rfl rfl rfl rfl rfl (by simp [tok, hpc])
      (by intro h; simp at h) (by intro h; exact hz)
  | nReadPos hth hpc hz =>
    have hcq := hInv.count_eq
    refine inv_nlocal hInv hth _ rfl rfl rfl rfl rfl (by simp [tok, hpc])
      (by intro h; omega) (by intro h; simp at h)
  | nEnterRel hth hpc =>
    exact inv_nEnterRel hInv hth hpc rfl rfl rfl rfl rfl
  | nCas hth hpc =>
    exact inv_nCas hInv hth hpc rfl rfl rfl rfl rfl

/-- Both invariants hold along any execution. -/
theorem steps_inv {n : Nat} {s u : State n} {l} (h : Steps s l u)
    (hInv : Inv s) (hF : FlagInv s) : Inv u ∧ FlagInv u := by
  induction h with
  | nil => exact ⟨hInv, hF⟩
  | cons hstep htail ih =>
    exact ih (inv_step hInv hF hstep) (flagInv_step hF hstep)

/-- Every reachable state satisfies both invariants. -/
theorem reach_inv {n : Nat} {k : Fin n → Kind} {s : State n} (h : Reach k s) :
    Inv s ∧ FlagInv s := by
  obtain ⟨l, hl⟩ := h
  exact steps_inv hl (inv_init k) (flagInv_init k)

/-- Every step either leaves `m_command` unchanged, publishes a notification
from `SLEEP`, or consumes one back to `SLEEP`. -/
theorem command_pairs {n : Nat} {i : Fin n} {a b : State n} (hstep : Step i a b) :
    b.command = a.command ∨ (a.command = .sleep ∧ b.command ≠ .sleep) ∨
    (a.command ≠ .sleep ∧ b.command = .sleep) := by
  cases hstep with
  | casOneWin hth hpc hcmd =>
    exact Or.inr (Or.inr ⟨by rw [hcmd]; simp, rfl⟩)
  | casAllBackStep hth hpc =>
    rename_i te st
    by_cases hc : a.command = .notifyAll
    · exact Or.inr (Or.inr ⟨by rw [hc]; simp, by simp [hc]⟩)
    · exact Or.inl (by simp [hc])
  | nCas hth hpc =>
    rename_i a2 st
    by_cases hc : a.command = .sleep
    · refine Or.inr (Or.inl ⟨hc, ?_⟩)
      show (if a.command = .sleep then (if a2 then Cmd.notifyAll else Cmd.notifyOne)
        else a.command) ≠ .sleep
      rw [if_pos hc]
      cases a2 <;> simp
    · exact Or.inl (by simp [hc])
  | startGo hth hpc => exact Or.inl rfl
  | startExpired hth hpc => exact Or.inl rfl
  | enterAcq hth hpc hfree => exact Or.inl rfl
  | incStep hth hpc => exact Or.inl rfl
  | extRelease hth hpc => exact Or.inl rfl
  | enterRelReg hth hpc => exact Or.inl rfl
  | spinSleep hth hpc hcmd => exact Or.inl rfl
  | spinTimeoutChk hth hpc hcmd => exact Or.inl rfl
  | spinNotice hth hpc hcmd => exact Or.inl rfl
  | tryFail hth hpc hlk => exact Or.inl rfl
  | trySucc hth hpc hlk => exact Or.inl rfl
  | toDecStep hth hpc => exact Or.inl rfl
  | checkAcq hth hpc hfree => exact Or.inl rfl
  | casOneSleep hth hpc hcmd => exact Or.inl rfl
  | casOneAll hth hpc hcmd => exact Or.inl rfl
  | decOneStep hth hpc => exact Or.inl rfl
  | decAllLast hth hpc hone => exact Or.inl rfl
  | decAllMore hth hpc hone => exact Or.inl rfl
  | checkRelExit hth hpc => exact Or.inl rfl
  | checkRelSleep hth hpc => exact Or.inl rfl
  | enterRelMaybe hth hpc => exact Or.inl rfl
  | extAcq hth hpc => exact Or.inl rfl
  | nEnterAcq hth hpc hfree => exact Or.inl rfl
  | nReadZero hth hpc hz => exact Or.inl rfl
  | nReadPos hth hpc hz => exact Or.inl rfl
  | nEnterRel hth hpc => exact Or.inl rfl

/-- Full characterization of every change of `m_command`: the three transition
kinds of the protocol, each performed by the expected actor. -/
theorem command_change {n : Nat} {i : Fin n} {s s2 : State n} (hstep : Step i s s2)
    (hne : s2.command ≠ s.command) :
    (s.command = .sleep ∧ (∃ a st, s.threads i = .n a st ∧ st.pc = .ncas ∧
        s2.command = (if a then Cmd.notifyAll else Cmd.notifyOne))) ∨
    (s.command = .notifyOne ∧ s2.command = .sleep ∧
        ∃ te st, s.threads i = .w te st ∧ st.pc = .casOne) ∨
    (s.command = .notifyAll ∧ s2.command = .sleep ∧
        ∃ te st, s.threads i = .w te st ∧ st.pc = .casAllBack) := by
  cases hstep with
  | casOneWin hth hpc hcmd =>
    rename_i te st
    exact Or.inr (Or.inl ⟨hcmd, rfl, te, st, hth, hpc⟩)
  | casAllBackStep hth hpc =>
    rename_i te st
    by_cases hc : s.command = .notifyAll
    · exact Or.inr (Or.inr ⟨hc, by simp [hc], te, st, hth, hpc⟩)
    · exact absurd (by simp [hc]) hne
  | nCas hth hpc =>
    rename_i a st
    by_cases hc : s.command = .sleep
    · exact Or.inl ⟨hc, a, st, hth, hpc, by simp [hc]⟩
    · exact absurd (by simp [hc]) hne
  | startGo hth hpc => exact absurd rfl hne
  | startExpired hth hpc => exact absurd rfl hne
  | enterAcq hth hpc hfree => exact absurd rfl hne
  | incStep hth hpc => exact absurd rfl hne
  | extRelease hth hpc => exact absurd rfl hne
  | enterRelReg hth hpc => exact absurd rfl hne
  | spinSleep hth hpc hcmd => exact absurd rfl hne
  | spinTimeoutChk hth hpc hcmd => exact absurd rfl hne
  | spinNotice hth hpc hcmd => exact absurd rfl hne
  | tryFail hth hpc hlk => exact absurd rfl hne
  | trySucc hth hpc hlk => exact absurd rfl hne
  | toDecStep hth hpc => exact absurd rfl hne
  | checkAcq hth hpc hfree => exact absurd rfl hne
  | casOneSleep hth hpc hcmd => exact absurd rfl hne
  | casOneAll hth hpc hcmd => exact absurd rfl hne
  | decOneStep hth hpc => exact absurd rfl hne
  | decAllLast hth hpc hone => exact absurd rfl hne
  | decAllMore hth hpc hone => exact absurd rfl hne
  | checkRelExit hth hpc => exact absurd rfl hne
  | checkRelSleep hth hpc => exact absurd rfl hne
  | enterRelMaybe hth hpc => exact absurd rfl hne
  | extAcq hth hpc => exact absurd rfl hne
  | nEnterAcq hth hpc hfree => exact absurd rfl hne
  | nReadZero hth hpc hz => exact absurd rfl hne
  | nReadPos hth hpc hz => exact absurd rfl hne
  | nEnterRel hth hpc => exact absurd rfl hne

/-- Number of recorded transitions whose pre-command is `c` and post-command
is `d`. -/
def transCount {n : Nat} (c d : Cmd) (l : List (Fin n × State n × State n)) : Nat :=
  l.countP (fun e => decide (e.2.1.command = c ∧ e.2.2.command = d))

/-- Per-step balance of `SLEEP → c` against `c → SLEEP` transitions. -/
theorem trans_ind {n : Nat} {i : Fin n} {a b : State n} (c : Cmd) (hc : c ≠ Cmd.sleep)
    (hstep : Step i a b) :
    (if a.command = Cmd.sleep ∧ b.command = c then 1 else 0)
      + (if a.command = c then 1 else 0)
    = (if a.command = c ∧ b.command = Cmd.sleep then 1 else 0)
      + (if b.command = c then 1 else 0) := by
  rcases command_pairs hstep with heq | ⟨ha, hb⟩ | ⟨ha, hb⟩
  · rw [heq]
    have h1 : ¬(a.command = Cmd.sleep ∧ a.command = c) := fun h => hc (h.2.symm.trans h.1)
    have h2 : ¬(a.command = c ∧ a.command = Cmd.sleep) := fun h => hc (h.1.symm.trans h.2)
    rw [if_neg h1, if_neg h2]
  · have h1 : ¬(a.command = c) := fun y => hc (y.symm.trans ha)
    have h2 : ¬(a.command = c ∧ b.command = Cmd.sleep) := fun h => h1 h.1
    by_cases hbc : b.command = c
    · rw [if_pos (⟨ha, hbc⟩ : a.command = Cmd.sleep ∧ b.command = c), if_pos hbc,
        if_neg h1, if_neg h2]
    · rw [if_neg (fun (h : a.command = Cmd.sleep ∧ b.command = c) => hbc h.2), if_neg hbc,
        if_neg h1, if_neg h2]
  · have h1 : ¬(b.command = c) := fun y => hc (y.symm.trans hb)
    have h2 : ¬(a.command = Cmd.sleep ∧ b.command = c) := fun h => h1 h.2
    by_cases hac : a.command = c
    · rw [if_neg h2, if_pos (⟨hac, hb⟩ : a.command = c ∧ b.command = Cmd.sleep),
        if_pos hac, if_neg h1]
    · rw [if_neg h2, if_neg (fun (h : a.command = c ∧ b.command = Cmd.sleep) => hac h.1),
        if_neg hac, if_neg h1]

/-- Along an execution, the number of `SLEEP → c` transitions balances the
number of `c → SLEEP` transitions up to whether `c` is pending at each end:
each published notification is consumed at most once, and exactly once by the
time the command settles back to `SLEEP`. -/
theorem trans_balance {n : Nat} (c : Cmd) (hc : c ≠ Cmd.sleep) {s u : State n} {l}
    (h : Steps s l u) :
    transCount Cmd.sleep c l + (if s.command = c then 1 else 0)
      = transCount c Cmd.sleep l + (if u.command = c then 1 else 0) := by
  induction h with
  | nil => rfl
  | cons hstep htail ih =>
    rename_i i a b u2 l2
    have hind := trans_ind c hc hstep
    unfold transCount at *
    rw [List.countP_cons, List.countP_cons]
    simp only [decide_eq_true_eq]
    omega

/-- Case split for reads through a pointwise function update. -/
theorem threads_update_cases {n : Nat} {th : Fin n → TState} {j : Fin n} {V : TState}
    {i : Fin n} {te : Bool} {st : WState}
    (hb : Function.update th j V i = TState.w te st) :
    (i = j ∧ V = TState.w te st) ∨ (i ≠ j ∧ th i = TState.w te st) := by
  by_cases hij : i = j
  · subst hij
    rw [Function.update_same] at hb
    exact Or.inl ⟨rfl, hb⟩
  · rw [Function.update_noteq hij] at hb
    exact Or.inr ⟨hij, hb⟩

/-- Program counters after a waiter has left the wait loop. -/
def exitRegion : WPC → Prop
  | .casAllBack | .unlockCheckExit | .maybeUnlockEnter | .relockExt | .done => True
  | _ => False

/-- A step sets a waiter's `timed_out` only through the successful `try_lock`
of line 115; otherwise the flag is inherited. -/
theorem timedOut_step {n : Nat} {j : Fin n} {a b : State n} (hstep : Step j a b)
    {i : Fin n} {te : Bool} {st : WState}
    (hb : b.threads i = .w te st) (hto : st.timedOut = true) :
    (∃ te0 st0, a.threads i = .w te0 st0 ∧ st0.timedOut = true) ∨
    (j = i ∧ a.enterLocked = false ∧ ∃ st0, a.threads j = .w true st0 ∧ st0.pc = .tryTO) := by
  cases hstep with
  | startGo hth2 hpc2 =>
    rcases threads_update_cases hb with ⟨hij, hv⟩ | ⟨hij, hold⟩
    · subst hij
      injection hv with h1 h2
      refine Or.inl ⟨_, _, hth2, ?_⟩
      rw [← h2] at hto
      exact hto
    · exact Or.inl ⟨te, st, hold, hto⟩
  | startExpired hth2 hpc2 =>
    rcases threads_update_cases hb with ⟨hij, hv⟩ | ⟨hij, hold⟩
    · subst hij
      injection hv with h1 h2
      refine Or.inl ⟨_, _, hth2, ?_⟩
      rw [← h2] at hto
      exact hto
    · exact Or.inl ⟨te, st, hold, hto⟩
  | enterAcq hth2 hpc2 hfree =>
    rcases threads_update_cases hb with ⟨hij, hv⟩ | ⟨hij, hold⟩
    · subst hij
      injection hv with h1 h2
      refine Or.inl ⟨_, _, hth2, ?_⟩
      rw [← h2] at hto
      exact hto
    · exact Or.inl ⟨te, st, hold, hto⟩
  | incStep hth2 hpc2 =>
    rcases threads_update_cases hb with ⟨hij, hv⟩ | ⟨hij, hold⟩
    · subst hij
      injection hv with h1 h2
      refine Or.inl ⟨_, _, hth2, ?_⟩
      rw [← h2] at hto
      exact hto
    · exact Or.inl ⟨te, st, hold, hto⟩
  | extRelease hth2 hpc2 =>
    rcases threads_update_cases hb with ⟨hij, hv⟩ | ⟨hij, hold⟩
    · subst hij
      injection hv with h1 h2
      refine Or.inl ⟨_, _, hth2, ?_⟩
      rw [← h2] at hto
      exact hto
    · exact Or.inl ⟨te, st, hold, hto⟩
  | enterRelReg hth2 hpc2 =>
    rcases threads_update_cases hb with ⟨hij, hv⟩ | ⟨hij, hold⟩
    · subst hij
      injection hv with h1 h2
      refine Or.inl ⟨_, _, hth2, ?_⟩
      rw [← h2] at hto
      exact hto
    · exact Or.inl ⟨te, st, hold, hto⟩
  | spinSleep hth2 hpc2 hcmd =>
    exact Or.inl ⟨te, st, hb, hto⟩
  | spinTimeoutChk hth2 hpc2 hcmd =>
    rcases threads_update_cases hb with ⟨hij, hv⟩ | ⟨hij, hold⟩
    · subst hij
      injection hv with h1 h2
      refine Or.inl ⟨_, _, hth2, ?_⟩
      rw [← h2] at hto
      exact hto
    · exact Or.inl ⟨te, st, hold, hto⟩
  | spinNotice hth2 hpc2 hcmd =>
    rcases threads_update_cases hb with ⟨hij, hv⟩ | ⟨hij, hold⟩
    · subst hij
      injection hv with h1 h2
      refine Or.inl ⟨_, _, hth2, ?_⟩
      rw [← h2] at hto
      exact hto
    · exact Or.inl ⟨te, st, hold, hto⟩
  | tryFail hth2 hpc2 hlk =>
    rcases threads_update_cases hb with ⟨hij, hv⟩ | ⟨hij, hold⟩
    · subst hij
      injection hv with h1 h2
      refine Or.inl ⟨_, _, hth2, ?_⟩
      rw [← h2] at hto
      exact hto
    · exact Or.inl ⟨te, st, hold, hto⟩
  | trySucc hth2 hpc2 hlk =>
    rename_i st0
    rcases threads_update_cases hb with ⟨hij, hv⟩ | ⟨hij, hold⟩
    · subst hij
      exact Or.inr ⟨rfl, hlk, st0, hth2, hpc2⟩
    · exact Or.inl ⟨te, st, hold, hto⟩
  | toDecStep hth2 hpc2 =>
    rcases threads_update_cases hb with ⟨hij, hv⟩ | ⟨hij, hold⟩
    · subst hij
      injection hv with h1 h2
      refine Or.inl ⟨_, _, hth2, ?_⟩
      rw [← h2] at hto
      exact hto
    · exact Or.inl ⟨te, st, hold, hto⟩
  | checkAcq hth2 hpc2 hfree =>
    rcases threads_update_cases hb with ⟨hij, hv⟩ | ⟨hij, hold⟩
    · subst hij
      injection hv with h1 h2
      refine Or.inl ⟨_, _, hth2, ?_⟩
      rw [← h2] at hto
      exact hto
    · exact Or.inl ⟨te, st, hold, hto⟩
  | casOneSleep hth2 hpc2 hcmd =>
    rcases threads_update_cases hb with ⟨hij, hv⟩ | ⟨hij, hold⟩
    · subst hij
      injection hv with h1 h2
      refine Or.inl ⟨_, _, hth2, ?_⟩
      rw [← h2] at hto
      exact hto
    · exact Or.inl ⟨te, st, hold, hto⟩
  | casOneWin hth2 hpc2 hcmd =>
    rcases threads_update_cases hb with ⟨hij, hv⟩ | ⟨hij, hold⟩
    · subst hij
      injection hv with h1 h2
      refine Or.inl ⟨_, _, hth2, ?_⟩
      rw [← h2] at hto
      exact hto
    · exact Or.inl ⟨te, st, hold, hto⟩
  | casOneAll hth2 hpc2 hcmd =>
    rcases threads_update_cases hb with ⟨hij, hv⟩ | ⟨hij, hold⟩
    · subst hij
      injection hv with h1 h2
      refine Or.inl ⟨_, _, hth2, ?_⟩
      rw [← h2] at hto
      exact hto
    · exact Or.inl ⟨te, st, hold, hto⟩
  | decOneStep hth2 hpc2 =>
    rcases threads_update_cases hb with ⟨hij, hv⟩ | ⟨hij, hold⟩
    · subst hij
      injection hv with h1 h2
      refine Or.inl ⟨_, _, hth2, ?_⟩
      rw [← h2] at hto
      exact hto
    · exact Or.inl ⟨te, st, hold, hto⟩
  | decAllLast hth2 hpc2 hone =>
    rcases threads_update_cases hb with ⟨hij, hv⟩ | ⟨hij, hold⟩
    · subst hij
      injection hv with h1 h2
      refine Or.inl ⟨_, _, hth2, ?_⟩
      rw [← h2] at hto
      exact hto
    · exact Or.inl ⟨te, st, hold, hto⟩
  | decAllMore hth2 hpc2 hone =>
    rcases threads_update_cases hb with ⟨hij, hv⟩ | ⟨hij, hold⟩
    · subst hij
      injection hv with h1 h2
      refine Or.inl ⟨_, _, hth2, ?_⟩
      rw [← h2] at hto
      exact hto
    · exact Or.inl ⟨te, st, hold, hto⟩
  | casAllBackStep hth2 hpc2 =>
    rcases threads_update_cases hb with ⟨hij, hv⟩ | ⟨hij, hold⟩
    · subst hij
      injection hv with h1 h2
      refine Or.inl ⟨_, _, hth2, ?_⟩
      rw [← h2] at hto
      exact hto
    · exact Or.inl ⟨te, st, hold, hto⟩
  | checkRelExit hth2 hpc2 =>
    rcases threads_update_cases hb with ⟨hij, hv⟩ | ⟨hij, hold⟩
    · subst hij
      injection hv with h1 h2
      refine Or.inl ⟨_, _, hth2, ?_⟩
      rw [← h2] at hto
      exact hto
    · exact Or.inl ⟨te, st, hold, hto⟩
  | checkRelSleep hth2 hpc2 =>
    rcases threads_update_cases hb with ⟨hij, hv⟩ | ⟨hij, hold⟩
    · subst hij
      injection hv with h1 h2
      refine Or.inl ⟨_, _, hth2, ?_⟩
      rw [← h2] at hto
      exact hto
    · exact Or.inl ⟨te, st, hold, hto⟩
  | enterRelMaybe hth2 hpc2 =>
    rcases threads_update_cases hb with ⟨hij, hv⟩ | ⟨hij, hold⟩
    · subst hij
      injection hv with h1 h2
      refine Or.inl ⟨_, _, hth2, ?_⟩
      rw [← h2] at hto
      exact hto
    · exact Or.inl ⟨te, st, hold, hto⟩
  | extAcq hth2 hpc2 =>
    rcases threads_update_cases hb with ⟨hij, hv⟩ | ⟨hij, hold⟩
    · subst hij
      injection hv with h1 h2
      refine Or.inl ⟨_, _, hth2, ?_⟩
      rw [← h2] at hto
      exact hto
    · exact Or.inl ⟨te, st, hold, hto⟩
  | nEnterAcq hth2 hpc2 hfree =>
    rcases threads_update_cases hb with ⟨hij, hv⟩ | ⟨hij, hold⟩
    · exact absurd hv (by simp)
    · exact Or.inl ⟨te, st, hold, hto⟩
  | nReadZero hth2 hpc2 hz =>
    rcases threads_update_cases hb with ⟨hij, hv⟩ | ⟨hij, hold⟩
    · exact absurd hv (by simp)
    · exact Or.inl ⟨te, st, hold, hto⟩
  | nReadPos hth2 hpc2 hz =>
    rcases threads_update_cases hb with ⟨hij, hv⟩ | ⟨hij, hold⟩
    · exact absurd hv (by simp)
    · exact Or.inl ⟨te, st, hold, hto⟩
  | nEnterRel hth2 hpc2 =>
    rcases threads_update_cases hb with ⟨hij, hv⟩ | ⟨hij, hold⟩
    · exact absurd hv (by simp)
    · exact Or.inl ⟨te, st, hold, hto⟩
  | nCas hth2 hpc2 =>
    rcases threads_update_cases hb with ⟨hij, hv⟩ | ⟨hij, hold⟩
    · exact absurd hv (by simp)
    · exact Or.inl ⟨te, st, hold, hto⟩

/-- A waiter sitting in `exitRegion` with `timed_out = false` either was
already there, or the step was its own consuming decrement (line 156 or 162). -/
theorem consume_step {n : Nat} {j : Fin n} {a b : State n} (hstep : Step j a b)
    (hInv : Inv a) {i : Fin n} {te : Bool} {st : WState}
    (hb : b.threads i = .w te st) (hex : exitRegion st.pc) (hto : st.timedOut = false) :
    (∃ te0 st0, a.threads i = .w te0 st0 ∧ exitRegion st0.pc ∧ st0.timedOut = false) ∨
    (j = i ∧ ∃ te0 st0, a.threads i = .w te0 st0 ∧ (st0.pc = .decOne ∨ st0.pc = .decAll)) := by
  cases hstep with
  | startGo hth2 hpc2 =>
    rcases threads_update_cases hb with ⟨hij, hv⟩ | ⟨hij, hold⟩
    · subst hij
      injection hv with h1 h2
      rw [← h2] at hex
      simp [exitRegion] at hex
    · exact Or.inl ⟨te, st, hold, hex, hto⟩
  | startExpired hth2 hpc2 =>
    rcases threads_update_cases hb with ⟨hij, hv⟩ | ⟨hij, hold⟩
    · subst hij
      injection hv with h1 h2
      rw [← h2] at hex
      simp [exitRegion] at hex
    · exact Or.inl ⟨te, st, hold, hex, hto⟩
  | enterAcq hth2 hpc2 hfree =>
    rcases threads_update_cases hb with ⟨hij, hv⟩ | ⟨hij, hold⟩
    · subst hij
      injection hv with h1 h2
      rw [← h2] at hex
      simp [exitRegion] at hex
    · exact Or.inl ⟨te, st, hold, hex, hto⟩
  | incStep hth2 hpc2 =>
    rcases threads_update_cases hb with ⟨hij, hv⟩ | ⟨hij, hold⟩
    · subst hij
      injection hv with h1 h2
      rw [← h2] at hex
      simp [exitRegion] at hex
    · exact Or.inl ⟨te, st, hold, hex, hto⟩
  | extRelease hth2 hpc2 =>
    rcases threads_update_cases hb with ⟨hij, hv⟩ | ⟨hij, hold⟩
    · subst hij
      injection hv with h1 h2
      rw [← h2] at hex
      simp [exitRegion] at hex
    · exact Or.inl ⟨te, st, hold, hex, hto⟩
  | enterRelReg hth2 hpc2 =>
    rcases threads_update_cases hb with ⟨hij, hv⟩ | ⟨hij, hold⟩
    · subst hij
      injection hv with h1 h2
      rw [← h2] at hex
      simp [exitRegion] at hex
    · exact Or.inl ⟨te, st, hold, hex, hto⟩
  | spinSleep hth2 hpc2 hcmd =>
    exact Or.inl ⟨te, st, hb, hex, hto⟩
  | spinTimeoutChk hth2 hpc2 hcmd =>
    rcases threads_update_cases hb with ⟨hij, hv⟩ | ⟨hij, hold⟩
    · subst hij
      injection hv with h1 h2
      rw [← h2] at hex
      simp [exitRegion] at hex
    · exact Or.inl ⟨te, st, hold, hex, hto⟩
  | spinNotice hth2 hpc2 hcmd =>
    rcases threads_update_cases hb with ⟨hij, hv⟩ | ⟨hij, hold⟩
    · subst hij
      injection hv with h1 h2
      rw [← h2] at hex
      simp [exitRegion] at hex
    · exact Or.inl ⟨te, st, hold, hex, hto⟩
  | tryFail hth2 hpc2 hlk =>
    rcases threads_update_cases hb with ⟨hij, hv⟩ | ⟨hij, hold⟩
    · subst hij
      injection hv with h1 h2
      rw [← h2] at hex
      simp [exitRegion] at hex
    · exact Or.inl ⟨te, st, hold, hex, hto⟩
  | trySucc hth2 hpc2 hlk =>
    rcases threads_update_cases hb with ⟨hij, hv⟩ | ⟨hij, hold⟩
    · subst hij
      injection hv with h1 h2
      rw [← h2] at hex
      simp [exitRegion] at hex
    · exact Or.inl ⟨te, st, hold, hex, hto⟩
  | toDecStep hth2 hpc2 =>
    rename_i st0
    rcases threads_update_cases hb with ⟨hij, hv⟩ | ⟨hij, hold⟩
    · subst hij
      injection hv with h1 h2
      have h3 : st0.timedOut = true := hInv.toDecTimedOut _ true st0 hth2 hpc2
      rw [← h2] at hto
      have h4 : st0.timedOut = false := hto
      rw [h3] at h4
      cases h4
    · exact Or.inl ⟨te, st, hold, hex, hto⟩
  | checkAcq hth2 hpc2 hfree =>
    rcases threads_update_cases hb with ⟨hij, hv⟩ | ⟨hij, hold⟩
    · subst hij
      injection hv with h1 h2
      rw [← h2] at hex
      simp [exitRegion] at hex
    · exact Or.inl ⟨te, st, hold, hex, hto⟩
  | casOneSleep hth2 hpc2 hcmd =>
    rcases threads_update_cases hb with ⟨hij, hv⟩ | ⟨hij, hold⟩
    · subst hij
      injection hv with h1 h2
      rw [← h2] at hex
      simp [exitRegion] at hex
    · exact Or.inl ⟨te, st, hold, hex, hto⟩
  | casOneWin hth2 hpc2 hcmd =>
    rcases threads_update_cases hb with ⟨hij, hv⟩ | ⟨hij, hold⟩
    · subst hij
      injection hv with h1 h2
      rw [← h2] at hex
      simp [exitRegion] at hex
    · exact Or.inl ⟨te, st, hold, hex, hto⟩
  | casOneAll hth2 hpc2 hcmd =>
    rcases threads_update_cases hb with ⟨hij, hv⟩ | ⟨hij, hold⟩
    · subst hij
      injection hv with h1 h2
      rw [← h2] at hex
      simp [exitRegion] at hex
    · exact Or.inl ⟨te, st, hold, hex, hto⟩
  | decOneStep hth2 hpc2 =>
    rename_i te0 st0
    rcases threads_update_cases hb with ⟨hij, hv⟩ | ⟨hij, hold⟩
    · subst hij
      exact Or.inr ⟨rfl, te0, st0, hth2, Or.inl hpc2⟩
    · exact Or.inl ⟨te, st, hold, hex, hto⟩
  | decAllLast hth2 hpc2 hone =>
    rename_i te0 st0
    rcases threads_update_cases hb with ⟨hij, hv⟩ | ⟨hij, hold⟩
    · subst hij
      exact Or.inr ⟨rfl, te0, st0, hth2, Or.inr hpc2⟩
    · exact Or.inl ⟨te, st, hold, hex, hto⟩
  | decAllMore hth2 hpc2 hone =>
    rename_i te0 st0
    rcases threads_update_cases hb with ⟨hij, hv⟩ | ⟨hij, hold⟩
    · subst hij
      exact Or.inr ⟨rfl, te0, st0, hth2, Or.inr hpc2⟩
    · exact Or.inl ⟨te, st, hold, hex, hto⟩
  | casAllBackStep hth2 hpc2 =>
    rename_i te0 st0
    rcases threads_update_cases hb with ⟨hij, hv⟩ | ⟨hij, hold⟩
    · subst hij
      injection hv with h1 h2
      refine Or.inl ⟨te0, st0, hth2, by rw [hpc2]; trivial, ?_⟩
      rw [← h2] at hto
      exact hto
    · exact Or.inl ⟨te, st, hold, hex, hto⟩
  | checkRelExit hth2 hpc2 =>
    rename_i te0 st0
    rcases threads_update_cases hb with ⟨hij, hv⟩ | ⟨hij, hold⟩
    · subst hij
      injection hv with h1 h2
      refine Or.inl ⟨te0, st0, hth2, by rw [hpc2]; trivial, ?_⟩
      rw [← h2] at hto
      exact hto
    · exact Or.inl ⟨te, st, hold, hex, hto⟩
  | checkRelSleep hth2 hpc2 =>
    rcases threads_update_cases hb with ⟨hij, hv⟩ | ⟨hij, hold⟩
    · subst hij
      injection hv with h1 h2
      rw [← h2] at hex
      simp [exitRegion] at hex
    · exact Or.inl ⟨te, st, hold, hex, hto⟩
  | enterRelMaybe hth2 hpc2 =>
    rename_i te0 st0
    rcases threads_update_cases hb with ⟨hij, hv⟩ | ⟨hij, hold⟩
    · subst hij
      injection hv with h1 h2
      refine Or.inl ⟨te0, st0, hth2, by rw [hpc2]; trivial, ?_⟩
      rw [← h2] at hto
      exact hto
    · exact Or.inl ⟨te, st, hold, hex, hto⟩
  | extAcq hth2 hpc2 =>
    rename_i te0 st0
    rcases threads_update_cases hb with ⟨hij, hv⟩ | ⟨hij, hold⟩
    · subst hij
      injection hv with h1 h2
      refine Or.inl ⟨te0, st0, hth2, by rw [hpc2]; trivial, ?_⟩
      rw [← h2] at hto
      exact hto
    · exact Or.inl ⟨te, st, hold, hex, hto⟩
  | nEnterAcq hth2 hpc2 hfree =>
    rcases threads_update_cases hb with ⟨hij, hv⟩ | ⟨hij, hold⟩
    · exact absurd hv (by simp)
    · exact Or.inl ⟨te, st, hold, hex, hto⟩
  | nReadZero hth2 hpc2 hz =>
    rcases threads_update_cases hb with ⟨hij, hv⟩ | ⟨hij, hold⟩
    · exact absurd hv (by simp)
    · exact Or.inl ⟨te, st, hold, hex, hto⟩
  | nReadPos hth2 hpc2 hz =>
    rcases threads_update_cases hb with ⟨hij, hv⟩ | ⟨hij, hold⟩
    · exact absurd hv (by simp)
    · exact Or.inl ⟨te, st, hold, hex, hto⟩
  | nEnterRel hth2 hpc2 =>
    rcases threads_update_cases hb with ⟨hij, hv⟩ | ⟨hij, hold⟩
    · exact absurd hv (by simp)
    · exact Or.inl ⟨te, st, hold, hex, hto⟩
  | nCas hth2 hpc2 =>
    rcases threads_update_cases hb with ⟨hij, hv⟩ | ⟨hij, hold⟩
    · exact absurd hv (by simp)
    · exact Or.inl ⟨te, st, hold, hex, hto⟩

/-- A waiter that ends an execution with `timed_out = true` either started
that way or performed the successful timeout `try_lock` during the execution. -/
theorem timedOut_origin {n : Nat} {s u : State n} {l} (h : Steps s l u) :
    ∀ i te st, u.threads i = .w te st → st.timedOut = true →
      (∃ te0 st0, s.threads i = .w te0 st0 ∧ st0.timedOut = true) ∨
      ∃ e ∈ l, e.1 = i ∧ e.2.1.enterLocked = false ∧
        ∃ st0, e.2.1.threads i = .w true st0 ∧ st0.pc = .tryTO := by
  induction h with
  | nil =>
    intro i te st hu hto
    exact Or.inl ⟨te, st, hu, hto⟩
  | cons hstep htail ih =>
    rename_i j a t u2 l2
    intro i te st hu hto
    rcases ih i te st hu hto with ⟨te0, st0, ht0, hto0⟩ | ⟨e, hel, he⟩
    · rcases timedOut_step hstep ht0 hto0 with ⟨te1, st1, ha1, hto1⟩ | ⟨hji, hlk, st1, ha1, hpc1⟩
      · exact Or.inl ⟨te1, st1, ha1, hto1⟩
      · subst hji
        exact Or.inr ⟨(j, a, t), List.mem_cons_self _ _, rfl, hlk, st1, ha1, hpc1⟩
    · exact Or.inr ⟨e, List.mem_cons_of_mem _ hel, he⟩

/-- A waiter that ends an execution past the wait loop without a timeout either
started that way or performed a consuming decrement during the execution. -/
theorem consume_origin {n : Nat} {s u : State n} {l} (h : Steps s l u)
    (hInv : Inv s) (hF : FlagInv s) :
    ∀ i te st, u.threads i = .w te st → exitRegion st.pc → st.timedOut = false →
      (∃ te0 st0, s.threads i = .w te0 st0 ∧ exitRegion st0.pc ∧ st0.timedOut = false) ∨
      ∃ e ∈ l, e.1 = i ∧
        ∃ te0 st0, e.2.1.threads i = .w te0 st0 ∧ (st0.pc = .decOne ∨ st0.pc = .decAll) := by
  induction h with
  | nil =>
    intro i te st hu hex hto
    exact Or.inl ⟨te, st, hu, hex, hto⟩
  | cons hstep htail ih =>
    rename_i j a t u2 l2
    intro i te st hu hex hto
    rcases ih (inv_step hInv hF hstep) (flagInv_step hF hstep) i te st hu hex hto with
      ⟨te0, st0, ht0, hex0, hto0⟩ | ⟨e, hel, he⟩
    · rcases consume_step hstep hInv ht0 hex0 hto0 with
        ⟨te1, st1, ha1, hex1, hto1⟩ | ⟨hji, te1, st1, ha1, hpc1⟩
      · exact Or.inl ⟨te1, st1, ha1, hex1, hto1⟩
      · subst hji
        exact Or.inr ⟨(j, a, t), List.mem_cons_self _ _, rfl, te1, st1, ha1, hpc1⟩
    · exact Or.inr ⟨e, List.mem_cons_of_mem _ hel, he⟩

/-- Inversion: the only steps of a waiter at the `try_lock` of line 115. -/
theorem step_at_tryTO {n : Nat} {i : Fin n} {s s2 : State n} {st : WState}
    (hstep : Step i s s2) (hth : s.threads i = .w true st) (hpc : st.pc = .tryTO) :
    (s.enterLocked = true ∧
      s2 = { s with threads := Function.update s.threads i (.w true { st with pc := .spin }) }) ∨
    (s.enterLocked = false ∧
      s2 = { s with enterLocked := true, threads := Function.update s.threads i (.w true { st with pc := .toDec, timedOut := true }) }) := by
  cases hstep with
  | startGo hth2 hpc2 =>
    rw [hth] at hth2
    injection hth2 with h1 h2
    subst h2
    rw [hpc] at hpc2
    exact absurd hpc2 (by simp)
  | startExpired hth2 hpc2 =>
    rw [hth] at hth2
    injection hth2 with h1 h2
    subst h2
    rw [hpc] at hpc2
    exact absurd hpc2 (by simp)
  | enterAcq hth2 hpc2 hfree =>
    rw [hth] at hth2
    injection hth2 with h1 h2
    subst h2
    rw [hpc] at hpc2
    exact absurd hpc2 (by simp)
  | incStep hth2 hpc2 =>
    rw [hth] at hth2
    injection hth2 with h1 h2
    subst h2
    rw [hpc] at hpc2
    exact absurd hpc2 (by simp)
  | extRelease hth2 hpc2 =>
    rw [hth] at hth2
    injection hth2 with h1 h2
    subst h2
    rw [hpc] at hpc2
    exact absurd hpc2 (by simp)
  | enterRelReg hth2 hpc2 =>
    rw [hth] at hth2
    injection hth2 with h1 h2
    subst h2
    rw [hpc] at hpc2
    exact absurd hpc2 (by simp)
  | spinSleep hth2 hpc2 hcmd =>
    rw [hth] at hth2
    injection hth2 with h1 h2
    subst h2
    rw [hpc] at hpc2
    exact absurd hpc2 (by simp)
  | spinTimeoutChk hth2 hpc2 hcmd =>
    rw [hth] at hth2
    injection hth2 with h1 h2
    subst h2
    rw [hpc] at hpc2
    exact absurd hpc2 (by simp)
  | spinNotice hth2 hpc2 hcmd =>
    rw [hth] at hth2
    injection hth2 with h1 h2
    subst h2
    rw [hpc] at hpc2
    exact absurd hpc2 (by simp)
  | tryFail hth2 hpc2 hlk =>
    rw [hth] at hth2
    injection hth2 with h1 h2
    subst h2
    exact Or.inl ⟨hlk, rfl⟩
  | trySucc hth2 hpc2 hlk =>
    rw [hth] at hth2
    injection hth2 with h1 h2
    subst h2
    exact Or.inr ⟨hlk, rfl⟩
  | toDecStep hth2 hpc2 =>
    rw [hth] at hth2
    injection hth2 with h1 h2
    subst h2
    rw [hpc] at hpc2
    exact absurd hpc2 (by simp)
  | checkAcq hth2 hpc2 hfree =>
    rw [hth] at hth2
    injection hth2 with h1 h2
    subst h2
    rw [hpc] at hpc2
    exact absurd hpc2 (by simp)
  | casOneSleep hth2 hpc2 hcmd =>
    rw [hth] at hth2
    injection hth2 with h1 h2
    subst h2
    rw [hpc] at hpc2
    exact absurd hpc2 (by simp)
  | casOneWin hth2 hpc2 hcmd =>
    rw [hth] at hth2
    injection hth2 with h1 h2
    subst h2
    rw [hpc] at hpc2
    exact absurd hpc2 (by simp)
  | casOneAll hth2 hpc2 hcmd =>
    rw [hth] at hth2
    injection hth2 with h1 h2
    subst h2
    rw [hpc] at hpc2
    exact absurd hpc2 (by simp)
  | decOneStep hth2 hpc2 =>
    rw [hth] at hth2
    injection hth2 with h1 h2
    subst h2
    rw [hpc] at hpc2
    exact absurd hpc2 (by simp)
  | decAllLast hth2 hpc2 hone =>
    rw [hth] at hth2
    injection hth2 with h1 h2
    subst h2
    rw [hpc] at hpc2
    exact absurd hpc2 (by simp)
  | decAllMore hth2 hpc2 hone =>
    rw [hth] at hth2
    injection hth2 with h1 h2
    subst h2
    rw [hpc] at hpc2
    exact absurd hpc2 (by simp)
  | casAllBackStep hth2 hpc2 =>
    rw [hth] at hth2
    injection hth2 with h1 h2
    subst h2
    rw [hpc] at hpc2
    exact absurd hpc2 (by simp)
  | checkRelExit hth2 hpc2 =>
    rw [hth] at hth2
    injection hth2 with h1 h2
    subst h2
    rw [hpc] at hpc2
    exact absurd hpc2 (by simp)
  | checkRelSleep hth2 hpc2 =>
    rw [hth] at hth2
    injection hth2 with h1 h2
    subst h2
    rw [hpc] at hpc2
    exact absurd hpc2 (by simp)
  | enterRelMaybe hth2 hpc2 =>
    rw [hth] at hth2
    injection hth2 with h1 h2
    subst h2
    rw [hpc] at hpc2
    exact absurd hpc2 (by simp)
  | extAcq hth2 hpc2 =>
    rw [hth] at hth2
    injection hth2 with h1 h2
    subst h2
    rw [hpc] at hpc2
    exact absurd hpc2 (by simp)
  | nEnterAcq hth2 hpc2 hfree =>
    rw [hth] at hth2
    exact absurd hth2 (by simp)
  | nReadZero hth2 hpc2 hz =>
    rw [hth] at hth2
    exact absurd hth2 (by simp)
  | nReadPos hth2 hpc2 hz =>
    rw [hth] at hth2
    exact absurd hth2 (by simp)
  | nEnterRel hth2 hpc2 =>
    rw [hth] at hth2
    exact absurd hth2 (by simp)
  | nCas hth2 hpc2 =>
    rw [hth] at hth2
    exact absurd hth2 (by simp)

/-- Inversion: the only steps of a waiter at the deadline test of line 78. -/
theorem step_at_start {n : Nat} {i : Fin n} {s s2 : State n} {te : Bool} {st : WState}
    (hstep : Step i s s2) (hth : s.threads i = .w te st) (hpc : st.pc = .start) :
    (s2 = { s with threads := Function.update s.threads i (.w te { st with pc := .lockEnter }) }) ∨
    (te = true ∧
      s2 = { s with threads := Function.update s.threads i (.w te { st with pc := .doneEarly }) }) := by
  cases hstep with
  | startGo hth2 hpc2 =>
    rw [hth] at hth2
    injection hth2 with h1 h2
    subst h1
    subst h2
    exact Or.inl rfl
  | startExpired hth2 hpc2 =>
    rw [hth] at hth2
    injection hth2 with h1 h2
    subst h2
    cases h1
    exact Or.inr ⟨rfl, rfl⟩
  | enterAcq hth2 hpc2 hfree =>
    rw [hth] at hth2
    injection hth2 with h1 h2
    subst h2
    rw [hpc] at hpc2
    exact absurd hpc2 (by simp)
  | incStep hth2 hpc2 =>
    rw [hth] at hth2
    injection hth2 with h1 h2
    subst h2
    rw [hpc] at hpc2
    exact absurd hpc2 (by simp)
  | extRelease hth2 hpc2 =>
    rw [hth] at hth2
    injection hth2 with h1 h2
    subst h2
    rw [hpc] at hpc2
    exact absurd hpc2 (by simp)
  | enterRelReg hth2 hpc2 =>
    rw [hth] at hth2
    injection hth2 with h1 h2
    subst h2
    rw [hpc] at hpc2
    exact absurd hpc2 (by simp)
  | spinSleep hth2 hpc2 hcmd =>
    rw [hth] at hth2
    injection hth2 with h1 h2
    subst h2
    rw [hpc] at hpc2
    exact absurd hpc2 (by simp)
  | spinTimeoutChk hth2 hpc2 hcmd =>
    rw [hth] at hth2
    injection hth2 with h1 h2
    subst h2
    rw [hpc] at hpc2
    exact absurd hpc2 (by simp)
  | spinNotice hth2 hpc2 hcmd =>
    rw [hth] at hth2
    injection hth2 with h1 h2
    subst h2
    rw [hpc] at hpc2
    exact absurd hpc2 (by simp)
  | tryFail hth2 hpc2 hlk =>
    rw [hth] at hth2
    injection hth2 with h1 h2
    subst h2
    rw [hpc] at hpc2
    exact absurd hpc2 (by simp)
  | trySucc hth2 hpc2 hlk =>
    rw [hth] at hth2
    injection hth2 with h1 h2
    subst h2
    rw [hpc] at hpc2
    exact absurd hpc2 (by simp)
  | toDecStep hth2 hpc2 =>
    rw [hth] at hth2
    injection hth2 with h1 h2
    subst h2
    rw [hpc] at hpc2
    exact absurd hpc2 (by simp)
  | checkAcq hth2 hpc2 hfree =>
    rw [hth] at hth2
    injection hth2 with h1 h2
    subst h2
    rw [hpc] at hpc2
    exact absurd hpc2 (by simp)
  | casOneSleep hth2 hpc2 hcmd =>
    rw [hth] at hth2
    injection hth2 with h1 h2
    subst h2
    rw [hpc] at hpc2
    exact absurd hpc2 (by simp)
  | casOneWin hth2 hpc2 hcmd =>
    rw [hth] at hth2
    injection hth2 with h1 h2
    subst h2
    rw [hpc] at hpc2
    exact absurd hpc2 (by simp)
  | casOneAll hth2 hpc2 hcmd =>
    rw [hth] at hth2
    injection hth2 with h1 h2
    subst h2
    rw [hpc] at hpc2
    exact absurd hpc2 (by simp)
  | decOneStep hth2 hpc2 =>
    rw [hth] at hth2
    injection hth2 with h1 h2
    subst h2
    rw [hpc] at hpc2
    exact absurd hpc2 (by simp)
  | decAllLast hth2 hpc2 hone =>
    rw [hth] at hth2
    injection hth2 with h1 h2
    subst h2
    rw [hpc] at hpc2
    exact absurd hpc2 (by simp)
  | decAllMore hth2 hpc2 hone =>
    rw [hth] at hth2
    injection hth2 with h1 h2
    subst h2
    rw [hpc] at hpc2
    exact absurd hpc2 (by simp)
  | casAllBackStep hth2 hpc2 =>
    rw [hth] at hth2
    injection hth2 with h1 h2
    subst h2
    rw [hpc] at hpc2
    exact absurd hpc2 (by simp)
  | checkRelExit hth2 hpc2 =>
    rw [hth] at hth2
    injection hth2 with h1 h2
    subst h2
    rw [hpc] at hpc2
    exact absurd hpc2 (by simp)
  | checkRelSleep hth2 hpc2 =>
    rw [hth] at hth2
    injection hth2 with h1 h2
    subst h2
    rw [hpc] at hpc2
    exact absurd hpc2 (by simp)
  | enterRelMaybe hth2 hpc2 =>
    rw [hth] at hth2
    injection hth2 with h1 h2
    subst h2
    rw [hpc] at hpc2
    exact absurd hpc2 (by simp)
  | extAcq hth2 hpc2 =>
    rw [hth] at hth2
    injection hth2 with h1 h2
    subst h2
    rw [hpc] at hpc2
    exact absurd hpc2 (by simp)
  | nEnterAcq hth2 hpc2 hfree =>
    rw [hth] at hth2
    exact absurd hth2 (by simp)
  | nReadZero hth2 hpc2 hz =>
    rw [hth] at hth2
    exact absurd hth2 (by simp)
  | nReadPos hth2 hpc2 hz =>
    rw [hth] at hth2
    exact absurd hth2 (by simp)
  | nEnterRel hth2 hpc2 =>
    rw [hth] at hth2
    exact absurd hth2 (by simp)
  | nCas hth2 hpc2 =>
    rw [hth] at hth2
    exact absurd hth2 (by simp)

/-- Inversion: the only steps of a waiter at the compare-exchange of line 144. -/
theorem step_at_casOne {n : Nat} {i : Fin n} {s s2 : State n} {te : Bool} {st : WState}
    (hstep : Step i s s2) (hth : s.threads i = .w te st) (hpc : st.pc = .casOne) :
    (s.command = .sleep ∧
      s2 = { s with threads := Function.update s.threads i (.w te { st with pc := .unlockCheckResleep }) }) ∨
    (s.command = .notifyOne ∧
      s2 = { s with command := .sleep, threads := Function.update s.threads i (.w te { st with pc := .decOne, unlockFlag := true }) }) ∨
    (s.command = .notifyAll ∧
      s2 = { s with threads := Function.update s.threads i (.w te { st with pc := .decAll }) }) := by
  cases hstep with
  | startGo hth2 hpc2 =>
    rw [hth] at hth2
    injection hth2 with h1 h2
    subst h2
    rw [hpc] at hpc2
    exact absurd hpc2 (by simp)
  | startExpired hth2 hpc2 =>
    rw [hth] at hth2
    injection hth2 with h1 h2
    subst h2
    rw [hpc] at hpc2
    exact absurd hpc2 (by simp)
  | enterAcq hth2 hpc2 hfree =>
    rw [hth] at hth2
    injection hth2 with h1 h2
    subst h2
    rw [hpc] at hpc2
    exact absurd hpc2 (by simp)
  | incStep hth2 hpc2 =>
    rw [hth] at hth2
    injection hth2 with h1 h2
    subst h2
    rw [hpc] at hpc2
    exact absurd hpc2 (by simp)
  | extRelease hth2 hpc2 =>
    rw [hth] at hth2
    injection hth2 with h1 h2
    subst h2
    rw [hpc] at hpc2
    exact absurd hpc2 (by simp)
  | enterRelReg hth2 hpc2 =>
    rw [hth] at hth2
    injection hth2 with h1 h2
    subst h2
    rw [hpc] at hpc2
    exact absurd hpc2 (by simp)
  | spinSleep hth2 hpc2 hcmd =>
    rw [hth] at hth2
    injection hth2 with h1 h2
    subst h2
    rw [hpc] at hpc2
    exact absurd hpc2 (by simp)
  | spinTimeoutChk hth2 hpc2 hcmd =>
    rw [hth] at hth2
    injection hth2 with h1 h2
    subst h2
    rw [hpc] at hpc2
    exact absurd hpc2 (by simp)
  | spinNotice hth2 hpc2 hcmd =>
    rw [hth] at hth2
    injection hth2 with h1 h2
    subst h2
    rw [hpc] at hpc2
    exact absurd hpc2 (by simp)
  | tryFail hth2 hpc2 hlk =>
    rw [hth] at hth2
    injection hth2 with h1 h2
    subst h2
    rw [hpc] at hpc2
    exact absurd hpc2 (by simp)
  | trySucc hth2 hpc2 hlk =>
    rw [hth] at hth2
    injection hth2 with h1 h2
    subst h2
    rw [hpc] at hpc2
    exact absurd hpc2 (by simp)
  | toDecStep hth2 hpc2 =>
    rw [hth] at hth2
    injection hth2 with h1 h2
    subst h2
    rw [hpc] at hpc2
    exact absurd hpc2 (by simp)
  | checkAcq hth2 hpc2 hfree =>
    rw [hth] at hth2
    injection hth2 with h1 h2
    subst h2
    rw [hpc] at hpc2
    exact absurd hpc2 (by simp)
  | casOneSleep hth2 hpc2 hcmd =>
    rw [hth] at hth2
    injection hth2 with h1 h2
    subst h1
    subst h2
    exact Or.inl ⟨hcmd, rfl⟩
  | casOneWin hth2 hpc2 hcmd =>
    rw [hth] at hth2
    injection hth2 with h1 h2
    subst h1
    subst h2
    exact Or.inr (Or.inl ⟨hcmd, rfl⟩)
  | casOneAll hth2 hpc2 hcmd =>
    rw [hth] at hth2
    injection hth2 with h1 h2
    subst h1
    subst h2
    exact Or.inr (Or.inr ⟨hcmd, rfl⟩)
  | decOneStep hth2 hpc2 =>
    rw [hth] at hth2
    injection hth2 with h1 h2
    subst h2
    rw [hpc] at hpc2
    exact absurd hpc2 (by simp)
  | decAllLast hth2 hpc2 hone =>
    rw [hth] at hth2
    injection hth2 with h1 h2
    subst h2
    rw [hpc] at hpc2
    exact absurd hpc2 (by simp)
  | decAllMore hth2 hpc2 hone =>
    rw [hth] at hth2
    injection hth2 with h1 h2
    subst h2
    rw [hpc] at hpc2
    exact absurd hpc2 (by simp)
  | casAllBackStep hth2 hpc2 =>
    rw [hth] at hth2
    injection hth2 with h1 h2
    subst h2
    rw [hpc] at hpc2
    exact absurd hpc2 (by simp)
  | checkRelExit hth2 hpc2 =>
    rw [hth] at hth2
    injection hth2 with h1 h2
    subst h2
    rw [hpc] at hpc2
    exact absurd hpc2 (by simp)
  | checkRelSleep hth2 hpc2 =>
    rw [hth] at hth2
    injection hth2 with h1 h2
    subst h2
    rw [hpc] at hpc2
    exact absurd hpc2 (by simp)
  | enterRelMaybe hth2 hpc2 =>
    rw [hth] at hth2
    injection hth2 with h1 h2
    subst h2
    rw [hpc] at hpc2
    exact absurd hpc2 (by simp)
  | extAcq hth2 hpc2 =>
    rw [hth] at hth2
    injection hth2 with h1 h2
    subst h2
    rw [hpc] at hpc2
    exact absurd hpc2 (by simp)
  | nEnterAcq hth2 hpc2 hfree =>
    rw [hth] at hth2
    exact absurd hth2 (by simp)
  | nReadZero hth2 hpc2 hz =>
    rw [hth] at hth2
    exact absurd hth2 (by simp)
  | nReadPos hth2 hpc2 hz =>
    rw [hth] at hth2
    exact absurd hth2 (by simp)
  | nEnterRel hth2 hpc2 =>
    rw [hth] at hth2
    exact absurd hth2 (by simp)
  | nCas hth2 hpc2 =>
    rw [hth] at hth2
    exact absurd hth2 (by simp)

/-- Inversion: the only step of a waiter at the winner's decrement of line 156. -/
theorem step_at_decOne {n : Nat} {i : Fin n} {s s2 : State n} {te : Bool} {st : WState}
    (hstep : Step i s s2) (hth : s.threads i = .w te st) (hpc : st.pc = .decOne) :
    s2 = { s with numWaiters := s.numWaiters - 1, threads := Function.update s.threads i (.w te { st with pc := .unlockCheckExit }) } := by
  cases hstep with
  | startGo hth2 hpc2 =>
    rw [hth] at hth2
    injection hth2 with h1 h2
    subst h2
    rw [hpc] at hpc2
    exact absurd hpc2 (by simp)
  | startExpired hth2 hpc2 =>
    rw [hth] at hth2
    injection hth2 with h1 h2
    subst h2
    rw [hpc] at hpc2
    exact absurd hpc2 (by simp)
  | enterAcq hth2 hpc2 hfree =>
    rw [hth] at hth2
    injection hth2 with h1 h2
    subst h2
    rw [hpc] at hpc2
    exact absurd hpc2 (by simp)
  | incStep hth2 hpc2 =>
    rw [hth] at hth2
    injection hth2 with h1 h2
    subst h2
    rw [hpc] at hpc2
    exact absurd hpc2 (by simp)
  | extRelease hth2 hpc2 =>
    rw [hth] at hth2
    injection hth2 with h1 h2
    subst h2
    rw [hpc] at hpc2
    exact absurd hpc2 (by simp)
  | enterRelReg hth2 hpc2 =>
    rw [hth] at hth2
    injection hth2 with h1 h2
    subst h2
    rw [hpc] at hpc2
    exact absurd hpc2 (by simp)
  | spinSleep hth2 hpc2 hcmd =>
    rw [hth] at hth2
    injection hth2 with h1 h2
    subst h2
    rw [hpc] at hpc2
    exact absurd hpc2 (by simp)
  | spinTimeoutChk hth2 hpc2 hcmd =>
    rw [hth] at hth2
    injection hth2 with h1 h2
    subst h2
    rw [hpc] at hpc2
    exact absurd hpc2 (by simp)
  | spinNotice hth2 hpc2 hcmd =>
    rw [hth] at hth2
    injection hth2 with h1 h2
    subst h2
    rw [hpc] at hpc2
    exact absurd hpc2 (by simp)
  | tryFail hth2 hpc2 hlk =>
    rw [hth] at hth2
    injection hth2 with h1 h2
    subst h2
    rw [hpc] at hpc2
    exact absurd hpc2 (by simp)
  | trySucc hth2 hpc2 hlk =>
    rw [hth] at hth2
    injection hth2 with h1 h2
    subst h2
    rw [hpc] at hpc2
    exact absurd hpc2 (by simp)
  | toDecStep hth2 hpc2 =>
    rw [hth] at hth2
    injection hth2 with h1 h2
    subst h2
    rw [hpc] at hpc2
    exact absurd hpc2 (by simp)
  | checkAcq hth2 hpc2 hfree =>
    rw [hth] at hth2
    injection hth2 with h1 h2
    subst h2
    rw [hpc] at hpc2
    exact absurd hpc2 (by simp)
  | casOneSleep hth2 hpc2 hcmd =>
    rw [hth] at hth2
    injection hth2 with h1 h2
    subst h2
    rw [hpc] at hpc2
    exact absurd hpc2 (by simp)
  | casOneWin hth2 hpc2 hcmd =>
    rw [hth] at hth2
    injection hth2 with h1 h2
    subst h2
    rw [hpc] at hpc2
    exact absurd hpc2 (by simp)
  | casOneAll hth2 hpc2 hcmd =>
    rw [hth] at hth2
    injection hth2 with h1 h2
    subst h2
    rw [hpc] at hpc2
    exact absurd hpc2 (by simp)
  | decOneStep hth2 hpc2 =>
    rw [hth] at hth2
    injection hth2 with h1 h2
    subst h1
    subst h2
    rfl
  | decAllLast hth2 hpc2 hone =>
    rw [hth] at hth2
    injection hth2 with h1 h2
    subst h2
    rw [hpc] at hpc2
    exact absurd hpc2 (by simp)
  | decAllMore hth2 hpc2 hone =>
    rw [hth] at hth2
    injection hth2 with h1 h2
    subst h2
    rw [hpc] at hpc2
    exact absurd hpc2 (by simp)
  | casAllBackStep hth2 hpc2 =>
    rw [hth] at hth2
    injection hth2 with h1 h2
    subst h2
    rw [hpc] at hpc2
    exact absurd hpc2 (by simp)
  | checkRelExit hth2 hpc2 =>
    rw [hth] at hth2
    injection hth2 with h1 h2
    subst h2
    rw [hpc] at hpc2
    exact absurd hpc2 (by simp)
  | checkRelSleep hth2 hpc2 =>
    rw [hth] at hth2
    injection hth2 with h1 h2
    subst h2
    rw [hpc] at hpc2
    exact absurd hpc2 (by simp)
  | enterRelMaybe hth2 hpc2 =>
    rw [hth] at hth2
    injection hth2 with h1 h2
    subst h2
    rw [hpc] at hpc2
    exact absurd hpc2 (by simp)
  | extAcq hth2 hpc2 =>
    rw [hth] at hth2
    injection hth2 with h1 h2
    subst h2
    rw [hpc] at hpc2
    exact absurd hpc2 (by simp)
  | nEnterAcq hth2 hpc2 hfree =>
    rw [hth] at hth2
    exact absurd hth2 (by simp)
  | nReadZero hth2 hpc2 hz =>
    rw [hth] at hth2
    exact absurd hth2 (by simp)
  | nReadPos hth2 hpc2 hz =>
    rw [hth] at hth2
    exact absurd hth2 (by simp)
  | nEnterRel hth2 hpc2 =>
    rw [hth] at hth2
    exact absurd hth2 (by simp)
  | nCas hth2 hpc2 =>
    rw [hth] at hth2
    exact absurd hth2 (by simp)

/-- Inversion: the only steps of a waiter at the notify-all decrement of line 162. -/
theorem step_at_decAll {n : Nat} {i : Fin n} {s s2 : State n} {te : Bool} {st : WState}
    (hstep : Step i s s2) (hth : s.threads i = .w te st) (hpc : st.pc = .decAll) :
    (s.numWaiters = 1 ∧
      s2 = { s with numWaiters := s.numWaiters - 1, threads := Function.update s.threads i (.w te { st with pc := .casAllBack, unlockFlag := true }) }) ∨
    (s.numWaiters ≠ 1 ∧
      s2 = { s with numWaiters := s.numWaiters - 1, threads := Function.update s.threads i (.w te { st with pc := .unlockCheckExit }) }) := by
  cases hstep with
  | startGo hth2 hpc2 =>
    rw [hth] at hth2
    injection hth2 with h1 h2
    subst h2
    rw [hpc] at hpc2
    exact absurd hpc2 (by simp)
  | startExpired hth2 hpc2 =>
    rw [hth] at hth2
    injection hth2 with h1 h2
    subst h2
    rw [hpc] at hpc2
    exact absurd hpc2 (by simp)
  | enterAcq hth2 hpc2 hfree =>
    rw [hth] at hth2
    injection hth2 with h1 h2
    subst h2
    rw [hpc] at hpc2
    exact absurd hpc2 (by simp)
  | incStep hth2 hpc2 =>
    rw [hth] at hth2
    injection hth2 with h1 h2
    subst h2
    rw [hpc] at hpc2
    exact absurd hpc2 (by simp)
  | extRelease hth2 hpc2 =>
    rw [hth] at hth2
    injection hth2 with h1 h2
    subst h2
    rw [hpc] at hpc2
    exact absurd hpc2 (by simp)
  | enterRelReg hth2 hpc2 =>
    rw [hth] at hth2
    injection hth2 with h1 h2
    subst h2
    rw [hpc] at hpc2
    exact absurd hpc2 (by simp)
  | spinSleep hth2 hpc2 hcmd =>
    rw [hth] at hth2
    injection hth2 with h1 h2
    subst h2
    rw [hpc] at hpc2
    exact absurd hpc2 (by simp)
  | spinTimeoutChk hth2 hpc2 hcmd =>
    rw [hth] at hth2
    injection hth2 with h1 h2
    subst h2
    rw [hpc] at hpc2
    exact absurd hpc2 (by simp)
  | spinNotice hth2 hpc2 hcmd =>
    rw [hth] at hth2
    injection hth2 with h1 h2
    subst h2
    rw [hpc] at hpc2
    exact absurd hpc2 (by simp)
  | tryFail hth2 hpc2 hlk =>
    rw [hth] at hth2
    injection hth2 with h1 h2
    subst h2
    rw [hpc] at hpc2
    exact absurd hpc2 (by simp)
  | trySucc hth2 hpc2 hlk =>
    rw [hth] at hth2
    injection hth2 with h1 h2
    subst h2
    rw [hpc] at hpc2
    exact absurd hpc2 (by simp)
  | toDecStep hth2 hpc2 =>
    rw [hth] at hth2
    injection hth2 with h1 h2
    subst h2
    rw [hpc] at hpc2
    exact absurd hpc2 (by simp)
  | checkAcq hth2 hpc2 hfree =>
    rw [hth] at hth2
    injection hth2 with h1 h2
    subst h2
    rw [hpc] at hpc2
    exact absurd hpc2 (by simp)
  | casOneSleep hth2 hpc2 hcmd =>
    rw [hth] at hth2
    injection hth2 with h1 h2
    subst h2
    rw [hpc] at hpc2
    exact absurd hpc2 (by simp)
  | casOneWin hth2 hpc2 hcmd =>
    rw [hth] at hth2
    injection hth2 with h1 h2
    subst h2
    rw [hpc] at hpc2
    exact absurd hpc2 (by simp)
  | casOneAll hth2 hpc2 hcmd =>
    rw [hth] at hth2
    injection hth2 with h1 h2
    subst h2
    rw [hpc] at hpc2
    exact absurd hpc2 (by simp)
  | decOneStep hth2 hpc2 =>
    rw [hth] at hth2
    injection hth2 with h1 h2
    subst h2
    rw [hpc] at hpc2
    exact absurd hpc2 (by simp)
  | decAllLast hth2 hpc2 hone =>
    rw [hth] at hth2
    injection hth2 with h1 h2
    subst h1
    subst h2
    exact Or.inl ⟨hone, rfl⟩
  | decAllMore hth2 hpc2 hone =>
    rw [hth] at hth2
    injection hth2 with h1 h2
    subst h1
    subst h2
    exact Or.inr ⟨hone, rfl⟩
  | casAllBackStep hth2 hpc2 =>
    rw [hth] at hth2
    injection hth2 with h1 h2
    subst h2
    rw [hpc] at hpc2
    exact absurd hpc2 (by simp)
  | checkRelExit hth2 hpc2 =>
    rw [hth] at hth2
    injection hth2 with h1 h2
    subst h2
    rw [hpc] at hpc2
    exact absurd hpc2 (by simp)
  | checkRelSleep hth2 hpc2 =>
    rw [hth] at hth2
    injection hth2 with h1 h2
    subst h2
    rw [hpc] at hpc2
    exact absurd hpc2 (by simp)
  | enterRelMaybe hth2 hpc2 =>
    rw [hth] at hth2
    injection hth2 with h1 h2
    subst h2
    rw [hpc] at hpc2
    exact absurd hpc2 (by simp)
  | extAcq hth2 hpc2 =>
    rw [hth] at hth2
    injection hth2 with h1 h2
    subst h2
    rw [hpc] at hpc2
    exact absurd hpc2 (by simp)
  | nEnterAcq hth2 hpc2 hfree =>
    rw [hth] at hth2
    exact absurd hth2 (by simp)
  | nReadZero hth2 hpc2 hz =>
    rw [hth] at hth2
    exact absurd hth2 (by simp)
  | nReadPos hth2 hpc2 hz =>
    rw [hth] at hth2
    exact absurd hth2 (by simp)
  | nEnterRel hth2 hpc2 =>
    rw [hth] at hth2
    exact absurd hth2 (by simp)
  | nCas hth2 hpc2 =>
    rw [hth] at hth2
    exact absurd hth2 (by simp)

/-- Inversion: the only step of a waiter at the reset compare-exchange of line 166. -/
theorem step_at_casAllBack {n : Nat} {i : Fin n} {s s2 : State n} {te : Bool} {st : WState}
    (hstep : Step i s s2) (hth : s.threads i = .w te st) (hpc : st.pc = .casAllBack) :
    s2 = { s with command := if s.command = .notifyAll then Cmd.sleep else s.command, threads := Function.update s.threads i (.w te { st with pc := .unlockCheckExit }) } := by
  cases hstep with
  | startGo hth2 hpc2 =>
    rw [hth] at hth2
    injection hth2 with h1 h2
    subst h2
    rw [hpc] at hpc2
    exact absurd hpc2 (by simp)
  | startExpired hth2 hpc2 =>
    rw [hth] at hth2
    injection hth2 with h1 h2
    subst h2
    rw [hpc] at hpc2
    exact absurd hpc2 (by simp)
  | enterAcq hth2 hpc2 hfree =>
    rw [hth] at hth2
    injection hth2 with h1 h2
    subst h2
    rw [hpc] at hpc2
    exact absurd hpc2 (by simp)
  | incStep hth2 hpc2 =>
    rw [hth] at hth2
    injection hth2 with h1 h2
    subst h2
    rw [hpc] at hpc2
    exact absurd hpc2 (by simp)
  | extRelease hth2 hpc2 =>
    rw [hth] at hth2
    injection hth2 with h1 h2
    subst h2
    rw [hpc] at hpc2
    exact absurd hpc2 (by simp)
  | enterRelReg hth2 hpc2 =>
    rw [hth] at hth2
    injection hth2 with h1 h2
    subst h2
    rw [hpc] at hpc2
    exact absurd hpc2 (by simp)
  | spinSleep hth2 hpc2 hcmd =>
    rw [hth] at hth2
    injection hth2 with h1 h2
    subst h2
    rw [hpc] at hpc2
    exact absurd hpc2 (by simp)
  | spinTimeoutChk hth2 hpc2 hcmd =>
    rw [hth] at hth2
    injection hth2 with h1 h2
    subst h2
    rw [hpc] at hpc2
    exact absurd hpc2 (by simp)
  | spinNotice hth2 hpc2 hcmd =>
    rw [hth] at hth2
    injection hth2 with h1 h2
    subst h2
    rw [hpc] at hpc2
    exact absurd hpc2 (by simp)
  | tryFail hth2 hpc2 hlk =>
    rw [hth] at hth2
    injection hth2 with h1 h2
    subst h2
    rw [hpc] at hpc2
    exact absurd hpc2 (by simp)
  | trySucc hth2 hpc2 hlk =>
    rw [hth] at hth2
    injection hth2 with h1 h2
    subst h2
    rw [hpc] at hpc2
    exact absurd hpc2 (by simp)
  | toDecStep hth2 hpc2 =>
    rw [hth] at hth2
    injection hth2 with h1 h2
    subst h2
    rw [hpc] at hpc2
    exact absurd hpc2 (by simp)
  | checkAcq hth2 hpc2 hfree =>
    rw [hth] at hth2
    injection hth2 with h1 h2
    subst h2
    rw [hpc] at hpc2
    exact absurd hpc2 (by simp)
  | casOneSleep hth2 hpc2 hcmd =>
    rw [hth] at hth2
    injection hth2 with h1 h2
    subst h2
    rw [hpc] at hpc2
    exact absurd hpc2 (by simp)
  | casOneWin hth2 hpc2 hcmd =>
    rw [hth] at hth2
    injection hth2 with h1 h2
    subst h2
    rw [hpc] at hpc2
    exact absurd hpc2 (by simp)
  | casOneAll hth2 hpc2 hcmd =>
    rw [hth] at hth2
    injection hth2 with h1 h2
    subst h2
    rw [hpc] at hpc2
    exact absurd hpc2 (by simp)
  | decOneStep hth2 hpc2 =>
    rw [hth] at hth2
    injection hth2 with h1 h2
    subst h2
    rw [hpc] at hpc2
    exact absurd hpc2 (by simp)
  | decAllLast hth2 hpc2 hone =>
    rw [hth] at hth2
    injection hth2 with h1 h2
    subst h2
    rw [hpc] at hpc2
    exact absurd hpc2 (by simp)
  | decAllMore hth2 hpc2 hone =>
    rw [hth] at hth2
    injection hth2 with h1 h2
    subst h2
    rw [hpc] at hpc2
    exact absurd hpc2 (by simp)
  | casAllBackStep hth2 hpc2 =>
    rw [hth] at hth2
    injection hth2 with h1 h2
    subst h1
    subst h2
    rfl
  | checkRelExit hth2 hpc2 =>
    rw [hth] at hth2
    injection hth2 with h1 h2
    subst h2
    rw [hpc] at hpc2
    exact absurd hpc2 (by simp)
  | checkRelSleep hth2 hpc2 =>
    rw [hth] at hth2
    injection hth2 with h1 h2
    subst h2
    rw [hpc] at hpc2
    exact absurd hpc2 (by simp)
  | enterRelMaybe hth2 hpc2 =>
    rw [hth] at hth2
    injection hth2 with h1 h2
    subst h2
    rw [hpc] at hpc2
    exact absurd hpc2 (by simp)
  | extAcq hth2 hpc2 =>
    rw [hth] at hth2
    injection hth2 with h1 h2
    subst h2
    rw [hpc] at hpc2
    exact absurd hpc2 (by simp)
  | nEnterAcq hth2 hpc2 hfree =>
    rw [hth] at hth2
    exact absurd hth2 (by simp)
  | nReadZero hth2 hpc2 hz =>
    rw [hth] at hth2
    exact absurd hth2 (by simp)
  | nReadPos hth2 hpc2 hz =>
    rw [hth] at hth2
    exact absurd hth2 (by simp)
  | nEnterRel hth2 hpc2 =>
    rw [hth] at hth2
    exact absurd hth2 (by simp)
  | nCas hth2 hpc2 =>
    rw [hth] at hth2
    exact absurd hth2 (by simp)

/-- Inversion: the only step of a notifier at the lock of line 46. -/
theorem step_at_nlock {n : Nat} {i : Fin n} {s s2 : State n} {a : Bool} {st : NState}
    (hstep : Step i s s2) (hth : s.threads i = .n a st) (hpc : st.pc = .nlock) :
    s.enterLocked = false ∧
      s2 = { s with enterLocked := true, threads := Function.update s.threads i (.n a { st with pc := .nread }) } := by
  cases hstep with
  | startGo hth2 hpc2 =>
    rw [hth] at hth2
    exact absurd hth2 (by simp)
  | startExpired hth2 hpc2 =>
    rw [hth] at hth2
    exact absurd hth2 (by simp)
  | enterAcq hth2 hpc2 hfree =>
    rw [hth] at hth2
    exact absurd hth2 (by simp)
  | incStep hth2 hpc2 =>
    rw [hth] at hth2
    exact absurd hth2 (by simp)
  | extRelease hth2 hpc2 =>
    rw [hth] at hth2
    exact absurd hth2 (by simp)
  | enterRelReg hth2 hpc2 =>
    rw [hth] at hth2
    exact absurd hth2 (by simp)
  | spinSleep hth2 hpc2 hcmd =>
    rw [hth] at hth2
    exact absurd hth2 (by simp)
  | spinTimeoutChk hth2 hpc2 hcmd =>
    rw [hth] at hth2
    exact absurd hth2 (by simp)
  | spinNotice hth2 hpc2 hcmd =>
    rw [hth] at hth2
    exact absurd hth2 (by simp)
  | tryFail hth2 hpc2 hlk =>
    rw [hth] at hth2
    exact absurd hth2 (by simp)
  | trySucc hth2 hpc2 hlk =>
    rw [hth] at hth2
    exact absurd hth2 (by simp)
  | toDecStep hth2 hpc2 =>
    rw [hth] at hth2
    exact absurd hth2 (by simp)
  | checkAcq hth2 hpc2 hfree =>
    rw [hth] at hth2
    exact absurd hth2 (by simp)
  | casOneSleep hth2 hpc2 hcmd =>
    rw [hth] at hth2
    exact absurd hth2 (by simp)
  | casOneWin hth2 hpc2 hcmd =>
    rw [hth] at hth2
    exact absurd hth2 (by simp)
  | casOneAll hth2 hpc2 hcmd =>
    rw [hth] at hth2
    exact absurd hth2 (by simp)
  | decOneStep hth2 hpc2 =>
    rw [hth] at hth2
    exact absurd hth2 (by simp)
  | decAllLast hth2 hpc2 hone =>
    rw [hth] at hth2
    exact absurd hth2 (by simp)
  | decAllMore hth2 hpc2 hone =>
    rw [hth] at hth2
    exact absurd hth2 (by simp)
  | casAllBackStep hth2 hpc2 =>
    rw [hth] at hth2
    exact absurd hth2 (by simp)
  | checkRelExit hth2 hpc2 =>
    rw [hth] at hth2
    exact absurd hth2 (by simp)
  | checkRelSleep hth2 hpc2 =>
    rw [hth] at hth2
    exact absurd hth2 (by simp)
  | enterRelMaybe hth2 hpc2 =>
    rw [hth] at hth2
    exact absurd hth2 (by simp)
  | extAcq hth2 hpc2 =>
    rw [hth] at hth2
    exact absurd hth2 (by simp)
  | nEnterAcq hth2 hpc2 hfree =>
    rw [hth] at hth2
    injection hth2 with h1 h2
    subst h1
    subst h2
    exact ⟨hfree, rfl⟩
  | nReadZero hth2 hpc2 hz =>
    rw [hth] at hth2
    injection hth2 with h1 h2
    subst h2
    rw [hpc] at hpc2
    exact absurd hpc2 (by simp)
  | nReadPos hth2 hpc2 hz =>
    rw [hth] at hth2
    injection hth2 with h1 h2
    subst h2
    rw [hpc] at hpc2
    exact absurd hpc2 (by simp)
  | nEnterRel hth2 hpc2 =>
    rw [hth] at hth2
    injection hth2 with h1 h2
    subst h2
    rw [hpc] at hpc2
    exact absurd hpc2 (by simp)
  | nCas hth2 hpc2 =>
    rw [hth] at hth2
    injection hth2 with h1 h2
    subst h2
    rw [hpc] at hpc2
    exact absurd hpc2 (by simp)

/-- Inversion: the only steps of a notifier at the waiter-count read of line 49. -/
theorem step_at_nread {n : Nat} {i : Fin n} {s s2 : State n} {a : Bool} {st : NState}
    (hstep : Step i s s2) (hth : s.threads i = .n a st) (hpc : st.pc = .nread) :
    (s.numWaiters = 0 ∧
      s2 = { s with threads := Function.update s.threads i (.n a { st with pc := .nzero }) }) ∨
    (s.numWaiters ≠ 0 ∧
      s2 = { s with threads := Function.update s.threads i (.n a { st with pc := .ncas }) }) := by
  cases hstep with
  | startGo hth2 hpc2 =>
    rw [hth] at hth2
    exact absurd hth2 (by simp)
  | startExpired hth2 hpc2 =>
    rw [hth] at hth2
    exact absurd hth2 (by simp)
  | enterAcq hth2 hpc2 hfree =>
    rw [hth] at hth2
    exact absurd hth2 (by simp)
  | incStep hth2 hpc2 =>
    rw [hth] at hth2
    exact absurd hth2 (by simp)
  | extRelease hth2 hpc2 =>
    rw [hth] at hth2
    exact absurd hth2 (by simp)
  | enterRelReg hth2 hpc2 =>
    rw [hth] at hth2
    exact absurd hth2 (by simp)
  | spinSleep hth2 hpc2 hcmd =>
    rw [hth] at hth2
    exact absurd hth2 (by simp)
  | spinTimeoutChk hth2 hpc2 hcmd =>
    rw [hth] at hth2
    exact absurd hth2 (by simp)
  | spinNotice hth2 hpc2 hcmd =>
    rw [hth] at hth2
    exact absurd hth2 (by simp)
  | tryFail hth2 hpc2 hlk =>
    rw [hth] at hth2
    exact absurd hth2 (by simp)
  | trySucc hth2 hpc2 hlk =>
    rw [hth] at hth2
    exact absurd hth2 (by simp)
  | toDecStep hth2 hpc2 =>
    rw [hth] at hth2
    exact absurd hth2 (by simp)
  | checkAcq hth2 hpc2 hfree =>
    rw [hth] at hth2
    exact absurd hth2 (by simp)
  | casOneSleep hth2 hpc2 hcmd =>
    rw [hth] at hth2
    exact absurd hth2 (by simp)
  | casOneWin hth2 hpc2 hcmd =>
    rw [hth] at hth2
    exact absurd hth2 (by simp)
  | casOneAll hth2 hpc2 hcmd =>
    rw [hth] at hth2
    exact absurd hth2 (by simp)
  | decOneStep hth2 hpc2 =>
    rw [hth] at hth2
    exact absurd hth2 (by simp)
  | decAllLast hth2 hpc2 hone =>
    rw [hth] at hth2
    exact absurd hth2 (by simp)
  | decAllMore hth2 hpc2 hone =>
    rw [hth] at hth2
    exact absurd hth2 (by simp)
  | casAllBackStep hth2 hpc2 =>
    rw [hth] at hth2
    exact absurd hth2 (by simp)
  | checkRelExit hth2 hpc2 =>
    rw [hth] at hth2
    exact absurd hth2 (by simp)
  | checkRelSleep hth2 hpc2 =>
    rw [hth] at hth2
    exact absurd hth2 (by simp)
  | enterRelMaybe hth2 hpc2 =>
    rw [hth] at hth2
    exact absurd hth2 (by simp)
  | extAcq hth2 hpc2 =>
    rw [hth] at hth2
    exact absurd hth2 (by simp)
  | nEnterAcq hth2 hpc2 hfree =>
    rw [hth] at hth2
    injection hth2 with h1 h2
    subst h2
    rw [hpc] at hpc2
    exact absurd hpc2 (by simp)
  | nReadZero hth2 hpc2 hz =>
    rw [hth] at hth2
    injection hth2 with h1 h2
    subst h1
    subst h2
    exact Or.inl ⟨hz, rfl⟩
  | nReadPos hth2 hpc2 hz =>
    rw [hth] at hth2
    injection hth2 with h1 h2
    subst h1
    subst h2
    exact Or.inr ⟨hz, rfl⟩
  | nEnterRel hth2 hpc2 =>
    rw [hth] at hth2
    injection hth2 with h1 h2
    subst h2
    rw [hpc] at hpc2
    exact absurd hpc2 (by simp)
  | nCas hth2 hpc2 =>
    rw [hth] at hth2
    injection hth2 with h1 h2
    subst h2
    rw [hpc] at hpc2
    exact absurd hpc2 (by simp)

/-- Inversion: the only step of a notifier at the zero-waiter unlock of line 50. -/
theorem step_at_nzero {n : Nat} {i : Fin n} {s s2 : State n} {a : Bool} {st : NState}
    (hstep : Step i s s2) (hth : s.threads i = .n a st) (hpc : st.pc = .nzero) :
    s2 = { s with enterLocked := false, threads := Function.update s.threads i (.n a { st with pc := .ndone }) } := by
  cases hstep with
  | startGo hth2 hpc2 =>
    rw [hth] at hth2
    exact absurd hth2 (by simp)
  | startExpired hth2 hpc2 =>
    rw [hth] at hth2
    exact absurd hth2 (by simp)
  | enterAcq hth2 hpc2 hfree =>
    rw [hth] at hth2
    exact absurd hth2 (by simp)
  | incStep hth2 hpc2 =>
    rw [hth] at hth2
    exact absurd hth2 (by simp)
  | extRelease hth2 hpc2 =>
    rw [hth] at hth2
    exact absurd hth2 (by simp)
  | enterRelReg hth2 hpc2 =>
    rw [hth] at hth2
    exact absurd hth2 (by simp)
  | spinSleep hth2 hpc2 hcmd =>
    rw [hth] at hth2
    exact absurd hth2 (by simp)
  | spinTimeoutChk hth2 hpc2 hcmd =>
    rw [hth] at hth2
    exact absurd hth2 (by simp)
  | spinNotice hth2 hpc2 hcmd =>
    rw [hth] at hth2
    exact absurd hth2 (by simp)
  | tryFail hth2 hpc2 hlk =>
    rw [hth] at hth2
    exact absurd hth2 (by simp)
  | trySucc hth2 hpc2 hlk =>
    rw [hth] at hth2
    exact absurd hth2 (by simp)
  | toDecStep hth2 hpc2 =>
    rw [hth] at hth2
    exact absurd hth2 (by simp)
  | checkAcq hth2 hpc2 hfree =>
    rw [hth] at hth2
    exact absurd hth2 (by simp)
  | casOneSleep hth2 hpc2 hcmd =>
    rw [hth] at hth2
    exact absurd hth2 (by simp)
  | casOneWin hth2 hpc2 hcmd =>
    rw [hth] at hth2
    exact absurd hth2 (by simp)
  | casOneAll hth2 hpc2 hcmd =>
    rw [hth] at hth2
    exact absurd hth2 (by simp)
  | decOneStep hth2 hpc2 =>
    rw [hth] at hth2
    exact absurd hth2 (by simp)
  | decAllLast hth2 hpc2 hone =>
    rw [hth] at hth2
    exact absurd hth2 (by simp)
  | decAllMore hth2 hpc2 hone =>
    rw [hth] at hth2
    exact absurd hth2 (by simp)
  | casAllBackStep hth2 hpc2 =>
    rw [hth] at hth2
    exact absurd hth2 (by simp)
  | checkRelExit hth2 hpc2 =>
    rw [hth] at hth2
    exact absurd hth2 (by simp)
  | checkRelSleep hth2 hpc2 =>
    rw [hth] at hth2
    exact absurd hth2 (by simp)
  | enterRelMaybe hth2 hpc2 =>
    rw [hth] at hth2
    exact absurd hth2 (by simp)
  | extAcq hth2 hpc2 =>
    rw [hth] at hth2
    exact absurd hth2 (by simp)
  | nEnterAcq hth2 hpc2 hfree =>
    rw [hth] at hth2
    injection hth2 with h1 h2
    subst h2
    rw [hpc] at hpc2
    exact absurd hpc2 (by simp)
  | nReadZero hth2 hpc2 hz =>
    rw [hth] at hth2
    injection hth2 with h1 h2
    subst h2
    rw [hpc] at hpc2
    exact absurd hpc2 (by simp)
  | nReadPos hth2 hpc2 hz =>
    rw [hth] at hth2
    injection hth2 with h1 h2
    subst h2
    rw [hpc] at hpc2
    exact absurd hpc2 (by simp)
  | nEnterRel hth2 hpc2 =>
    rw [hth] at hth2
    injection hth2 with h1 h2
    subst h1
    subst h2
    rfl
  | nCas hth2 hpc2 =>
    rw [hth] at hth2
    injection hth2 with h1 h2
    subst h2
    rw [hpc] at hpc2
    exact absurd hpc2 (by simp)

/-- Inversion: the only step of a notifier at the compare-exchange of line 55. -/
theorem step_at_ncas {n : Nat} {i : Fin n} {s s2 : State n} {a : Bool} {st : NState}
    (hstep : Step i s s2) (hth : s.threads i = .n a st) (hpc : st.pc = .ncas) :
    s2 = { s with command := if s.command = .sleep
             then (if a then Cmd.notifyAll else Cmd.notifyOne) else s.command, threads := Function.update s.threads i (.n a { st with pc := .ndone }) } := by
  cases hstep with
  | startGo hth2 hpc2 =>
    rw [hth] at hth2
    exact absurd hth2 (by simp)
  | startExpired hth2 hpc2 =>
    rw [hth] at hth2
    exact absurd hth2 (by simp)
  | enterAcq hth2 hpc2 hfree =>
    rw [hth] at hth2
    exact absurd hth2 (by simp)
  | incStep hth2 hpc2 =>
    rw [hth] at hth2
    exact absurd hth2 (by simp)
  | extRelease hth2 hpc2 =>
    rw [hth] at hth2
    exact absurd hth2 (by simp)
  | enterRelReg hth2 hpc2 =>
    rw [hth] at hth2
    exact absurd hth2 (by simp)
  | spinSleep hth2 hpc2 hcmd =>
    rw [hth] at hth2
    exact absurd hth2 (by simp)
  | spinTimeoutChk hth2 hpc2 hcmd =>
    rw [hth] at hth2
    exact absurd hth2 (by simp)
  | spinNotice hth2 hpc2 hcmd =>
    rw [hth] at hth2
    exact absurd hth2 (by simp)
  | tryFail hth2 hpc2 hlk =>
    rw [hth] at hth2
    exact absurd hth2 (by simp)
  | trySucc hth2 hpc2 hlk =>
    rw [hth] at hth2
    exact absurd hth2 (by simp)
  | toDecStep hth2 hpc2 =>
    rw [hth] at hth2
    exact absurd hth2 (by simp)
  | checkAcq hth2 hpc2 hfree =>
    rw [hth] at hth2
    exact absurd hth2 (by simp)
  | casOneSleep hth2 hpc2 hcmd =>
    rw [hth] at hth2
    exact absurd hth2 (by simp)
  | casOneWin hth2 hpc2 hcmd =>
    rw [hth] at hth2
    exact absurd hth2 (by simp)
  | casOneAll hth2 hpc2 hcmd =>
    rw [hth] at hth2
    exact absurd hth2 (by simp)
  | decOneStep hth2 hpc2 =>
    rw [hth] at hth2
    exact absurd hth2 (by simp)
  | decAllLast hth2 hpc2 hone =>
    rw [hth] at hth2
    exact absurd hth2 (by simp)
  | decAllMore hth2 hpc2 hone =>
    rw [hth] at hth2
    exact absurd hth2 (by simp)
  | casAllBackStep hth2 hpc2 =>
    rw [hth] at hth2
    exact absurd hth2 (by simp)
  | checkRelExit hth2 hpc2 =>
    rw [hth] at hth2
    exact absurd hth2 (by simp)
  | checkRelSleep hth2 hpc2 =>
    rw [hth] at hth2
    exact absurd hth2 (by simp)
  | enterRelMaybe hth2 hpc2 =>
    rw [hth] at hth2
    exact absurd hth2 (by simp)
  | extAcq hth2 hpc2 =>
    rw [hth] at hth2
    exact absurd hth2 (by simp)
  | nEnterAcq hth2 hpc2 hfree =>
    rw [hth] at hth2
    injection hth2 with h1 h2
    subst h2
    rw [hpc] at hpc2
    exact absurd hpc2 (by simp)
  | nReadZero hth2 hpc2 hz =>
    rw [hth] at hth2
    injection hth2 with h1 h2
    subst h2
    rw [hpc] at hpc2
    exact absurd hpc2 (by simp)
  | nReadPos hth2 hpc2 hz =>
    rw [hth] at hth2
    injection hth2 with h1 h2
    subst h2
    rw [hpc] at hpc2
    exact absurd hpc2 (by simp)
  | nEnterRel hth2 hpc2 =>
    rw [hth] at hth2
    injection hth2 with h1 h2
    subst h2
    rw [hpc] at hpc2
    exact absurd hpc2 (by simp)
  | nCas hth2 hpc2 =>
    rw [hth] at hth2
    injection hth2 with h1 h2
    subst h1
    subst h2
    rfl

/-- Characterization of every change of `m_num_waiters`: only the interlocked
increment of line 91 and the interlocked decrements of lines 134, 156 and 162,
all performed by waiters. -/
theorem numWaiters_change {n : Nat} {i : Fin n} {s s2 : State n} (hstep : Step i s s2) :
    s2.numWaiters = s.numWaiters ∨
    ∃ te st, s.threads i = .w te st ∧
      ((st.pc = .incW ∧ s2.numWaiters = s.numWaiters + 1) ∨
       ((st.pc = .toDec ∨ st.pc = .decOne ∨ st.pc = .decAll) ∧
         s2.numWaiters = s.numWaiters - 1)) := by
  cases hstep with
  | startGo hth2 hpc2 =>
    exact Or.inl rfl
  | startExpired hth2 hpc2 =>
    exact Or.inl rfl
  | enterAcq hth2 hpc2 hfree =>
    exact Or.inl rfl
  | incStep hth2 hpc2 =>
    exact Or.inr ⟨_, _, hth2, Or.inl ⟨hpc2, rfl⟩⟩
  | extRelease hth2 hpc2 =>
    exact Or.inl rfl
  | enterRelReg hth2 hpc2 =>
    exact Or.inl rfl
  | spinSleep hth2 hpc2 hcmd =>
    exact Or.inl rfl
  | spinTimeoutChk hth2 hpc2 hcmd =>
    exact Or.inl rfl
  | spinNotice hth2 hpc2 hcmd =>
    exact Or.inl rfl
  | tryFail hth2 hpc2 hlk =>
    exact Or.inl rfl
  | trySucc hth2 hpc2 hlk =>
    exact Or.inl rfl
  | toDecStep hth2 hpc2 =>
    exact Or.inr ⟨_, _, hth2, Or.inr ⟨Or.inl hpc2, rfl⟩⟩
  | checkAcq hth2 hpc2 hfree =>
    exact Or.inl rfl
  | casOneSleep hth2 hpc2 hcmd =>
    exact Or.inl rfl
  | casOneWin hth2 hpc2 hcmd =>
    exact Or.inl rfl
  | casOneAll hth2 hpc2 hcmd =>
    exact Or.inl rfl
  | decOneStep hth2 hpc2 =>
    exact Or.inr ⟨_, _, hth2, Or.inr ⟨Or.inr (Or.inl hpc2), rfl⟩⟩
  | decAllLast hth2 hpc2 hone =>
    exact Or.inr ⟨_, _, hth2, Or.inr ⟨Or.inr (Or.inr hpc2), rfl⟩⟩
  | decAllMore hth2 hpc2 hone =>
    exact Or.inr ⟨_, _, hth2, Or.inr ⟨Or.inr (Or.inr hpc2), rfl⟩⟩
  | casAllBackStep hth2 hpc2 =>
    exact Or.inl rfl
  | checkRelExit hth2 hpc2 =>
    exact Or.inl rfl
  | checkRelSleep hth2 hpc2 =>
    exact Or.inl rfl
  | enterRelMaybe hth2 hpc2 =>
    exact Or.inl rfl
  | extAcq hth2 hpc2 =>
    exact Or.inl rfl
  | nEnterAcq hth2 hpc2 hfree =>
    exact Or.inl rfl
  | nReadZero hth2 hpc2 hz =>
    exact Or.inl rfl
  | nReadPos hth2 hpc2 hz =>
    exact Or.inl rfl
  | nEnterRel hth2 hpc2 =>
    exact Or.inl rfl
  | nCas hth2 hpc2 =>
    exact Or.inl rfl

/-- Characterization of every release of `m_enter_mut`: the registration-block
release of line 95, the flagged release of line 176, or the zero-waiter notify
release of line 50. -/
theorem enterUnlock_change {n : Nat} {i : Fin n} {s s2 : State n} (hstep : Step i s s2)
    (hpre : s.enterLocked = true) (hpost : s2.enterLocked = false) :
    (∃ te st, s.threads i = .w te st ∧ st.pc = .unlockEnterReg) ∨
    (∃ te st, s.threads i = .w te st ∧ st.pc = .maybeUnlockEnter ∧ st.unlockFlag = true) ∨
    (∃ a st, s.threads i = .n a st ∧ st.pc = .nzero) := by
  cases hstep with
  | startGo hth2 hpc2 =>
    have h3 : s.enterLocked = false := hpost
    rw [hpre] at h3
    cases h3
  | startExpired hth2 hpc2 =>
    have h3 : s.enterLocked = false := hpost
    rw [hpre] at h3
    cases h3
  | enterAcq hth2 hpc2 hfree =>
    have h3 : (true : Bool) = false := hpost
    cases h3
  | incStep hth2 hpc2 =>
    have h3 : s.enterLocked = false := hpost
    rw [hpre] at h3
    cases h3
  | extRelease hth2 hpc2 =>
    have h3 : s.enterLocked = false := hpost
    rw [hpre] at h3
    cases h3
  | enterRelReg hth2 hpc2 =>
    exact Or.inl ⟨_, _, hth2, hpc2⟩
  | spinSleep hth2 hpc2 hcmd =>
    have h3 : s.enterLocked = false := hpost
    rw [hpre] at h3
    cases h3
  | spinTimeoutChk hth2 hpc2 hcmd =>
    have h3 : s.enterLocked = false := hpost
    rw [hpre] at h3
    cases h3
  | spinNotice hth2 hpc2 hcmd =>
    have h3 : s.enterLocked = false := hpost
    rw [hpre] at h3
    cases h3
  | tryFail hth2 hpc2 hlk =>
    have h3 : s.enterLocked = false := hpost
    rw [hpre] at h3
    cases h3
  | trySucc hth2 hpc2 hlk =>
    have h3 : (true : Bool) = false := hpost
    cases h3
  | toDecStep hth2 hpc2 =>
    have h3 : s.enterLocked = false := hpost
    rw [hpre] at h3
    cases h3
  | checkAcq hth2 hpc2 hfree =>
    have h3 : s.enterLocked = false := hpost
    rw [hpre] at h3
    cases h3
  | casOneSleep hth2 hpc2 hcmd =>
    have h3 : s.enterLocked = false := hpost
    rw [hpre] at h3
    cases h3
  | casOneWin hth2 hpc2 hcmd =>
    have h3 : s.enterLocked = false := hpost
    rw [hpre] at h3
    cases h3
  | casOneAll hth2 hpc2 hcmd =>
    have h3 : s.enterLocked = false := hpost
    rw [hpre] at h3
    cases h3
  | decOneStep hth2 hpc2 =>
    have h3 : s.enterLocked = false := hpost
    rw [hpre] at h3
    cases h3
  | decAllLast hth2 hpc2 hone =>
    have h3 : s.enterLocked = false := hpost
    rw [hpre] at h3
    cases h3
  | decAllMore hth2 hpc2 hone =>
    have h3 : s.enterLocked = false := hpost
    rw [hpre] at h3
    cases h3
  | casAllBackStep hth2 hpc2 =>
    have h3 : s.enterLocked = false := hpost
    rw [hpre] at h3
    cases h3
  | checkRelExit hth2 hpc2 =>
    have h3 : s.enterLocked = false := hpost
    rw [hpre] at h3
    cases h3
  | checkRelSleep hth2 hpc2 =>
    have h3 : s.enterLocked = false := hpost
    rw [hpre] at h3
    cases h3
  | enterRelMaybe hth2 hpc2 =>
    rename_i te st
    by_cases hf : st.unlockFlag
    · exact Or.inr (Or.inl ⟨te, st, hth2, hpc2, hf⟩)
    · have h3 : (if st.unlockFlag then false else s.enterLocked) = false := hpost
      rw [if_neg hf, hpre] at h3
      cases h3
  | extAcq hth2 hpc2 =>
    have h3 : s.enterLocked = false := hpost
    rw [hpre] at h3
    cases h3
  | nEnterAcq hth2 hpc2 hfree =>
    have h3 : (true : Bool) = false := hpost
    cases h3
  | nReadZero hth2 hpc2 hz =>
    have h3 : s.enterLocked = false := hpost
    rw [hpre] at h3
    cases h3
  | nReadPos hth2 hpc2 hz =>
    have h3 : s.enterLocked = false := hpost
    rw [hpre] at h3
    cases h3
  | nEnterRel hth2 hpc2 =>
    exact Or.inr (Or.inr ⟨_, _, hth2, hpc2⟩)
  | nCas hth2 hpc2 =>
    have h3 : s.enterLocked = false := hpost
    rw [hpre] at h3
    cases h3

/-- `true` iff the thread is a notifier inside its `m_enter_mut` critical
section (between the lock of line 46 and either return path). -/
def nInCS : TState → Bool
  | .n _ st => match st.pc with
    | .nread | .nzero | .ncas => true
    | _ => false
  | .w _ _ => false

/-- Initially every waiter is at the deadline check with clear flags, holding
its external mutex. -/
theorem init_waiter {n : Nat} (k : Fin n → Kind) {i : Fin n} {te : Bool} {st : WState}
    (h : (initState k).threads i = .w te st) :
    st.pc = .start ∧ st.timedOut = false ∧ st.unlockFlag = false ∧ st.extHeld = true := by
  have h0 : (k i).init = .w te st := h
  cases hk : k i <;> rw [hk] at h0 <;> unfold Kind.init at h0
  · injection h0 with h1 h2
    subst h2
    exact ⟨rfl, rfl, rfl, rfl⟩
  · exact absurd h0 (by simp)

/-- A notifier inside its critical section implies `m_enter_mut` is locked. -/
theorem nInCS_locked {n : Nat} {s : State n} (hInv : Inv s) {j : Fin n}
    (h : nInCS (s.threads j) = true) : s.enterLocked = true := by
  refine locked_of_tok hInv (i := j) ?_
  cases hj : s.threads j with
  | w te st => rw [hj] at h; simp [nInCS] at h
  | n a st =>
    rw [hj] at h
    cases st with
    | mk pc => cases pc <;> simp [nInCS] at h <;> simp [tok]

/-- Claim C1: while spinning with the deadline passed, a waiter declares a
timeout only if the non-blocking `try_lock` of `m_enter_mut` succeeds.  If the
`try_lock` fails the waiter keeps `timed_out = false` and goes back to
spinning; when it succeeds, `m_enter_mut` was free, so no notifier was inside
its critical section at the instant the timeout was declared. -/
theorem claim1_timeout_subordinate_to_notification {n : Nat} {k : Fin n → Kind}
    {s s2 : State n} {i : Fin n} {st : WState}
    (hr : Reach k s) (hstep : Step i s s2)
    (hth : s.threads i = .w true st) (hpc : st.pc = .tryTO) :
    (s.enterLocked = true →
      s2 = { s with threads := Function.update s.threads i (.w true { st with pc := .spin }) } ∧
      ∀ te2 st2, s2.threads i = .w te2 st2 → st2.timedOut = false) ∧
    ((∃ te2 st2, s2.threads i = .w te2 st2 ∧ st2.timedOut = true) →
      s.enterLocked = false ∧ s2.enterLocked = true ∧ ∀ j, nInCS (s.threads j) = false) := by
  obtain ⟨hInv, hF⟩ := reach_inv hr
  have hTOf : st.timedOut = false :=
    timedOut_false_of_pc hInv hth (by rw [hpc]; simp) (by rw [hpc]; simp)
      (by rw [hpc]; simp) (by rw [hpc]; simp)
  rcases step_at_tryTO hstep hth hpc with ⟨hlk, hs2⟩ | ⟨hlk, hs2⟩
  · subst hs2
    constructor
    · intro _
      refine ⟨rfl, ?_⟩
      intro te2 st2 h2
      have h2b : Function.update s.threads i (.w true { st with pc := .spin }) i
          = TState.w te2 st2 := h2
      rw [Function.update_same] at h2b
      injection h2b with a1 a2
      subst a2
      exact hTOf
    · rintro ⟨te2, st2, h2, hto⟩
      exfalso
      have h2b : Function.update s.threads i (.w true { st with pc := .spin }) i
          = TState.w te2 st2 := h2
      rw [Function.update_same] at h2b
      injection h2b with a1 a2
      subst a2
      have h5 : st.timedOut = true := hto
      rw [hTOf] at h5
      cases h5
  · subst hs2
    constructor
    · intro h
      rw [h] at hlk
      cases hlk
    · intro _
      refine ⟨hlk, rfl, ?_⟩
      intro j
      cases hb : nInCS (s.threads j)
      · rfl
      · have := nInCS_locked hInv hb
        rw [this] at hlk
        cases hlk

/-- Claim C2: a pending `NOTIFY_ONE` is consumed by exactly one waiter.  The
`SLEEP → NOTIFY_ONE` and `NOTIFY_ONE → SLEEP` transition counts of any
execution balance up to the pending notification, the consuming
compare-exchange happens under `m_check_mut` ownership and turns the command
back to `SLEEP` while setting the winner's `unlock_enter_mut` flag, a waiter
finding `SLEEP` merely moves to re-spin, and the winner's decrement lowers
`m_num_waiters` by one. -/
theorem claim2_notifyOne_consumed_once {n : Nat} {k : Fin n → Kind} {s : State n}
    {l : List (Fin n × State n × State n)} (h : Steps (initState k) l s) :
    (transCount Cmd.sleep Cmd.notifyOne l
      = transCount Cmd.notifyOne Cmd.sleep l
        + (if s.command = Cmd.notifyOne then 1 else 0)) ∧
    (∀ i s2 te st, Step i s s2 → s.threads i = .w te st → st.pc = .casOne →
      s.checkOwner = some i ∧
      (s.command = .notifyOne →
        s2 = { s with command := Cmd.sleep, threads := Function.update s.threads i (.w te { st with pc := .decOne, unlockFlag := true }) }) ∧
      (s.command = .sleep →
        s2 = { s with threads := Function.update s.threads i (.w te { st with pc := .unlockCheckResleep }) })) ∧
    (∀ i s2 te st, Step i s s2 → s.threads i = .w te st → st.pc = .decOne →
      s2.numWaiters = s.numWaiters - 1 ∧ st.unlockFlag = true ∧
      s2.threads i = .w te { st with pc := .unlockCheckExit }) := by
  obtain ⟨hInv, hF⟩ := steps_inv h (inv_init k) (flagInv_init k)
  refine ⟨?_, ?_, ?_⟩
  · have hb := trans_balance Cmd.notifyOne (by simp) h
    simp [initState] at hb
    omega
  · intro i s2 te st hstep hth hpc
    refine ⟨(hInv.check_iff i).mp ⟨te, st, hth, by rw [hpc]; trivial⟩, ?_, ?_⟩
    · intro hcmd
      rcases step_at_casOne hstep hth hpc with ⟨hc, hs2⟩ | ⟨hc, hs2⟩ | ⟨hc, hs2⟩
      · rw [hcmd] at hc; cases hc
      · exact hs2
      · rw [hcmd] at hc; cases hc
    · intro hcmd
      rcases step_at_casOne hstep hth hpc with ⟨hc, hs2⟩ | ⟨hc, hs2⟩ | ⟨hc, hs2⟩
      · exact hs2
      · rw [hcmd] at hc; cases hc
      · rw [hcmd] at hc; cases hc
  · intro i s2 te st hstep hth hpc
    have hs2 := step_at_decOne hstep hth hpc
    subst hs2
    refine ⟨rfl, hF.decOneFlag i te st hth hpc, ?_⟩
    show Function.update s.threads i (.w te { st with pc := .unlockCheckExit }) i = _
    rw [Function.update_same]

/-- Claim C3: under `NOTIFY_ALL` each waiter decrements `m_num_waiters` once,
and exactly the waiter whose decrement reaches zero swaps the command back to
`SLEEP` (with its `unlock_enter_mut` flag set); the transition counts balance,
and every `NOTIFY_ALL → SLEEP` transition is performed by a waiter at the
reset compare-exchange of line 166. -/
theorem claim3_notifyAll_reset_by_last {n : Nat} {k : Fin n → Kind} {s : State n}
    {l : List (Fin n × State n × State n)} (h : Steps (initState k) l s) :
    (transCount Cmd.sleep Cmd.notifyAll l
      = transCount Cmd.notifyAll Cmd.sleep l
        + (if s.command = Cmd.notifyAll then 1 else 0)) ∧
    (∀ i s2 te st, Step i s s2 → s.threads i = .w te st → st.pc = .decAll →
      s.command = .notifyAll ∧ s.checkOwner = some i ∧
      s2.numWaiters = s.numWaiters - 1 ∧ s2.command = .notifyAll ∧
      (s.numWaiters = 1 →
        s2.threads i = .w te { st with pc := .casAllBack, unlockFlag := true }) ∧
      (s.numWaiters ≠ 1 →
        s2.threads i = .w te { st with pc := .unlockCheckExit })) ∧
    (∀ i s2 te st, Step i s s2 → s.threads i = .w te st → st.pc = .casAllBack →
      s.command = .notifyAll ∧ s.numWaiters = 0 ∧ st.unlockFlag = true ∧
      s2 = { s with command := Cmd.sleep, threads := Function.update s.threads i (.w te { st with pc := .unlockCheckExit }) }) ∧
    (∀ i s2, Step i s s2 → s.command = .notifyAll → s2.command = .sleep →
      ∃ te st, s.threads i = .w te st ∧ st.pc = .casAllBack) := by
  obtain ⟨hInv, hF⟩ := steps_inv h (inv_init k) (flagInv_init k)
  refine ⟨?_, ?_, ?_, ?_⟩
  · have hb := trans_balance Cmd.notifyAll (by simp) h
    simp [initState] at hb
    omega
  · intro i s2 te st hstep hth hpc
    have hcmdAll := hInv.decAllCmd i te st hth hpc
    refine ⟨hcmdAll,
      (hInv.check_iff i).mp ⟨te, st, hth, by rw [hpc]; trivial⟩, ?_⟩
    rcases step_at_decAll hstep hth hpc with ⟨hone, hs2⟩ | ⟨hone, hs2⟩
    · subst hs2
      refine ⟨rfl, hcmdAll, ?_, ?_⟩
      · intro _
        show Function.update s.threads i _ i = _
        rw [Function.update_same]
      · intro hne
        exact absurd hone hne
    · subst hs2
      refine ⟨rfl, hcmdAll, ?_, ?_⟩
      · intro heq
        exact absurd heq hone
      · intro _
        show Function.update s.threads i _ i = _
        rw [Function.update_same]
  · intro i s2 te st hstep hth hpc
    obtain ⟨hcmdAll, hflag⟩ := hInv.casBackCmd i te st hth hpc
    have hw0 := hInv.casBackCount i te st hth hpc
    have hs2 := step_at_casAllBack hstep hth hpc
    refine ⟨hcmdAll, hw0, hflag, ?_⟩
    rw [hs2, if_pos hcmdAll]
  · intro i s2 hstep hall hsleep2
    have hne : s2.command ≠ s.command := by
      rw [hall, hsleep2]
      simp
    rcases command_change hstep hne with ⟨hc, _⟩ | ⟨hc, _⟩ | ⟨hc, _, hw⟩
    · rw [hall] at hc; cases hc
    · rw [hall] at hc; cases hc
    · exact hw

/-- Claim C4: a notify call that saw a non-zero waiter count publishes its
command with a compare-exchange that finds `SLEEP`, and returns with
`m_enter_mut` still locked; while a notification is pending no step releases
`m_enter_mut`, and a release is only ever performed by a registering waiter
(line 95), by a consuming or timed-out waiter whose `unlock_enter_mut` flag is
set (line 176, by then the command is back to `SLEEP`), or by a zero-waiter
notify (line 50). -/
theorem claim4_notify_publishes_and_keeps_enterLock {n : Nat} {k : Fin n → Kind}
    {s : State n} {l : List (Fin n × State n × State n)} (h : Steps (initState k) l s) :
    (∀ i s2 a st, Step i s s2 → s.threads i = .n a st → st.pc = .ncas →
      s.command = .sleep ∧ s.enterLocked = true ∧ 0 < s.numWaiters ∧
      s2 = { s with command := (if a then Cmd.notifyAll else Cmd.notifyOne), threads := Function.update s.threads i (.n a { st with pc := .ndone }) } ∧
      s2.enterLocked = true) ∧
    (∀ i s2, Step i s s2 → s.command ≠ .sleep → s2.enterLocked = true) ∧
    (∀ i s2, Step i s s2 → s.enterLocked = true → s2.enterLocked = false →
      (∃ te st, s.threads i = .w te st ∧ st.pc = .unlockEnterReg) ∨
      (∃ te st, s.threads i = .w te st ∧ st.pc = .maybeUnlockEnter ∧
        st.unlockFlag = true ∧ s.command = .sleep) ∨
      (∃ a st, s.threads i = .n a st ∧ st.pc = .nzero ∧ s.numWaiters = 0)) := by
  obtain ⟨hInv, hF⟩ := steps_inv h (inv_init k) (flagInv_init k)
  refine ⟨?_, ?_, ?_⟩
  · intro i s2 a st hstep hth hpc
    have htokOld : tok (s.threads i) = 1 := by rw [hth]; simp [tok, hpc]
    have hlock : s.enterLocked = true := locked_of_tok hInv htokOld.ge
    have hsleep : s.command = .sleep := by
      refine cmd_sleep_of_tok_one hInv htokOld ?_
      intro te2 st2 he
      rw [hth] at he
      exact absurd he (by simp)
    have hs2 := step_at_ncas hstep hth hpc
    refine ⟨hsleep, hlock, hInv.ncasPos i a st hth hpc, ?_, ?_⟩
    · rw [hs2, if_pos hsleep]
    · rw [hs2]
      exact hlock
  · intro i s2 hstep hne
    have hlock : s.enterLocked = true := by
      cases hb : s.enterLocked
      · exact absurd (hInv.sleepUnlocked hb) hne
      · rfl
    cases hb : s2.enterLocked
    · exfalso
      rcases enterUnlock_change hstep hlock hb with
        ⟨te, st, hth, hpc⟩ | ⟨te, st, hth, hpc, hflag⟩ | ⟨a, st, hth, hpc⟩
      · refine hne (cmd_sleep_of_tok_one hInv (i := i) ?_ ?_)
        · rw [hth]; simp [tok, hpc]
        · intro te2 st2 he hpc2
          rw [hth] at he
          injection he with h1 h2
          subst h2
          rw [hpc] at hpc2
          cases hpc2
      · exact hne (hInv.flagSleep i te st hth (Or.inr (Or.inr ⟨hflag, Or.inr hpc⟩)))
      · refine hne (cmd_sleep_of_tok_one hInv (i := i) ?_ ?_)
        · rw [hth]; simp [tok, hpc]
        · intro te2 st2 he
          rw [hth] at he
          exact absurd he (by simp)
    · rfl
  · intro i s2 hstep hlock hunlock
    rcases enterUnlock_change hstep hlock hunlock with
      ⟨te, st, hth, hpc⟩ | ⟨te, st, hth, hpc, hflag⟩ | ⟨a, st, hth, hpc⟩
    · exact Or.inl ⟨te, st, hth, hpc⟩
    · exact Or.inr (Or.inl ⟨te, st, hth, hpc, hflag,
        hInv.flagSleep i te st hth (Or.inr (Or.inr ⟨hflag, Or.inr hpc⟩))⟩)
    · exact Or.inr (Or.inr ⟨a, st, hth, hpc, hInv.nzeroCount i a st hth hpc⟩)

/-- Claim C5: a notify call that reads a zero waiter count is a no-op: it
acquired `m_enter_mut`, observes zero, releases `m_enter_mut` and returns;
`m_command` is `SLEEP` throughout and no other state changes. -/
theorem claim5_notify_zero_waiters_noop {n : Nat} {k : Fin n → Kind}
    {s : State n} {l : List (Fin n × State n × State n)} (h : Steps (initState k) l s) :
    (∀ i s2 a st, Step i s s2 → s.threads i = .n a st → st.pc = .nlock →
      s.enterLocked = false ∧
      s2 = { s with enterLocked := true, threads := Function.update s.threads i (.n a { st with pc := .nread }) }) ∧
    (∀ i s2 a st, Step i s s2 → s.threads i = .n a st → st.pc = .nread →
      s.numWaiters = 0 →
      s2 = { s with threads := Function.update s.threads i (.n a { st with pc := .nzero }) }) ∧
    (∀ i s2 a st, Step i s s2 → s.threads i = .n a st → st.pc = .nzero →
      s.command = .sleep ∧ s.numWaiters = 0 ∧
      s2 = { s with enterLocked := false, threads := Function.update s.threads i (.n a { st with pc := .ndone }) } ∧
      s2.command = .sleep ∧ s2.numWaiters = s.numWaiters ∧
      s2.checkOwner = s.checkOwner) := by
  obtain ⟨hInv, hF⟩ := steps_inv h (inv_init k) (flagInv_init k)
  refine ⟨?_, ?_, ?_⟩
  · intro i s2 a st hstep hth hpc
    exact step_at_nlock hstep hth hpc
  · intro i s2 a st hstep hth hpc hz
    rcases step_at_nread hstep hth hpc with ⟨h0, hs2⟩ | ⟨h0, hs2⟩
    · exact hs2
    · exact absurd hz h0
  · intro i s2 a st hstep hth hpc
    have htokOld : tok (s.threads i) = 1 := by rw [hth]; simp [tok, hpc]
    have hsleep : s.command = .sleep := by
      refine cmd_sleep_of_tok_one hInv htokOld ?_
      intro te2 st2 he
      rw [hth] at he
      exact absurd he (by simp)
    have hs2 := step_at_nzero hstep hth hpc
    subst hs2
    exact ⟨hsleep, hInv.nzeroCount i a st hth hpc, rfl, hsleep, rfl, rfl⟩

/-- Claim C6: a `timedWait` whose deadline has already passed on entry returns
`false` without registering: `m_num_waiters` and all other shared state are
untouched, the thread never released its external mutex (so the mutex is held
at return), and the returned value is `false`. -/
theorem claim6_expired_deadline_early_return {n : Nat} {k : Fin n → Kind}
    {s s2 : State n} {i : Fin n} {te : Bool} {st : WState}
    (hr : Reach k s) (hstep : Step i s s2)
    (hth : s.threads i = .w te st) (hpc : st.pc = .start)
    (hpost : s2.threads i = .w te { st with pc := .doneEarly }) :
    s2.numWaiters = s.numWaiters ∧ s2.command = s.command ∧
    s2.enterLocked = s.enterLocked ∧ s2.checkOwner = s.checkOwner ∧
    st.extHeld = true ∧ result (s2.threads i) = some false ∧
    cnt (s2.threads i) = 0 ∧ te = true := by
  obtain ⟨hInv, hF⟩ := reach_inv hr
  have hext : st.extHeld = true := extHeld_true_of_pc hInv hth (by rw [hpc]; trivial)
  rcases step_at_start hstep hth hpc with hs2 | ⟨hte, hs2⟩
  · exfalso
    rw [hs2] at hpost
    have hb : Function.update s.threads i (.w te { st with pc := .lockEnter }) i
        = TState.w te { st with pc := .doneEarly } := hpost
    rw [Function.update_same] at hb
    injection hb with h1 h2
    have h3 : WPC.lockEnter = WPC.doneEarly := congrArg WState.pc h2
    cases h3
  · subst hs2
    refine ⟨rfl, rfl, rfl, rfl, hext, ?_, ?_, hte⟩
    · rw [hpost]
      rfl
    · rw [hpost]
      rfl

/-- Claim C7: registration (the increment of line 91 and the external-mutex
release of line 94) happens while `m_enter_mut` is held; the external mutex is
never held anywhere in the spin/check region, and it is held again at every
return point. -/
theorem claim7_external_mutex_discipline {n : Nat} {k : Fin n → Kind} {s : State n}
    (hr : Reach k s) :
    ∀ i te st, s.threads i = .w te st →
      ((st.pc = .incW ∨ st.pc = .unlockExt) → s.enterLocked = true) ∧
      ((st.pc = .unlockEnterReg ∨ st.pc = .spin ∨ st.pc = .tryTO ∨ st.pc = .toDec ∨
        st.pc = .lockCheck ∨ st.pc = .casOne ∨ st.pc = .decOne ∨ st.pc = .decAll ∨
        st.pc = .casAllBack ∨ st.pc = .unlockCheckExit ∨ st.pc = .unlockCheckResleep ∨
        st.pc = .maybeUnlockEnter ∨ st.pc = .relockExt) → st.extHeld = false) ∧
      ((st.pc = .done ∨ st.pc = .doneEarly) → st.extHeld = true) := by
  obtain ⟨hInv, hF⟩ := reach_inv hr
  intro i te st hth
  refine ⟨?_, ?_, ?_⟩
  · intro hpc
    refine locked_of_tok hInv (i := i) ?_
    rw [hth]
    rcases hpc with h | h <;> simp [tok, h]
  · intro hpc
    refine extHeld_false_of_pc hInv hth ?_
    rcases hpc with h|h|h|h|h|h|h|h|h|h|h|h|h <;> rw [h] <;> simp [extRegion]
  · intro hpc
    refine extHeld_true_of_pc hInv hth ?_
    rcases hpc with h | h <;> rw [h] <;> trivial

/-- Claim C8: the command word changes only through the protocol's four
transitions: `SLEEP → NOTIFY_ONE` and `SLEEP → NOTIFY_ALL` by a notifier's
compare-exchange under `m_enter_mut` with a non-zero waiter count,
`NOTIFY_ONE → SLEEP` by one waiter's compare-exchange under `m_check_mut`, and
`NOTIFY_ALL → SLEEP` by the waiter whose decrement reached zero, also under
`m_check_mut`. -/
theorem claim8_command_transitions {n : Nat} {k : Fin n → Kind} {s s2 : State n}
    {i : Fin n} {l : List (Fin n × State n × State n)}
    (h : Steps (initState k) l s) (hstep : Step i s s2)
    (hne : s2.command ≠ s.command) :
    (s.command = .sleep ∧ s.enterLocked = true ∧ 0 < s.numWaiters ∧
      ∃ a st, s.threads i = .n a st ∧ st.pc = .ncas ∧
        s2.command = (if a then Cmd.notifyAll else Cmd.notifyOne)) ∨
    (s.command = .notifyOne ∧ s2.command = .sleep ∧ s.checkOwner = some i ∧
      ∃ te st, s.threads i = .w te st ∧ st.pc = .casOne) ∨
    (s.command = .notifyAll ∧ s2.command = .sleep ∧ s.numWaiters = 0 ∧
      s.checkOwner = some i ∧
      ∃ te st, s.threads i = .w te st ∧ st.pc = .casAllBack) := by
  obtain ⟨hInv, hF⟩ := steps_inv h (inv_init k) (flagInv_init k)
  rcases command_change hstep hne with ⟨hc, a, st, hth, hpc, hcmd2⟩ |
    ⟨hc, hc2, te, st, hth, hpc⟩ | ⟨hc, hc2, te, st, hth, hpc⟩
  · refine Or.inl ⟨hc, ?_, hInv.ncasPos i a st hth hpc, a, st, hth, hpc, hcmd2⟩
    refine locked_of_tok hInv (i := i) ?_
    rw [hth]
    simp [tok, hpc]
  · exact Or.inr (Or.inl ⟨hc, hc2,
      (hInv.check_iff i).mp ⟨te, st, hth, by rw [hpc]; trivial⟩, te, st, hth, hpc⟩)
  · exact Or.inr (Or.inr ⟨hc, hc2, hInv.casBackCount i te st hth hpc,
      (hInv.check_iff i).mp ⟨te, st, hth, by rw [hpc]; trivial⟩, te, st, hth, hpc⟩)

/-- Claim C9: a completed `do_timed_wait` always returns the boolean
`!timed_out` (the early-deadline path returns `false`); there is no other exit
path.  A `true` return traces back to a consuming decrement (the waiter was
released by a notification), and a `false` return at line 181 traces back to
the successful timeout `try_lock`. -/
theorem claim9_boolean_result {n : Nat} {k : Fin n → Kind} {s : State n}
    {l : List (Fin n × State n × State n)} (h : Steps (initState k) l s) :
    (∀ i te st, s.threads i = .w te st → st.pc = .done →
      result (s.threads i) = some (!st.timedOut)) ∧
    (∀ i te st, s.threads i = .w te st → (st.pc = .done ∨ st.pc = .doneEarly) →
      ∃ b, result (s.threads i) = some b) ∧
    (∀ i te st, s.threads i = .w te st → st.pc = .done → st.timedOut = true →
      ∃ e ∈ l, e.1 = i ∧ e.2.1.enterLocked = false ∧
        ∃ st0, e.2.1.threads i = .w true st0 ∧ st0.pc = .tryTO) ∧
    (∀ i te st, s.threads i = .w te st → st.pc = .done → st.timedOut = false →
      ∃ e ∈ l, e.1 = i ∧
        ∃ te0 st0, e.2.1.threads i = .w te0 st0 ∧
          (st0.pc = .decOne ∨ st0.pc = .decAll)) := by
  refine ⟨?_, ?_, ?_, ?_⟩
  · intro i te st hth hpc
    rw [hth]
    simp [result, hpc]
  · intro i te st hth hpc
    rw [hth]
    rcases hpc with h | h <;> simp [result, h]
  · intro i te st hth hpc hto
    rcases timedOut_origin h i te st hth hto with ⟨te0, st0, h0, hto0⟩ | hfound
    · obtain ⟨_, h2, _, _⟩ := init_waiter k h0
      rw [h2] at hto0
      cases hto0
    · exact hfound
  · intro i te st hth hpc hto
    rcases consume_origin h (inv_init k) (flagInv_init k) i te st hth
        (by rw [hpc]; trivial) hto with ⟨te0, st0, h0, hex0, hto0⟩ | hfound
    · obtain ⟨h1, _, _, _⟩ := init_waiter k h0
      rw [h1] at hex0
      simp [exitRegion] at hex0
    · exact hfound

/-- Claim C10: `notify` never writes `m_num_waiters` (it only reads it with
`exchange_and_add(..., 0)`): every change of the counter is by a waiter, the
single increment of line 91 on registration, or one of the decrements of
lines 134, 156 and 162 on an exit path. -/
theorem claim10_notify_preserves_waiterCount {n : Nat} {i : Fin n} {s s2 : State n}
    (hstep : Step i s s2) :
    (∀ a st, s.threads i = .n a st → s2.numWaiters = s.numWaiters) ∧
    (s2.numWaiters ≠ s.numWaiters →
      ∃ te st, s.threads i = .w te st ∧
        ((st.pc = .incW ∧ s2.numWaiters = s.numWaiters + 1) ∨
         ((st.pc = .toDec ∨ st.pc = .decOne ∨ st.pc = .decAll) ∧
           s2.numWaiters = s.numWaiters - 1))) := by
  refine ⟨?_, ?_⟩
  · intro a st hth
    rcases numWaiters_change hstep with heq | ⟨te, st2, hth2, _⟩
    · exact heq
    · rw [hth] at hth2
      exact absurd hth2 (by simp)
  · intro hne
    rcases numWaiters_change hstep with heq | hfound
    · exact absurd heq hne
    · exact hfound

/-- A two-thread configuration: thread 0 a timed waiter, thread 1 a
`notify_one` caller. -/
def kA : Fin 2 → Kind := fun i => if i.val = 0 then .waiter true else .notifier false

/-- A two-thread configuration: thread 0 a timed waiter, thread 1 a
`notify_all` caller. -/
def kB : Fin 2 → Kind := fun i => if i.val = 0 then .waiter true else .notifier true

/-- The waiter thread of the two-thread configurations. -/
def iW : Fin 2 := ⟨0, by decide⟩

/-- The notifier thread of the two-thread configurations. -/
def iN : Fin 2 := ⟨1, by decide⟩

/-- Concrete execution of configuration `kA`: the waiter registers, the
notifier publishes a `NOTIFY_ONE`, and the waiter consumes it and returns. -/
def B0 : State 2 := initState kA

def B1 : State 2 := { B0 with threads := Function.update B0.threads iW (.w true ⟨.lockEnter, false, false, true⟩) }

def B2 : State 2 := { B1 with enterLocked := true, threads := Function.update B1.threads iW (.w true ⟨.incW, false, false, true⟩) }

def B3 : State 2 := { B2 with numWaiters := B2.numWaiters + 1, threads := Function.update B2.threads iW (.w true ⟨.unlockExt, false, false, true⟩) }

def B4 : State 2 := { B3 with threads := Function.update B3.threads iW (.w true ⟨.unlockEnterReg, false, false, false⟩) }

def B5 : State 2 := { B4 with enterLocked := false, threads := Function.update B4.threads iW (.w true ⟨.spin, false, false, false⟩) }

def B6 : State 2 := { B5 with enterLocked := true, threads := Function.update B5.threads iN (.n false ⟨.nread⟩) }

def B7 : State 2 := { B6 with threads := Function.update B6.threads iN (.n false ⟨.ncas⟩) }

def B8 : State 2 := { B7 with command := .notifyOne, threads := Function.update B7.threads iN (.n false ⟨.ndone⟩) }

def B9 : State 2 := { B8 with threads := Function.update B8.threads iW (.w true ⟨.lockCheck, false, false, false⟩) }

def B10 : State 2 := { B9 with checkOwner := some iW, threads := Function.update B9.threads iW (.w true ⟨.casOne, false, false, false⟩) }

def B11 : State 2 := { B10 with command := .sleep, threads := Function.update B10.threads iW (.w true ⟨.decOne, false, true, false⟩) }

def B12 : State 2 := { B11 with numWaiters := B11.numWaiters - 1, threads := Function.update B11.threads iW (.w true ⟨.unlockCheckExit, false, true, false⟩) }

def B13 : State 2 := { B12 with checkOwner := none, threads := Function.update B12.threads iW (.w true ⟨.maybeUnlockEnter, false, true, false⟩) }

def B14 : State 2 := { B13 with enterLocked := false, threads := Function.update B13.threads iW (.w true ⟨.relockExt, false, true, false⟩) }

def B15 : State 2 := { B14 with threads := Function.update B14.threads iW (.w true ⟨.done, false, true, true⟩) }

/-- Branch of the `kA` execution: from `B5` the waiter instead observes the
deadline passed and takes the timeout `try_lock`, which succeeds. -/
def A6 : State 2 := { B5 with threads := Function.update B5.threads iW (.w true ⟨.tryTO, false, false, false⟩) }

def A7 : State 2 := { A6 with enterLocked := true, threads := Function.update A6.threads iW (.w true ⟨.toDec, true, false, false⟩) }

/-- Branch of the `kA` execution: the notifier runs first and finds zero
waiters. -/
def Z1 : State 2 := { B0 with enterLocked := true, threads := Function.update B0.threads iN (.n false ⟨.nread⟩) }

def Z2 : State 2 := { Z1 with threads := Function.update Z1.threads iN (.n false ⟨.nzero⟩) }

def Z3 : State 2 := { Z2 with enterLocked := false, threads := Function.update Z2.threads iN (.n false ⟨.ndone⟩) }

/-- Branch of the `kA` execution: the waiter's deadline has already passed at
entry. -/
def E1 : State 2 := { B0 with threads := Function.update B0.threads iW (.w true ⟨.doneEarly, false, false, true⟩) }

/-- Concrete execution of configuration `kB`: the waiter registers, the
notifier publishes a `NOTIFY_ALL`, and the waiter reaches the decrement of
line 162. -/
def D0 : State 2 := initState kB

def D1 : State 2 := { D0 with threads := Function.update D0.threads iW (.w true ⟨.lockEnter, false, false, true⟩) }

def D2 : State 2 := { D1 with enterLocked := true, threads := Function.update D1.threads iW (.w true ⟨.incW, false, false, true⟩) }

def D3 : State 2 := { D2 with numWaiters := D2.numWaiters + 1, threads := Function.update D2.threads iW (.w true ⟨.unlockExt, false, false, true⟩) }

def D4 : State 2 := { D3 with threads := Function.update D3.threads iW (.w true ⟨.unlockEnterReg, false, false, false⟩) }

def D5 : State 2 := { D4 with enterLocked := false, threads := Function.update D4.threads iW (.w true ⟨.spin, false, false, false⟩) }

def D6 : State 2 := { D5 with enterLocked := true, threads := Function.update D5.threads iN (.n true ⟨.nread⟩) }

def D7 : State 2 := { D6 with threads := Function.update D6.threads iN (.n true ⟨.ncas⟩) }

def D8 : State 2 := { D7 with command := .notifyAll, threads := Function.update D7.threads iN (.n true ⟨.ndone⟩) }

def D9 : State 2 := { D8 with threads := Function.update D8.threads iW (.w true ⟨.lockCheck, false, false, false⟩) }

def D10 : State 2 := { D9 with checkOwner := some iW, threads := Function.update D9.threads iW (.w true ⟨.casOne, false, false, false⟩) }

def D11 : State 2 := { D10 with threads := Function.update D10.threads iW (.w true ⟨.decAll, false, false, false⟩) }

def D12 : State 2 := { D11 with numWaiters := D11.numWaiters - 1, threads := Function.update D11.threads iW (.w true ⟨.casAllBack, false, true, false⟩) }

theorem stepB0 : Step iW B0 B1 :=
  @Step.startGo 2 iW B0 true ⟨.start, false, false, true⟩ rfl rfl

theorem stepB1 : Step iW B1 B2 :=
  @Step.enterAcq 2 iW B1 true ⟨.lockEnter, false, false, true⟩ rfl rfl rfl

theorem stepB2 : Step iW B2 B3 :=
  @Step.incStep 2 iW B2 true ⟨.incW, false, false, true⟩ rfl rfl

theorem stepB3 : Step iW B3 B4 :=
  @Step.extRelease 2 iW B3 true ⟨.unlockExt, false, false, true⟩ rfl rfl

theorem stepB4 : Step iW B4 B5 :=
  @Step.enterRelReg 2 iW B4 true ⟨.unlockEnterReg, false, false, false⟩ rfl rfl

theorem stepB5 : Step iN B5 B6 :=
  @Step.nEnterAcq 2 iN B5 false ⟨.nlock⟩ rfl rfl rfl

theorem stepB6 : Step iN B6 B7 :=
  @Step.nReadPos 2 iN B6 false ⟨.nread⟩ rfl rfl (by decide)

theorem stepB7 : Step iN B7 B8 :=
  @Step.nCas 2 iN B7 false ⟨.ncas⟩ rfl rfl

theorem stepB8 : Step iW B8 B9 :=
  @Step.spinNotice 2 iW B8 true ⟨.spin, false, false, false⟩ rfl rfl (by decide)

theorem stepB9 : Step iW B9 B10 :=
  @Step.checkAcq 2 iW B9 true ⟨.lockCheck, false, false, false⟩ rfl rfl rfl

theorem stepB10 : Step iW B10 B11 :=
  @Step.casOneWin 2 iW B10 true ⟨.casOne, false, false, false⟩ rfl rfl (by decide)

theorem stepB11 : Step iW B11 B12 :=
  @Step.decOneStep 2 iW B11 true ⟨.decOne, false, true, false⟩ rfl rfl

theorem stepB12 : Step iW B12 B13 :=
  @Step.checkRelExit 2 iW B12 true ⟨.unlockCheckExit, false, true, false⟩ rfl rfl

theorem stepB13 : Step iW B13 B14 :=
  @Step.enterRelMaybe 2 iW B13 true ⟨.maybeUnlockEnter, false, true, false⟩ rfl rfl

theorem stepB14 : Step iW B14 B15 :=
  @Step.extAcq 2 iW B14 true ⟨.relockExt, false, true, false⟩ rfl rfl

theorem stepA5 : Step iW B5 A6 :=
  @Step.spinTimeoutChk 2 iW B5 ⟨.spin, false, false, false⟩ rfl rfl (by decide)

theorem stepA6 : Step iW A6 A7 :=
  @Step.trySucc 2 iW A6 ⟨.tryTO, false, false, false⟩ rfl rfl rfl

theorem stepZ0 : Step iN B0 Z1 :=
  @Step.nEnterAcq 2 iN B0 false ⟨.nlock⟩ rfl rfl rfl

theorem stepZ1 : Step iN Z1 Z2 :=
  @Step.nReadZero 2 iN Z1 false ⟨.nread⟩ rfl rfl (by decide)

theorem stepZ2 : Step iN Z2 Z3 :=
  @Step.nEnterRel 2 iN Z2 false ⟨.nzero⟩ rfl rfl

theorem stepE0 : Step iW B0 E1 :=
  @Step.startExpired 2 iW B0 ⟨.start, false, false, true⟩ rfl rfl

theorem stepD0 : Step iW D0 D1 :=
  @Step.startGo 2 iW D0 true ⟨.start, false, false, true⟩ rfl rfl

theorem stepD1 : Step iW D1 D2 :=
  @Step.enterAcq 2 iW D1 true ⟨.lockEnter, false, false, true⟩ rfl rfl rfl

theorem stepD2 : Step iW D2 D3 :=
  @Step.incStep 2 iW D2 true ⟨.incW, false, false, true⟩ rfl rfl

theorem stepD3 : Step iW D3 D4 :=
  @Step.extRelease 2 iW D3 true ⟨.unlockExt, false, false, true⟩ rfl rfl

theorem stepD4 : Step iW D4 D5 :=
  @Step.enterRelReg 2 iW D4 true ⟨.unlockEnterReg, false, false, false⟩ rfl rfl

theorem stepD5 : Step iN D5 D6 :=
  @Step.nEnterAcq 2 iN D5 true ⟨.nlock⟩ rfl rfl rfl

theorem stepD6 : Step iN D6 D7 :=
  @Step.nReadPos 2 iN D6 true ⟨.nread⟩ rfl rfl (by decide)

theorem stepD7 : Step iN D7 D8 :=
  @Step.nCas 2 iN D7 true ⟨.ncas⟩ rfl rfl

theorem stepD8 : Step iW D8 D9 :=
  @Step.spinNotice 2 iW D8 true ⟨.spin, false, false, false⟩ rfl rfl (by decide)

theorem stepD9 : Step iW D9 D10 :=
  @Step.checkAcq 2 iW D9 true ⟨.lockCheck, false, false, false⟩ rfl rfl rfl

theorem stepD10 : Step iW D10 D11 :=
  @Step.casOneAll 2 iW D10 true ⟨.casOne, false, false, false⟩ rfl rfl (by decide)

theorem stepD11 : Step iW D11 D12 :=
  @Step.decAllLast 2 iW D11 true ⟨.decAll, false, false, false⟩ rfl rfl (by decide)

theorem reachA6 : Reach kA A6 :=
  ⟨_, Steps.cons stepB0 (Steps.cons stepB1 (Steps.cons stepB2 (Steps.cons stepB3
    (Steps.cons stepB4 (Steps.cons stepA5 Steps.nil)))))⟩

theorem reachB2 : Reach kA B2 := ⟨_, Steps.cons stepB0 (Steps.cons stepB1 Steps.nil)⟩

theorem stepsToB7 : ∃ l, Steps (initState kA) l B7 :=
  ⟨_, Steps.cons stepB0 (Steps.cons stepB1 (Steps.cons stepB2 (Steps.cons stepB3
    (Steps.cons stepB4 (Steps.cons stepB5 (Steps.cons stepB6 Steps.nil))))))⟩

theorem stepsToB10 : ∃ l, Steps (initState kA) l B10 :=
  ⟨_, Steps.cons stepB0 (Steps.cons stepB1 (Steps.cons stepB2 (Steps.cons stepB3
    (Steps.cons stepB4 (Steps.cons stepB5 (Steps.cons stepB6 (Steps.cons stepB7
    (Steps.cons stepB8 (Steps.cons stepB9 Steps.nil)))))))))⟩

theorem stepsToB15 : ∃ l, Steps (initState kA) l B15 :=
  ⟨_, Steps.cons stepB0 (Steps.cons stepB1 (Steps.cons stepB2 (Steps.cons stepB3
    (Steps.cons stepB4 (Steps.cons stepB5 (Steps.cons stepB6 (Steps.cons stepB7
    (Steps.cons stepB8 (Steps.cons stepB9 (Steps.cons stepB10 (Steps.cons stepB11
    (Steps.cons stepB12 (Steps.cons stepB13 (Steps.cons stepB14 Steps.nil))))))))))))))⟩

theorem stepsToZ2 : ∃ l, Steps (initState kA) l Z2 :=
  ⟨_, Steps.cons stepZ0 (Steps.cons stepZ1 Steps.nil)⟩

theorem stepsToD11 : ∃ l, Steps (initState kB) l D11 :=
  ⟨_, Steps.cons stepD0 (Steps.cons stepD1 (Steps.cons stepD2 (Steps.cons stepD3
    (Steps.cons stepD4 (Steps.cons stepD5 (Steps.cons stepD6 (Steps.cons stepD7
    (Steps.cons stepD8 (Steps.cons stepD9 (Steps.cons stepD10 Steps.nil))))))))))⟩

/-- Witness for C1 at a concrete two-thread execution: the waiter reaches the
timeout `try_lock` with `m_enter_mut` free; the lock succeeds and no notifier
is in its critical section. -/
theorem claim1_timeout_subordinate_to_notification_witness :
    A6.enterLocked = false ∧ A7.enterLocked = true ∧ nInCS (A6.threads iN) = false := by
  have h := (claim1_timeout_subordinate_to_notification reachA6 stepA6 rfl rfl).2
    ⟨true, ⟨.toDec, true, false, false⟩, rfl, rfl⟩
  exact ⟨h.1, h.2.1, h.2.2 iN⟩

/-- Witness for C2: in the concrete `NOTIFY_ONE` execution the consuming
waiter holds `m_check_mut` and its compare-exchange resets the command. -/
theorem claim2_notifyOne_consumed_once_witness :
    B10.checkOwner = some iW ∧ B11.command = Cmd.sleep := by
  obtain ⟨l, hl⟩ := stepsToB10
  have h := (claim2_notifyOne_consumed_once hl).2.1 iW B11 true
    ⟨.casOne, false, false, false⟩ stepB10 rfl rfl
  refine ⟨h.1, ?_⟩
  rw [h.2.1 rfl]

/-- Witness for C3: in the concrete `NOTIFY_ALL` execution the sole waiter's
decrement reaches zero while it holds `m_check_mut`. -/
theorem claim3_notifyAll_reset_by_last_witness :
    D11.command = Cmd.notifyAll ∧ D11.checkOwner = some iW ∧
      D12.numWaiters = D11.numWaiters - 1 := by
  obtain ⟨l, hl⟩ := stepsToD11
  have h := (claim3_notifyAll_reset_by_last hl).2.1 iW D12 true
    ⟨.decAll, false, false, false⟩ stepD11 rfl rfl
  exact ⟨h.1, h.2.1, h.2.2.1⟩

/-- Witness for C4: the concrete notifier publishes over a `SLEEP` command with
one registered waiter and leaves `m_enter_mut` locked. -/
theorem claim4_notify_publishes_and_keeps_enterLock_witness :
    B7.command = Cmd.sleep ∧ 0 < B7.numWaiters ∧ B8.enterLocked = true := by
  obtain ⟨l, hl⟩ := stepsToB7
  have h := (claim4_notify_publishes_and_keeps_enterLock hl).1 iN B8 false
    ⟨.ncas⟩ stepB7 rfl rfl
  exact ⟨h.1, h.2.2.1, h.2.2.2.2⟩

/-- Witness for C5: the concrete notifier that runs before any waiter
registers observes zero waiters and returns with the command still `SLEEP`. -/
theorem claim5_notify_zero_waiters_noop_witness :
    Z2.command = Cmd.sleep ∧ Z2.numWaiters = 0 ∧ Z3.command = Cmd.sleep := by
  obtain ⟨l, hl⟩ := stepsToZ2
  have h := (claim5_notify_zero_waiters_noop hl).2.2 iN Z3 false ⟨.nzero⟩ stepZ2 rfl rfl
  exact ⟨h.1, h.2.1, h.2.2.2.1⟩

/-- Witness for C6: the concrete waiter whose deadline has already passed at
entry returns `false` leaving all shared state untouched. -/
theorem claim6_expired_deadline_early_return_witness :
    E1.numWaiters = B0.numWaiters ∧ E1.command = B0.command ∧
      result (E1.threads iW) = some false ∧ cnt (E1.threads iW) = 0 := by
  have h := claim6_expired_deadline_early_return ⟨[], Steps.nil⟩ stepE0 rfl rfl rfl
  exact ⟨h.1, h.2.1, h.2.2.2.2.2.1, h.2.2.2.2.2.2.1⟩

/-- Witness for C7: the concrete waiter performs its registration increment
while `m_enter_mut` is locked. -/
theorem claim7_external_mutex_discipline_witness : B2.enterLocked = true :=
  (claim7_external_mutex_discipline reachB2 iW true ⟨.incW, false, false, true⟩ rfl).1
    (Or.inl rfl)

/-- Witness for C8: the concrete notifier's command transition starts from
`SLEEP` under a locked `m_enter_mut`. -/
theorem claim8_command_transitions_witness :
    B7.command = Cmd.sleep ∧ B7.enterLocked = true := by
  obtain ⟨l, hl⟩ := stepsToB7
  rcases claim8_command_transitions hl stepB7 (by decide) with h | h | h
  · exact ⟨h.1, h.2.1⟩
  · exact absurd h.1 (by decide)
  · exact absurd h.1 (by decide)

/-- Witness for C9: the concrete waiter released by the `NOTIFY_ONE` returns
the boolean `true`. -/
theorem claim9_boolean_result_witness : result (B15.threads iW) = some true := by
  obtain ⟨l, hl⟩ := stepsToB15
  exact (claim9_boolean_result hl).1 iW true ⟨.done, false, true, true⟩ rfl rfl

/-- Witness for C10: the concrete notifier's `m_enter_mut` acquisition leaves
`m_num_waiters` unchanged. -/
theorem claim10_notify_preserves_waiterCount_witness :
    B6.numWaiters = B5.numWaiters :=
  (claim10_notify_preserves_waiterCount stepB5).1 false ⟨.nlock⟩ rfl

end IpcCond

